import Mathlib

/-!
# HDF5 chunked-array driver: coordinate math, chunk caches and metadata

A shallow embedding of the driver under `tensorstore/driver/hdf5`:

* `hdf5_driver.CalculateChunkCoordinates` and the write-back cache `HDF5ChunkCacheV2`
  (`chunk_cache_v2.cc`),
* the simple cache `HDF5ChunkCache` and its eviction (`src/chunk_cache.cc`),
* the metadata JSON binder, the compatibility key and the compatibility check
  (`metadata.cc`, `compressor.cc`, `driver.cc`),
* the mapping between element types and container datatypes (`src/schema.cc`),
* metadata constraints, codec specs and the negotiation of a schema with metadata
  (`metadata.cc`, `driver.cc`),
* dataset paths, attributes, the chunk transfers of the simple cache and the schema of a
  dataset (`src/driver.cc`, `src/attribute_manager.cc`, `src/chunk_cache.cc`,
  `src/schema.cc`).

Conventions. `Index` (signed 64 bit) is an `Int`, `hsize_t` and `size_t` (unsigned 64 bit)
are a `Nat`; a conversion to `hsize_t` is written `to_hsize_t` and reduces modulo `2 ^ 64`.
A `std::vector` is a `List`, a byte buffer a `List UInt8`.  A read outside a vector is
undefined behaviour in C++ and is kept visible: the function returns `none`, or the
outcome `undefined`; so is a call that breaks a precondition of the engine, and a call
through a null pointer.
-/

namespace tensorstore

/-! ## Element types and status codes -/

/-- The valid element types of the engine (`DataTypeId`). A `DataType` object that may be
invalid (default constructed) is an `Option DataType`. -/
inductive DataType
  | bool_t | char_t | byte_t | int4_t
  | int8_t | uint8_t | int16_t | uint16_t | int32_t | uint32_t | int64_t | uint64_t
  | float16_t | bfloat16_t | float32_t | float64_t
  | complex64_t | complex128_t | string_t | ustring_t | json_t
deriving DecidableEq, Repr

/-- `DataType::name()`. -/
def DataType.name : DataType → String
  | .bool_t => "bool" | .char_t => "char" | .byte_t => "byte" | .int4_t => "int4"
  | .int8_t => "int8" | .uint8_t => "uint8" | .int16_t => "int16" | .uint16_t => "uint16"
  | .int32_t => "int32" | .uint32_t => "uint32" | .int64_t => "int64"
  | .uint64_t => "uint64"
  | .float16_t => "float16" | .bfloat16_t => "bfloat16" | .float32_t => "float32"
  | .float64_t => "float64"
  | .complex64_t => "complex64" | .complex128_t => "complex128"
  | .string_t => "string" | .ustring_t => "ustring" | .json_t => "json"

/-- `DataType::size()`: bytes per element (the in-memory object size for the three
variable-length types). -/
def DataType.size : DataType → Nat
  | .bool_t => 1 | .char_t => 1 | .byte_t => 1 | .int4_t => 1
  | .int8_t => 1 | .uint8_t => 1 | .int16_t => 2 | .uint16_t => 2
  | .int32_t => 4 | .uint32_t => 4 | .int64_t => 8 | .uint64_t => 8
  | .float16_t => 2 | .bfloat16_t => 2 | .float32_t => 4 | .float64_t => 8
  | .complex64_t => 8 | .complex128_t => 16
  | .string_t => 32 | .ustring_t => 32 | .json_t => 16

/-- The `absl::StatusCode` values the driver returns (messages are not modelled). -/
inductive Status
  | OkStatus | InvalidArgument | FailedPrecondition | InternalError | NotFound
deriving DecidableEq, Repr

/-- A `Result<T>`: a value or an error status. -/
inductive Result (α : Type)
  | ok (value : α)
  | error (status : Status)
deriving DecidableEq, Repr

/-- `static_cast<hsize_t>` of a signed value: reduction modulo `2 ^ 64`. -/
def to_hsize_t (x : Int) : Nat := (x % 2 ^ 64).toNat

/-- The decimal value of a run of digit characters. -/
def decimalValue (l : List Char) : Nat := l.foldl (fun a c => 10 * a + (c.toNat - 48)) 0

/-- How a call ends: it returns a value, it leaves by a C++ exception, or it runs into
undefined behaviour (a vector read outside its bounds). -/
inductive Outcome (α : Type)
  | returned (value : α)
  | threw
  | undefined
deriving DecidableEq, Repr

namespace hdf5_driver

/-! ## Coordinate math (`chunk_cache_v2.cc`) -/

/-- The metadata `HDF5ChunkCacheV2` reads: `rank`, `shape`, `chunk_shape`, `dtype`. -/
structure HDF5Metadata where
  rank : Nat
  shape : List Int
  chunk_shape : List Int
  dtype : DataType
deriving DecidableEq, Repr

/-- `HDF5ChunkCacheV2::ChunkKey`. -/
structure ChunkKey where
  indices : List Int
deriving DecidableEq, Repr

/-- The body of the loop of `CalculateChunkCoordinates` at dimension `i`:
`offset[i] = key.indices[i] * chunk_shape[i]` stored into an `hsize_t` (a product that
leaves the `Index` range is taken with its wrapped value), and
`count[i] = std::min(chunk_shape[i], shape[i] - offset[i])`, the subtraction and the
minimum taken in `hsize_t`. `none` when one of the three vectors has no element `i`. -/
def chunkCoordinate (metadata_ : HDF5Metadata) (key : ChunkKey) (i : Nat) :
    Option (Nat × Nat) := do
  let k ← key.indices[i]?
  let c ← metadata_.chunk_shape[i]?
  let s ← metadata_.shape[i]?
  let off := to_hsize_t (k * c)
  pure (off, min (to_hsize_t c) (to_hsize_t (s - off)))

/-- `HDF5ChunkCacheV2::CalculateChunkCoordinates`: the pair `(offset, count)`, one entry
per dimension `i < rank`. The C++ function always returns an OK result; `none` stands for
an out-of-range vector read. -/
def CalculateChunkCoordinates (metadata_ : HDF5Metadata) (key : ChunkKey) :
    Option (List Nat × List Nat) :=
  ((List.range metadata_.rank).mapM (chunkCoordinate metadata_ key)).map List.unzip

/-- The invariant of the data model: `shape` and `chunk_shape` have `rank` entries, chunk
extents are positive, shape extents non-negative, and all are `Index` values. -/
def HDF5Metadata.Valid (m : HDF5Metadata) : Prop :=
  m.shape.length = m.rank ∧ m.chunk_shape.length = m.rank ∧
  ∀ i < m.rank, 0 < m.chunk_shape.getD i 0 ∧ m.chunk_shape.getD i 0 < 2 ^ 63 ∧
    0 ≤ m.shape.getD i 0 ∧ m.shape.getD i 0 < 2 ^ 63

/-- A chunk key exists in the dataset: `rank` non-negative indices with
`key[i] * chunk_shape[i] < shape[i]` in every dimension. -/
def ChunkExists (m : HDF5Metadata) (key : ChunkKey) : Prop :=
  key.indices.length = m.rank ∧
  ∀ i < m.rank, 0 ≤ key.indices.getD i 0 ∧
    key.indices.getD i 0 * m.chunk_shape.getD i 0 < m.shape.getD i 0

/-- Element coordinate `x` lies in the box `[offset, offset + count)`. -/
def InBox (x : List Int) (offset count : List Nat) : Prop :=
  ∀ i < x.length, (offset.getD i 0 : Int) ≤ x.getD i 0 ∧
    x.getD i 0 < (offset.getD i 0 : Int) + (count.getD i 0 : Int)

instance (m : HDF5Metadata) : Decidable m.Valid := by
  unfold HDF5Metadata.Valid; infer_instance

instance (m : HDF5Metadata) (key : ChunkKey) : Decidable (ChunkExists m key) := by
  unfold ChunkExists; infer_instance

instance (x : List Int) (o c : List Nat) : Decidable (InBox x o c) := by
  unfold InBox; infer_instance

/-- What the loop of `CalculateChunkCoordinates` stores at dimension `i` when nothing
wraps around: the exact product and the exact minimum. -/
def coordAt (m : HDF5Metadata) (key : ChunkKey) (i : Nat) : Nat × Nat :=
  ((key.indices.getD i 0 * m.chunk_shape.getD i 0).toNat,
   (min (m.chunk_shape.getD i 0)
        (m.shape.getD i 0 - key.indices.getD i 0 * m.chunk_shape.getD i 0)).toNat)

/-- The key of the chunk that holds element `x`: `x[i] div chunk_shape[i]` per dimension. -/
def keyOf (m : HDF5Metadata) (x : List Int) : ChunkKey :=
  ⟨(List.range m.rank).map (fun i => x.getD i 0 / m.chunk_shape.getD i 0)⟩

/-! ## Type mapping (`src/schema.cc`) -/

/-- The native container types `ConvertToHDF5Type` hands out (`H5T_NATIVE_*`). -/
inductive H5NativeType
  | HBOOL | INT8 | INT16 | INT32 | INT64 | UINT8 | UINT16 | UINT32 | UINT64 | FLOAT | DOUBLE
deriving DecidableEq, Repr

/-- `ConvertToHDF5Type`: the chain of comparisons of `schema.cc`; an invalid `DataType` and
every type outside the chain give `InvalidArgument`. (`H5Tcopy` is taken to succeed.) -/
def ConvertToHDF5Type (dtype : Option DataType) : Result H5NativeType :=
  match dtype with
  | none => .error .InvalidArgument
  | some .bool_t => .ok .HBOOL
  | some .int8_t => .ok .INT8
  | some .int16_t => .ok .INT16
  | some .int32_t => .ok .INT32
  | some .int64_t => .ok .INT64
  | some .uint8_t => .ok .UINT8
  | some .uint16_t => .ok .UINT16
  | some .uint32_t => .ok .UINT32
  | some .uint64_t => .ok .UINT64
  | some .float32_t => .ok .FLOAT
  | some .float64_t => .ok .DOUBLE
  | some _ => .error .InvalidArgument

/-! ## The container seen through hyperslab transfers -/

/-- One `H5Dwrite` call: the hyperslab (`offset`, `count`), the buffer handed over and
whether the container reported success. -/
structure H5Write where
  offset : List Nat
  count : List Nat
  data : List UInt8
  succeeded : Bool
deriving DecidableEq, Repr

/-- The dataset behind `dataset_id_`, an external collaborator (the HDF5 library). It is
known by the calls made on it, oldest first, and by the hyperslab offsets at which it
reports a failure (a failure of `H5Screate_simple`, `H5Sselect_hyperslab`, `H5Dwrite` or
`H5Dread` for that hyperslab). -/
structure Dataset where
  failing_writes : List (List Nat)
  failing_reads : List (List Nat)
  writes : List H5Write
  reads : List (List Nat × List Nat)
deriving DecidableEq, Repr

/-- `H5Dwrite` on the hyperslab (`offset`, `count`): the call is recorded; it succeeds
unless the dataset fails at `offset`. -/
def Dataset.H5Dwrite (ds : Dataset) (offset count : List Nat) (data : List UInt8) :
    Bool × Dataset :=
  let ok := decide (offset ∉ ds.failing_writes)
  (ok, { ds with writes := ds.writes ++ [⟨offset, count, data, ok⟩] })

/-- What the container holds at the hyperslab that starts at `offset`: the buffer of the
last successful write there. -/
def Dataset.stored (ds : Dataset) (offset : List Nat) : Option (List UInt8) :=
  (ds.writes.reverse.find? (fun w => w.succeeded && decide (w.offset = offset))).map
    (fun w => w.data)

/-- `H5Dread` of `n` bytes from the hyperslab (`offset`, `count`): the call is recorded;
on success the buffer holds what is stored there, zero filled up to `n` bytes. -/
def Dataset.H5Dread (ds : Dataset) (offset count : List Nat) (n : Nat) :
    Option (List UInt8) × Dataset :=
  let ds' := { ds with reads := ds.reads ++ [(offset, count)] }
  if offset ∈ ds.failing_reads then (none, ds')
  else
    let held := ((ds.stored offset).getD []).take n
    (some (held ++ List.replicate (n - held.length) 0), ds')

/-! ## The write-back cache `HDF5ChunkCacheV2` (`chunk_cache_v2.cc`) -/

/-- `HDF5ChunkCacheV2::ChunkData`; `dtype` is `none` for a default constructed `DataType`. -/
structure ChunkData where
  data : List UInt8
  dtype : Option DataType
  shape : List Int
deriving DecidableEq, Repr

/-- `HDF5ChunkCacheV2::WritePolicy`. -/
inductive WritePolicy
  | WriteThrough
  | WriteBack
deriving DecidableEq, Repr

namespace HDF5ChunkCacheV2

/-- `HDF5ChunkCacheV2::CacheEntry` together with the key the cache files it under. -/
structure CacheEntry where
  cache_key : String
  chunk_data : ChunkData
  dirty : Bool
deriving DecidableEq, Repr

end HDF5ChunkCacheV2

open HDF5ChunkCacheV2 (CacheEntry)

/-- The state of an `HDF5ChunkCacheV2`. `cache_` is the keyed entry store in creation
order; it is `none` (a null pointer) when the constructor returned early because the
element type has no container type. -/
structure HDF5ChunkCacheV2 where
  dataset : Dataset
  metadata_ : HDF5Metadata
  write_policy_ : WritePolicy
  h5_type_ : Option H5NativeType
  cache_ : Option (List CacheEntry)
deriving DecidableEq, Repr

namespace HDF5ChunkCacheV2

/-- The constructor. -/
def create (dataset : Dataset) (metadata : HDF5Metadata) (write_policy : WritePolicy) :
    HDF5ChunkCacheV2 :=
  match ConvertToHDF5Type (some metadata.dtype) with
  | .error _ => ⟨dataset, metadata, write_policy, none, none⟩
  | .ok t => ⟨dataset, metadata, write_policy, some t, some []⟩

/-- Modelled from the spec: `cache_->GetOrCreateEntry(cache_key)`, a member of the `Cache`
class that is not among the sources; the keyed entry store of the cache: the entry filed
under the key, created empty and clean at the end of the store when there is none. An
entry stays in the store: nothing in `chunk_cache_v2.cc` removes one. -/
def GetOrCreateEntry (entries : List CacheEntry) (cache_key : String) : List CacheEntry :=
  if entries.any (fun e => e.cache_key = cache_key) then entries
  else entries ++ [⟨cache_key, ⟨[], none, []⟩, false⟩]

/-- The entry filed under `cache_key`. -/
def entryOf (entries : List CacheEntry) (cache_key : String) : Option CacheEntry :=
  entries.find? (fun e => e.cache_key = cache_key)

/-- An assignment through the entry pointer: the entry filed under `cache_key` is
replaced by `f` of it. -/
def updateEntry (entries : List CacheEntry) (cache_key : String)
    (f : CacheEntry → CacheEntry) : List CacheEntry :=
  entries.map (fun e => if e.cache_key = cache_key then f e else e)

/-- The string `GetCacheEntry` builds: `"chunk:"`, the first index, then `","` and the
index for each further one. `none` for an empty key, where `key.indices[0]` is read
outside the vector. -/
def cacheKeyOf (key : ChunkKey) : Option String :=
  match key.indices with
  | [] => none
  | i0 :: rest =>
    some (rest.foldl (fun s i => s ++ "," ++ toString i) ("chunk:" ++ toString i0))

/-- `GetCacheEntry`: the cache key of the entry and the store with the entry in it.
`none` is undefined behaviour: an empty key or a null `cache_`. -/
def GetCacheEntry (st : HDF5ChunkCacheV2) (key : ChunkKey) :
    Option (String × HDF5ChunkCacheV2) :=
  match cacheKeyOf key, st.cache_ with
  | some ck, some entries =>
    some (ck, { st with cache_ := some (GetOrCreateEntry entries ck) })
  | _, _ => none

/-- `WriteChunkToHDF5`: the coordinates of the key, then one container write of `data`
at that hyperslab; a failure of the container is `InternalError`. -/
def WriteChunkToHDF5 (metadata_ : HDF5Metadata) (ds : Dataset) (key : ChunkKey)
    (data : List UInt8) : Outcome Status × Dataset :=
  match CalculateChunkCoordinates metadata_ key with
  | none => (.undefined, ds)
  | some (offset, count) =>
    match ds.H5Dwrite offset count data with
    | (true, ds') => (.returned .OkStatus, ds')
    | (false, ds') => (.returned .InternalError, ds')

/-- `ReadChunkFromHDF5`: a buffer of `dtype.size() * count[0] * ... ` bytes (a `size_t`
product) read from the hyperslab of the key. -/
def ReadChunkFromHDF5 (metadata_ : HDF5Metadata) (ds : Dataset) (key : ChunkKey) :
    Outcome (Result (List UInt8)) × Dataset :=
  match CalculateChunkCoordinates metadata_ key with
  | none => (.undefined, ds)
  | some (offset, count) =>
    let chunk_size := count.foldl (fun acc c => acc * c % 2 ^ 64) metadata_.dtype.size
    match ds.H5Dread offset count chunk_size with
    | (none, ds') => (.returned (.error .InternalError), ds')
    | (some data, ds') => (.returned (.ok data), ds')

/-- `ReadChunk`: a non-empty buffer in the entry is a cache hit; otherwise the chunk is
read from the container and stored in the entry with the metadata's `dtype` and
`chunk_shape`. -/
def ReadChunk (st : HDF5ChunkCacheV2) (key : ChunkKey) :
    Outcome (Result ChunkData) × HDF5ChunkCacheV2 :=
  match GetCacheEntry st key with
  | none => (.undefined, st)
  | some (ck, st1) =>
    match (entryOf (st1.cache_.getD []) ck) with
    | none => (.undefined, st1)
    | some entry =>
      if entry.chunk_data.data ≠ [] then (.returned (.ok entry.chunk_data), st1)
      else
        match ReadChunkFromHDF5 st1.metadata_ st1.dataset key with
        | (.undefined, ds) => (.undefined, { st1 with dataset := ds })
        | (.threw, ds) => (.threw, { st1 with dataset := ds })
        | (.returned (.error s), ds) => (.returned (.error s), { st1 with dataset := ds })
        | (.returned (.ok data), ds) =>
          let chunk_data : ChunkData :=
            ⟨data, some st1.metadata_.dtype, st1.metadata_.chunk_shape⟩
          (.returned (.ok chunk_data),
            { st1 with
              dataset := ds
              cache_ := some (updateEntry (st1.cache_.getD []) ck
                (fun e => { e with chunk_data := chunk_data })) })

/-- `WriteChunk`: the entry takes the data and becomes dirty; under `WriteThrough` the
chunk is written to the container at once and that status is returned. -/
def WriteChunk (st : HDF5ChunkCacheV2) (key : ChunkKey) (data : ChunkData) :
    Outcome Status × HDF5ChunkCacheV2 :=
  match GetCacheEntry st key with
  | none => (.undefined, st)
  | some (ck, st1) =>
    let st2 := { st1 with
      cache_ := some (updateEntry (st1.cache_.getD []) ck
        (fun e => { e with chunk_data := data, dirty := true })) }
    match st2.write_policy_ with
    | .WriteThrough =>
      let r := WriteChunkToHDF5 st2.metadata_ st2.dataset key data.data
      (r.1, { st2 with dataset := r.2 })
    | .WriteBack => (.returned .OkStatus, st2)

/-- `CollectDirtyEntries`: the entries whose dirty bit is set, in the order `Visit`
walks the store. -/
def CollectDirtyEntries (entries : List CacheEntry) : List CacheEntry :=
  entries.filter (fun e => e.dirty)

/-- The tokens `std::getline(ss, index_str, ',')` yields until the stream is exhausted;
`acc` holds the characters of the token being read, last first. -/
def getlineTokens : List Char → List Char → List (List Char)
  | [], acc => if acc = [] then [] else [acc.reverse]
  | c :: cs, acc =>
    if c = ',' then acc.reverse :: getlineTokens cs [] else getlineTokens cs (c :: acc)

/-- `isspace` in the C locale: the space and the characters 9 to 13. -/
def isspace (c : Char) : Bool := c = ' ' || (9 ≤ c.toNat && c.toNat ≤ 13)

/-- `std::stoi`: leading white space, an optional sign, then the longest run of decimal
digits. `none` stands for the exception it throws: `std::invalid_argument` without a
digit, `std::out_of_range` when the value is not an `int`. -/
def stoi (s : List Char) : Option Int :=
  let s := s.dropWhile isspace
  let signed : Bool × List Char :=
    match s with
    | '-' :: t => (true, t)
    | '+' :: t => (false, t)
    | _ => (false, s)
  let digits := signed.2.takeWhile Char.isDigit
  if digits = [] then none
  else
    let magnitude : Int :=
      digits.foldl (fun a d => 10 * a + ((d.toNat - 48 : Nat) : Int)) 0
    let value : Int := if signed.1 then -magnitude else magnitude
    if -(2 ^ 31) ≤ value ∧ value < 2 ^ 31 then some value else none

/-- The text after the first `':'` of the cache key (`find` then `substr(pos + 1)`; without
a colon `pos + 1` wraps to 0 and the whole key is taken). -/
def indicesStr (cache_key : String) : List Char :=
  match cache_key.toList.dropWhile (fun c => c ≠ ':') with
  | [] => cache_key.toList
  | _ :: rest => rest

/-- The index list `Flush` and the background writer parse back from a cache key; `none`
when `std::stoi` throws. -/
def parseCacheKey (cache_key : String) : Option (List Int) :=
  (getlineTokens (indicesStr cache_key) []).mapM stoi

/-- The loop of `Flush` over the dirty entries: parse the key, write the entry's data,
return at the first status that is not OK (`TENSORSTORE_RETURN_IF_ERROR`). -/
def flushLoop (metadata_ : HDF5Metadata) :
    List CacheEntry → Dataset → Outcome Status × Dataset
  | [], ds => (.returned .OkStatus, ds)
  | entry :: rest, ds =>
    match parseCacheKey entry.cache_key with
    | none => (.threw, ds)
    | some indices =>
      match WriteChunkToHDF5 metadata_ ds ⟨indices⟩ entry.chunk_data.data with
      | (.returned .OkStatus, ds') => flushLoop metadata_ rest ds'
      | (r, ds') => (r, ds')

/-- `Flush`. No entry is modified: only the container is written. -/
def Flush (st : HDF5ChunkCacheV2) : Outcome Status × HDF5ChunkCacheV2 :=
  match st.cache_ with
  | none => (.undefined, st)
  | some entries =>
    let r := flushLoop st.metadata_ (CollectDirtyEntries entries) st.dataset
    (r.1, { st with dataset := r.2 })

/-- One pass of the loop of the background writer over the dirty entries: as `Flush`,
but the status of each write is dropped (`IgnoreError`) and the loop goes on. -/
def writebackLoop (metadata_ : HDF5Metadata) :
    List CacheEntry → Dataset → Outcome Unit × Dataset
  | [], ds => (.returned (), ds)
  | entry :: rest, ds =>
    match parseCacheKey entry.cache_key with
    | none => (.threw, ds)
    | some indices =>
      match WriteChunkToHDF5 metadata_ ds ⟨indices⟩ entry.chunk_data.data with
      | (.returned _, ds') => writebackLoop metadata_ rest ds'
      | (.threw, ds') => (.threw, ds')
      | (.undefined, ds') => (.undefined, ds')

/-- One cycle of the thread started by `StartBackgroundWriteback`. -/
def BackgroundWritebackCycle (st : HDF5ChunkCacheV2) : Outcome Unit × HDF5ChunkCacheV2 :=
  match st.cache_ with
  | none => (.undefined, st)
  | some entries =>
    let r := writebackLoop st.metadata_ (CollectDirtyEntries entries) st.dataset
    (r.1, { st with dataset := r.2 })

/-- The destructor in a sequential model: `StopBackgroundWriteback()` joins the writer
thread and changes nothing, then `Flush().IgnoreError()`. -/
def destroy (st : HDF5ChunkCacheV2) : HDF5ChunkCacheV2 :=
  (Flush st).2

/-! ### Concrete caches used in the evaluations below -/

/-- A one-dimensional dataset of 8 bytes in chunks of 2, with an empty write-back cache. -/
def demoCache : HDF5ChunkCacheV2 :=
  create ⟨[], [], [], []⟩ ⟨1, [8], [2], .uint8_t⟩ .WriteBack

/-- `demoCache` after `WriteChunk((1), [1, 2])`. -/
def demoWritten : HDF5ChunkCacheV2 :=
  (WriteChunk demoCache ⟨[1]⟩ ⟨[1, 2], some .uint8_t, [2]⟩).2

/-- A one-dimensional dataset of `2 ^ 32` bytes in chunks of one byte, every container
call succeeding, after `WriteChunk((2147483648), [7])` under the write-back policy. -/
def wideWritten : HDF5ChunkCacheV2 :=
  (WriteChunk (create ⟨[], [], [], []⟩ ⟨1, [4294967296], [1], .uint8_t⟩ .WriteBack)
    ⟨[2147483648]⟩ ⟨[7], some .uint8_t, [1]⟩).2

/-- The dataset of `demoCache` with a container that fails at offset 0, after
`WriteChunk((0), [1, 2])` and `WriteChunk((1), [3, 4])` under the write-back policy. -/
def failingWritten : HDF5ChunkCacheV2 :=
  (WriteChunk
    (WriteChunk (create ⟨[[0]], [], [], []⟩ ⟨1, [8], [2], .uint8_t⟩ .WriteBack)
      ⟨[0]⟩ ⟨[1, 2], some .uint8_t, [2]⟩).2
    ⟨[1]⟩ ⟨[3, 4], some .uint8_t, [2]⟩).2

end HDF5ChunkCacheV2

/-! ## The simple cache `HDF5ChunkCache` (`src/chunk_cache.cc`) -/

namespace HDF5ChunkCache

/-- `HDF5ChunkCache::CacheEntry`; `last_access` is a reading of the steady clock. -/
structure CacheEntry where
  data : List UInt8
  dirty : Bool
  last_access : Nat
deriving DecidableEq, Repr

/-- `CacheEntry::ComputeSize`. -/
def CacheEntry.ComputeSize (e : CacheEntry) : Nat := e.data.length

/-- `CacheEntry::DoWrite`: the body is a placeholder comment; the container is left as it
is. -/
def CacheEntry.DoWrite (_e : CacheEntry) (ds : Dataset) : Dataset := ds

end HDF5ChunkCache

/-- The state of an `HDF5ChunkCache`: the dataset behind `dataset_id_` and the member
`cache_`, a `std::unique_ptr` to the entry store: `none` while the pointer is null,
otherwise the entries of the store, each filed under its cache key, in creation order. -/
structure HDF5ChunkCache where
  dataset : Dataset
  cache_ : Option (List (String × HDF5ChunkCache.CacheEntry))
deriving DecidableEq, Repr

namespace HDF5ChunkCache

/-- The constructor `HDF5ChunkCache(dataset_id, metadata)`: it initialises `dataset_id_`,
`metadata_` and `h5_type_` and does not assign `cache_`, which stays null. (`metadata_`
and the `h5_type_` made from it are handed to the functions that read them.) -/
def create (dataset : Dataset) : HDF5ChunkCache := ⟨dataset, none⟩

/-- Modelled from the spec: `cache_->CollectEvictionCandidates`, a member of the absent
`internal::Cache<CacheEntry>`; eviction selects among the entries of the store, so every
entry is a candidate. -/
def CollectEvictionCandidates (cache_ : List (String × CacheEntry)) :
    List (String × CacheEntry) := cache_

/-- Modelled from the spec: `cache_->GetSize`, a member of the absent
`internal::Cache<CacheEntry>`; `total_bytes`, the sum of the sizes of the entries. -/
def GetSize (cache_ : List (String × CacheEntry)) : Nat :=
  (cache_.map (fun e => e.2.ComputeSize)).sum

/-- Modelled from the spec: `cache_->Remove(entry)`, a member of the absent
`internal::Cache<CacheEntry>`; the entry leaves the store. -/
def Remove : List (String × CacheEntry) → String × CacheEntry → List (String × CacheEntry)
  | [], _ => []
  | e :: rest, entry => if e = entry then rest else e :: Remove rest entry

/-- The comparator handed to `std::sort`, as the order it sorts into: ascending
`last_access`. -/
def accessedBefore (a b : String × CacheEntry) : Prop := a.2.last_access ≤ b.2.last_access

instance : DecidableRel accessedBefore := fun a b =>
  inferInstanceAs (Decidable (a.2.last_access ≤ b.2.last_access))

/-- What is known of `std::sort` with the comparator `a->last_access < b->last_access`: it
rearranges the candidates into ascending `last_access`; the order it leaves entries of
equal `last_access` in is up to the library. -/
def IsStdSort (std_sort : List (String × CacheEntry) → List (String × CacheEntry)) : Prop :=
  ∀ candidates, (std_sort candidates).Perm candidates ∧
    (std_sort candidates).Sorted accessedBefore

/-- The loop of `EvictEntries` over the sorted candidates, on the dataset and the entries
of the store: stop once `current_size <= target_size`; otherwise `DoWrite` a dirty entry,
remove the entry and subtract its size. (The subtraction never goes below zero, see
`evictLoop_total`.) -/
def evictLoop : List (String × CacheEntry) → Nat → Nat →
    Dataset × List (String × CacheEntry) → Dataset × List (String × CacheEntry)
  | [], _, _, st => st
  | entry :: rest, current_size, target_size, st =>
    if current_size ≤ target_size then st
    else
      let ds := if entry.2.dirty then entry.2.DoWrite st.1 else st.1
      evictLoop rest (current_size - entry.2.ComputeSize) target_size
        (ds, Remove st.2 entry)

/-- `EvictEntries`, with the `std::sort` of the library as `std_sort`. The first statement
dereferences `cache_`: with the null pointer the call is `undefined`. -/
def EvictEntries (std_sort : List (String × CacheEntry) → List (String × CacheEntry))
    (st : HDF5ChunkCache) (target_size : Nat) : Outcome HDF5ChunkCache :=
  match st.cache_ with
  | none => .undefined
  | some entries =>
    let r := evictLoop (std_sort (CollectEvictionCandidates entries)) (GetSize entries)
      target_size (st.dataset, entries)
    .returned ⟨r.1, some r.2⟩

/-- The cache key `GetCacheEntry` builds: each index followed by `"_"`. -/
def cacheKeyOf (key : List Int) : String :=
  key.foldl (fun s idx => s ++ toString idx ++ "_") ""

/-- `GetCacheEntry` at clock reading `now`: the entry filed under the key; when there is
none it is created, empty and clean, with `last_access = now`. An entry that is already
there keeps its `last_access`. `none` is the dereference of the null `cache_`. -/
def GetCacheEntry (st : HDF5ChunkCache) (key : List Int) (now : Nat) :
    Option ((String × CacheEntry) × HDF5ChunkCache) :=
  match st.cache_ with
  | none => none
  | some entries =>
    match entries.find? (fun e => e.1 = cacheKeyOf key) with
    | some e => some (e, st)
    | none =>
      let e : String × CacheEntry := (cacheKeyOf key, ⟨[], false, now⟩)
      some (e, { st with cache_ := some (entries ++ [e]) })

end HDF5ChunkCache

end hdf5_driver

/-! ## JSON values and their serialization (`::nlohmann::json`) -/

/-- A JSON value. Floating-point numbers are left out: no value the driver serializes here
holds one. An object is the list of its members in key order, as in the `std::map` behind
`object_t`. -/
inductive Json
  | null
  | bool (b : Bool)
  | num (n : Int)
  | str (s : String)
  | arr (elems : List Json)
  | obj (members : List (String × Json))

namespace Json

/-- `object_t::emplace`: the member is inserted at its place in key order (keys compare
character by character); an object that already has the key is left as it is. -/
def emplace : List (String × Json) → String → Json → List (String × Json)
  | [], k, v => [(k, v)]
  | (k', v') :: rest, k, v =>
    if k = k' then (k', v') :: rest
    else if k.toList < k'.toList then (k, v) :: (k', v') :: rest
    else (k', v') :: emplace rest k v

/-- The text the serializer writes for one character of a string: the two-character
escapes, `\u00xx` for the other control characters, the character itself otherwise. -/
def escapeChar (c : Char) : List Char :=
  if c = Char.ofNat 34 then [Char.ofNat 92, Char.ofNat 34]
  else if c = Char.ofNat 92 then [Char.ofNat 92, Char.ofNat 92]
  else if c = Char.ofNat 8 then [Char.ofNat 92, 'b']
  else if c = Char.ofNat 12 then [Char.ofNat 92, 'f']
  else if c = Char.ofNat 10 then [Char.ofNat 92, 'n']
  else if c = Char.ofNat 13 then [Char.ofNat 92, 'r']
  else if c = Char.ofNat 9 then [Char.ofNat 92, 't']
  else if c.toNat ≤ 31 then
    [Char.ofNat 92, 'u', '0', '0', Nat.digitChar (c.toNat / 16), Nat.digitChar (c.toNat % 16)]
  else [c]

/-- A string between double quotes, escaped. -/
def dumpString (s : String) : List Char :=
  Char.ofNat 34 :: (s.toList.map escapeChar).flatten ++ [Char.ofNat 34]

mutual
/-- `json::dump()` with the default arguments: the compact text, no white space. -/
def dump : Json → List Char
  | .null => "null".toList
  | .bool true => "true".toList
  | .bool false => "false".toList
  | .num n => (toString n).toList
  | .str s => dumpString s
  | .arr elems => '[' :: dumpElems elems ++ [']']
  | .obj members => Char.ofNat 123 :: dumpMembers members ++ [Char.ofNat 125]
/-- The elements of an array, separated by commas. -/
def dumpElems : List Json → List Char
  | [] => []
  | [x] => x.dump
  | x :: y :: rest => x.dump ++ ',' :: dumpElems (y :: rest)
/-- The members of an object, `"key":value`, separated by commas. -/
def dumpMembers : List (String × Json) → List Char
  | [] => []
  | [(k, v)] => dumpString k ++ ':' :: v.dump
  | (k, v) :: m :: rest => dumpString k ++ ':' :: v.dump ++ ',' :: dumpMembers (m :: rest)
end

end Json

namespace internal_hdf5

/-! ## Metadata, its JSON binder and the compatibility key (`metadata.cc`) -/

/-- `Compressor`: a null pointer, or a compressor object of a registered type. The registry
holds one type, `"gzip"` (`gzip_compressor.cc`), a zlib compressor with its `level`. -/
inductive Compressor
  | null
  | gzip (level : Int)
deriving DecidableEq, Repr

/-- `HDF5Metadata` (`metadata.h`); `rank` is `dynamic_rank` until a binder sets it. -/
structure HDF5Metadata where
  rank : Int
  shape : List Int
  chunk_shape : List Int
  compressor : Compressor
  dtype : DataType
deriving DecidableEq, Repr

/-- `dynamic_rank`. -/
def dynamic_rank : Int := -1

/-- `kMaxRank`: 32, the upper end of the rank range of the data model. -/
def kMaxRank : Nat := 32

/-- `kInfSize`: the largest extent, which is the largest `Index`. -/
def kInfSize : Int := 2 ^ 63 - 1

/-- `kSupportedDataTypes`. -/
def kSupportedDataTypes : List DataType :=
  [.uint8_t, .uint16_t, .uint32_t, .uint64_t, .int8_t, .int16_t, .int32_t, .int64_t,
   .float32_t, .float64_t]

/-- `ValidateDataType`. -/
def ValidateDataType (dtype : DataType) : Status :=
  if dtype ∈ kSupportedDataTypes then .OkStatus else .InvalidArgument

/-- `ValidateMetadata(HDF5Metadata&)`: the body returns `OkStatus` and checks nothing. -/
def ValidateMetadata (_metadata : HDF5Metadata) : Status := .OkStatus

/-- Modelled from the spec: `jb::Member` inside `jb::Object` when loading, headers of the
engine that are not among the sources; the member `name` of the JSON object, and the
object without it (what is left at the end is an error). -/
def takeMember (members : List (String × Json)) (name : String) :
    Option Json × List (String × Json) :=
  (members.lookup name, members.filter (fun m => m.1 ≠ name))

/-- Modelled from the spec: `jb::Integer<T>(min, max)` when loading, a header of the engine
that is not among the sources; a JSON integer within the bounds. -/
def Integer (min max : Int) : Json → Result Int
  | .num n => if min ≤ n ∧ n ≤ max then .ok n else .error .InvalidArgument
  | _ => .error .InvalidArgument

/-- Every element loaded with `binder`, the first error ending the load. -/
def loadElems (binder : Json → Result Int) : List Json → Result (List Int)
  | [] => .ok []
  | j :: rest =>
    match binder j with
    | .error s => .error s
    | .ok v =>
      match loadElems binder rest with
      | .error s => .error s
      | .ok vs => .ok (v :: vs)

/-- Modelled from the spec: `jb::DimensionIndexedVector(rank, element_binder)` when loading,
a header of the engine that is not among the sources. The value is an array of at most
`kMaxRank` elements; `*rank` is set to its length when it is still `dynamic_rank` and has
to equal it otherwise. Returns the rank and the vector. -/
def DimensionIndexedVector (element_binder : Json → Result Int) (rank : Int) :
    Option Json → Result (Int × List Int)
  | some (.arr elems) =>
    if elems.length ≤ kMaxRank then
      if rank = dynamic_rank ∨ rank = elems.length then
        match loadElems element_binder elems with
        | .ok v => .ok (elems.length, v)
        | .error s => .error s
      else .error .InvalidArgument
    else .error .InvalidArgument
  | _ => .error .InvalidArgument

/-- Modelled from the spec: `jb::ShapeVector(rank)`, extents that are non-negative (§3). -/
def ShapeVector (rank : Int) : Option Json → Result (Int × List Int) :=
  DimensionIndexedVector (Integer 0 kInfSize) rank

/-- Modelled from the spec: `jb::ChunkShapeVector(rank)`, chunk extents that are positive
(§3). -/
def ChunkShapeVector (rank : Int) : Option Json → Result (Int × List Int) :=
  DimensionIndexedVector (Integer 1 kInfSize) rank

/-- Every element type, for the lookup of a type by its name. -/
def allDataTypes : List DataType :=
  [.bool_t, .char_t, .byte_t, .int4_t, .int8_t, .uint8_t, .int16_t, .uint16_t, .int32_t,
   .uint32_t, .int64_t, .uint64_t, .float16_t, .bfloat16_t, .float32_t, .float64_t,
   .complex64_t, .complex128_t, .string_t, .ustring_t, .json_t]

/-- Modelled from the spec: `jb::DataTypeJsonBinder` when loading, a header of the engine
that is not among the sources; the element type with the given name. -/
def DataTypeJsonBinder : Option Json → Result DataType
  | some (.str name) =>
    match allDataTypes.find? (fun d => d.name = name) with
    | some d => .ok d
    | none => .error .InvalidArgument
  | _ => .error .InvalidArgument

/-- The JSON binder of `Compressor` (`compressor.cc`), saving: the member `"id"` is
`"null"` for the null compressor and the registered id otherwise, followed by the members
of the registered binder (gzip: `"level"`, always written). -/
def Compressor.ToJson : Compressor → Json
  | .null => .obj (Json.emplace [] "id" (.str "null"))
  | .gzip level =>
    .obj (Json.emplace (Json.emplace [] "id" (.str "gzip")) "level" (.num level))

/-- The JSON binder of `Compressor`, loading: an object whose `"id"` is `"null"` or a
registered id; for gzip the member `"level"` is an integer in `[0, 9]` and 1 when absent;
any other member is an error. -/
def Compressor.FromJson : Option Json → Result Compressor
  | some (.obj members) =>
    match takeMember members "id" with
    | (some (.str id), rest) =>
      if id = "null" then
        if rest.isEmpty then .ok .null else .error .InvalidArgument
      else if id = "gzip" then
        match takeMember rest "level" with
        | (none, rest') =>
          if rest'.isEmpty then .ok (.gzip 1) else .error .InvalidArgument
        | (some j, rest') =>
          match Integer 0 9 j with
          | .ok level => if rest'.isEmpty then .ok (.gzip level) else .error .InvalidArgument
          | .error s => .error s
      else .error .InvalidArgument
    | _ => .error .InvalidArgument
  | _ => .error .InvalidArgument

/-- `HDF5Metadata::ToJson`, the save direction of `MetadataJsonBinder(identity)`: the
members `shape`, `chunk_shape`, `compression`, `data_type` put into a JSON object. -/
def HDF5Metadata.ToJson (m : HDF5Metadata) : Json :=
  .obj (Json.emplace (Json.emplace (Json.emplace (Json.emplace []
    "shape" (.arr (m.shape.map .num)))
    "chunk_shape" (.arr (m.chunk_shape.map .num)))
    "compression" m.compressor.ToJson)
    "data_type" (.str m.dtype.name))

/-- `HDF5Metadata::FromJson`, the load direction of the default binder: `jb::Object` takes
the four members out of the object in binder order, each loaded by its binder with `rank`
pointing at `obj->rank`; a member left over is an error; `ValidateMetadata` runs last. -/
def HDF5Metadata.FromJson : Json → Result HDF5Metadata
  | .obj members =>
    match ShapeVector dynamic_rank (takeMember members "shape").1 with
    | .error s => .error s
    | .ok (rank, shape) =>
    match ChunkShapeVector rank (takeMember (takeMember members "shape").2 "chunk_shape").1 with
    | .error s => .error s
    | .ok (rank, chunk_shape) =>
    let m2 := (takeMember (takeMember members "shape").2 "chunk_shape").2
    match Compressor.FromJson (takeMember m2 "compression").1 with
    | .error s => .error s
    | .ok compressor =>
    let m3 := (takeMember m2 "compression").2
    match DataTypeJsonBinder (takeMember m3 "data_type").1 with
    | .error s => .error s
    | .ok dtype =>
    if ValidateDataType dtype ≠ .OkStatus then .error (ValidateDataType dtype)
    else if ¬ (takeMember m3 "data_type").2.isEmpty then .error .InvalidArgument
    else
      let metadata : HDF5Metadata := ⟨rank, shape, chunk_shape, compressor, dtype⟩
      if ValidateMetadata metadata ≠ .OkStatus then .error (ValidateMetadata metadata)
      else .ok metadata
  | _ => .error .InvalidArgument

/-- The JSON object `GetCompatibilityKey` builds: `chunk_shape`, `data_type` and
`compression` emplaced into an `object_t`. -/
def HDF5Metadata.compatibilityObject (m : HDF5Metadata) : Json :=
  .obj (Json.emplace (Json.emplace (Json.emplace []
    "chunk_shape" (.arr (m.chunk_shape.map .num)))
    "data_type" (.str m.dtype.name))
    "compression" m.compressor.ToJson)

/-- `HDF5Metadata::GetCompatibilityKey`: the dump of that object. -/
def HDF5Metadata.GetCompatibilityKey (m : HDF5Metadata) : String :=
  String.mk m.compatibilityObject.dump

/-- `DataCache::ValidateMetadataCompatibility` (`driver.cc`): OK when the two
compatibility keys are the same string, `FailedPrecondition` otherwise. -/
def ValidateMetadataCompatibility (existing_metadata new_metadata : HDF5Metadata) : Status :=
  if existing_metadata.GetCompatibilityKey = new_metadata.GetCompatibilityKey then .OkStatus
  else .FailedPrecondition

/-- A compressor the registry can load back: null, or gzip with a level in `[0, 9]`. -/
def Compressor.Registered : Compressor → Prop
  | .null => True
  | .gzip level => 0 ≤ level ∧ level ≤ 9

instance (c : Compressor) : Decidable c.Registered := by
  cases c <;> unfold Compressor.Registered <;> infer_instance

end internal_hdf5

namespace hdf5_driver

/-! ## Container datatypes as `ConvertHDF5Type` inspects them (`src/schema.cc`) -/

/-- `H5T_class_t`, the class `H5Tget_class` reports. -/
inductive H5T_class_t
  | H5T_NO_CLASS | H5T_INTEGER | H5T_FLOAT | H5T_TIME | H5T_STRING | H5T_BITFIELD
  | H5T_OPAQUE | H5T_COMPOUND | H5T_REFERENCE | H5T_ENUM | H5T_VLEN | H5T_ARRAY
deriving DecidableEq, Repr

/-- `H5T_sign_t`, the sign scheme `H5Tget_sign` reports. -/
inductive H5T_sign_t
  | H5T_SGN_ERROR | H5T_SGN_NONE | H5T_SGN_2
deriving DecidableEq, Repr

/-- The datatype behind an `hid_t`, known by what the HDF5 library reports about it:
`H5Tget_class`, `H5Tget_size` (bytes), `H5Tget_sign` and `H5Tis_variable_str`. -/
structure H5Type where
  type_class : H5T_class_t
  size : Nat
  sign : H5T_sign_t
  is_variable_str : Bool
deriving DecidableEq, Repr

/-- The datatype each `H5T_NATIVE_*` constant denotes: fixed-width two's-complement or
unsigned integers and IEEE floats. `H5T_NATIVE_HBOOL` is the integer type of `hbool_t`
(one byte, unsigned). -/
def H5NativeType.toH5Type : H5NativeType → H5Type
  | .HBOOL => ⟨.H5T_INTEGER, 1, .H5T_SGN_NONE, false⟩
  | .INT8 => ⟨.H5T_INTEGER, 1, .H5T_SGN_2, false⟩
  | .INT16 => ⟨.H5T_INTEGER, 2, .H5T_SGN_2, false⟩
  | .INT32 => ⟨.H5T_INTEGER, 4, .H5T_SGN_2, false⟩
  | .INT64 => ⟨.H5T_INTEGER, 8, .H5T_SGN_2, false⟩
  | .UINT8 => ⟨.H5T_INTEGER, 1, .H5T_SGN_NONE, false⟩
  | .UINT16 => ⟨.H5T_INTEGER, 2, .H5T_SGN_NONE, false⟩
  | .UINT32 => ⟨.H5T_INTEGER, 4, .H5T_SGN_NONE, false⟩
  | .UINT64 => ⟨.H5T_INTEGER, 8, .H5T_SGN_NONE, false⟩
  | .FLOAT => ⟨.H5T_FLOAT, 4, .H5T_SGN_ERROR, false⟩
  | .DOUBLE => ⟨.H5T_FLOAT, 8, .H5T_SGN_ERROR, false⟩

/-- `H5Tequal(a, b) > 0`: the two identifiers refer to the same datatype. -/
def H5Tequal (a b : H5Type) : Bool := decide (a = b)

/-- `ConvertHDF5Type`: the switch over the class of the type, then over its size (and
sign for integers); a case that falls out of the switch ends at the final
`InvalidArgument`. -/
def ConvertHDF5Type (h5_type : H5Type) : Result DataType :=
  match h5_type.type_class with
  | .H5T_INTEGER =>
    if h5_type.sign = .H5T_SGN_NONE then
      if h5_type.size = 1 then .ok .uint8_t
      else if h5_type.size = 2 then .ok .uint16_t
      else if h5_type.size = 4 then .ok .uint32_t
      else if h5_type.size = 8 then .ok .uint64_t
      else .error .InvalidArgument
    else
      if h5_type.size = 1 then .ok .int8_t
      else if h5_type.size = 2 then .ok .int16_t
      else if h5_type.size = 4 then .ok .int32_t
      else if h5_type.size = 8 then .ok .int64_t
      else .error .InvalidArgument
  | .H5T_FLOAT =>
    if h5_type.size = 4 then .ok .float32_t
    else if h5_type.size = 8 then .ok .float64_t
    else .error .InvalidArgument
  | .H5T_STRING => .error .InvalidArgument
  | .H5T_COMPOUND => .error .InvalidArgument
  | .H5T_ENUM =>
    if H5Tequal h5_type (H5NativeType.toH5Type .HBOOL) then .ok .bool_t
    else .error .InvalidArgument
  | .H5T_ARRAY | .H5T_TIME | .H5T_BITFIELD | .H5T_OPAQUE | .H5T_REFERENCE | .H5T_VLEN =>
    .error .InvalidArgument
  | .H5T_NO_CLASS => .error .InvalidArgument

/-- A one-dimensional dataset of 7 bytes in chunks of 3 (the chunk at index 2 holds one
element), with an empty write-back cache. -/
def HDF5ChunkCacheV2.edgeCache : HDF5ChunkCacheV2 :=
  HDF5ChunkCacheV2.create ⟨[], [], [], []⟩ ⟨1, [7], [3], .uint8_t⟩ .WriteBack

/-- The number of bytes of `shape` elements of `dtype`: `product(shape) * dtype.size`. -/
def ChunkData.byteSize (shape : List Int) (dtype : DataType) : Int :=
  shape.foldl (fun acc c => acc * c) 1 * dtype.size

end hdf5_driver

namespace Json

mutual

/-- Equality of two JSON values (`operator==` of `::nlohmann::json`, and
`internal_json::JsonSame`): same kind and same content, arrays elementwise and objects
member by member in key order. -/
def same : Json → Json → Bool
  | .null, .null => true
  | .bool a, .bool b => a == b
  | .num a, .num b => a == b
  | .str a, .str b => a == b
  | .arr a, .arr b => sameElems a b
  | .obj a, .obj b => sameMembers a b
  | _, _ => false

/-- Elementwise equality of two arrays. -/
def sameElems : List Json → List Json → Bool
  | [], [] => true
  | a :: as, b :: bs => same a b && sameElems as bs
  | _, _ => false

/-- Memberwise equality of two objects. -/
def sameMembers : List (String × Json) → List (String × Json) → Bool
  | [], [] => true
  | (k, a) :: as, (l, b) :: bs => k == l && same a b && sameMembers as bs
  | _, _ => false

end

end Json

namespace internal_hdf5

/-! ## Metadata constraints and codec specs (`metadata.h`, `metadata.cc`) -/

/-- `HDF5MetadataConstraints` (`metadata.h`): every field but `rank` is optional. -/
structure HDF5MetadataConstraints where
  rank : Int
  shape : Option (List Int)
  chunk_shape : Option (List Int)
  compressor : Option Compressor
  dtype : Option DataType
deriving DecidableEq, Repr

/-- Modelled from the spec: `internal::MetadataMismatchError`
(`internal/json_metadata_matching.h`, not among the sources); the status of a field that
differs from its constraint, a failed precondition. -/
def MetadataMismatchError : Status := .FailedPrecondition

/-- `ValidateMetadata(const HDF5Metadata&, const HDF5MetadataConstraints&)`, the overload
with constraints: the four checks in source order, each one only when the constraint is
present; the compressors are compared as JSON values. -/
def HDF5MetadataConstraints.ValidateMetadata (metadata : HDF5Metadata)
    (constraints : HDF5MetadataConstraints) : Status :=
  if constraints.shape.any (fun shape => decide (metadata.shape ≠ shape)) then
    MetadataMismatchError
  else if constraints.chunk_shape.any
      (fun chunk_shape => decide (metadata.chunk_shape ≠ chunk_shape)) then
    MetadataMismatchError
  else if constraints.dtype.any (fun dtype => decide (dtype ≠ metadata.dtype)) then
    MetadataMismatchError
  else if constraints.compressor.any
      (fun compressor => !(Json.same compressor.ToJson metadata.compressor.ToJson)) then
    MetadataMismatchError
  else .OkStatus

/-- `HDF5CodecSpec` (`metadata.h`). -/
structure HDF5CodecSpec where
  compressor : Option Compressor
deriving DecidableEq, Repr

/-- An `internal::CodecDriverSpec` as `typeid` tells it apart: an `HDF5CodecSpec`, or the
codec spec of another driver, known by its id. -/
inductive CodecDriverSpec
  | hdf5 (spec : HDF5CodecSpec)
  | other (id : String)
deriving DecidableEq, Repr

/-- Modelled from the spec: `internal_json::JsonSame` (`internal/json/same.h`, not among
the sources); the two JSON values are equal. -/
def JsonSame (a b : Json) : Bool := Json.same a b

/-- `HDF5CodecSpec::DoMergeFrom`: the status and the receiver after the call. -/
def HDF5CodecSpec.DoMergeFrom (self : HDF5CodecSpec) (other_base : CodecDriverSpec) :
    Status × HDF5CodecSpec :=
  match other_base with
  | .other _ => (.InvalidArgument, self)
  | .hdf5 other =>
    match other.compressor with
    | some other_compressor =>
      match self.compressor with
      | none => (.OkStatus, { compressor := some other_compressor })
      | some compressor =>
        if !(JsonSame compressor.ToJson other_compressor.ToJson) then
          (.InvalidArgument, self)
        else (.OkStatus, self)
    | none => (.OkStatus, self)

/-- Modelled from the spec: `MergeFrom(const CodecSpec&)` on a codec spec that is an
`HDF5CodecSpec` (`codec_spec.h`, not among the sources); a null `other` changes nothing,
any other is handed to `DoMergeFrom`. -/
def HDF5CodecSpec.MergeFrom (self : HDF5CodecSpec) (other : Option CodecDriverSpec) :
    Status × HDF5CodecSpec :=
  match other with
  | none => (.OkStatus, self)
  | some other_base => self.DoMergeFrom other_base


/-! ## Schema negotiation (`metadata.cc`, `driver.cc`) -/

/-- `kInfIndex`: the index that stands for an unbounded end of an interval. -/
def kInfIndex : Int := 2 ^ 62 - 1

/-- Modelled from the spec: one dimension of an `IndexDomain<>`
(`index_space/index_domain.h`, not among the sources); the interval
`[inclusive_min, exclusive_max)`, each bound either given (and finite) or left open
(infinite and implicit). Labels are left out. A null domain is `none`. -/
structure IndexDomainDimension where
  inclusive_min : Option Int
  exclusive_max : Option Int
deriving DecidableEq, Repr

/-- Modelled from the spec: the `Schema` of the engine (`schema.h`, not among the
sources), by the accessors `metadata.cc` calls: `rank()` (`dynamic_rank` when
unspecified, the rank of the domain when there is one), `domain()`, `dtype()`, `codec()`,
`chunk_layout().rank()`, `fill_value()` and `dimension_units()`; `none` is an invalid
(unspecified) member. -/
structure Schema where
  rank : Int
  domain : Option (List IndexDomainDimension)
  dtype : Option DataType
  codec : Option CodecDriverSpec
  chunk_layout_rank : Int
  fill_value : Option (List Int)
  dimension_units : Option (List (Option String))
deriving DecidableEq, Repr

/-- Modelled from the spec: `RankConstraint::EqualOrUnspecified` (`rank.h`, not among the
sources); the two ranks agree or one of them is `dynamic_rank`. -/
def EqualOrUnspecified (a b : Int) : Bool :=
  decide (a = dynamic_rank ∨ b = dynamic_rank ∨ a = b)

/-- Modelled from the spec: `IsPossiblySameDataType` (`data_type.h`, not among the
sources); the two types are equal or one of them is unspecified. -/
def IsPossiblySameDataType (a b : Option DataType) : Bool :=
  decide (a = none ∨ b = none ∨ a = b)

/-- Modelled from the spec: the merge of one bound of two intervals
(`MergeOptionallyImplicitIndexIntervals`, not among the sources); a bound left open takes
the other one, two given bounds have to be equal. -/
def MergeBound (a b : Option Int) : Result (Option Int) :=
  match a, b with
  | none, b => .ok b
  | some a, none => .ok (some a)
  | some a, some b => if a = b then .ok (some a) else .error .InvalidArgument

/-- Modelled from the spec: the dimensions of two domains merged one by one
(`MergeIndexDomains`, not among the sources); the ranks have to be equal and a merged
interval must not end before it starts. -/
def MergeDimensions :
    List IndexDomainDimension → List IndexDomainDimension → Result (List IndexDomainDimension)
  | [], [] => .ok []
  | a :: as, b :: bs =>
    match MergeBound a.inclusive_min b.inclusive_min,
        MergeBound a.exclusive_max b.exclusive_max, MergeDimensions as bs with
    | .ok lo, .ok hi, .ok rest =>
      if (lo.bind fun l => hi.map fun h => decide (h < l)) = some true then
        .error .InvalidArgument
      else .ok (⟨lo, hi⟩ :: rest)
    | _, _, _ => .error .InvalidArgument
  | _, _ => .error .InvalidArgument

/-- Modelled from the spec: `MergeIndexDomains` (`index_space/index_domain.h`, not among
the sources); a null domain gives way to the other one. -/
def MergeIndexDomains (a b : Option (List IndexDomainDimension)) :
    Result (Option (List IndexDomainDimension)) :=
  match a, b with
  | none, b => .ok b
  | some a, none => .ok (some a)
  | some a, some b =>
    match MergeDimensions a b with
    | .ok d => .ok (some d)
    | .error s => .error s

/-- Modelled from the spec: `IndexDomainBuilder(rank).shape(shape)
.implicit_upper_bounds(true).Finalize()` (`index_space/index_domain_builder.h`, not among
the sources) for a `shape` of length `rank`; the box `[0, shape[i])`, an error for a
negative extent or one above `kInfIndex + 1`; an extent of `kInfIndex + 1` leaves the
upper bound open. -/
def domainOfShape : List Int → Result (List IndexDomainDimension)
  | [] => .ok []
  | size :: rest =>
    if 0 ≤ size ∧ size ≤ kInfIndex + 1 then
      match domainOfShape rest with
      | .ok d => .ok (⟨some 0, if size = kInfIndex + 1 then none else some size⟩ :: d)
      | .error s => .error s
    else .error .InvalidArgument

/-- `GetEffectiveDomain(rank, shape, schema)`. The outcome is `undefined` where a
precondition of the engine is broken: the `assert` on the two ranks, or a builder whose
rank is negative or is not the length of `shape`. `WithImplicitDimensions` changes no
bound. -/
def GetEffectiveDomain (rank : Int) (shape : Option (List Int)) (schema : Schema) :
    Outcome (Result (Option (List IndexDomainDimension))) :=
  if shape = none ∧ schema.domain = none then
    if schema.rank = 0 then .returned (.ok (some []))
    else .returned (.ok none)
  else if !(EqualOrUnspecified schema.rank rank) then .undefined
  else
    let builder_rank := max schema.rank rank
    if builder_rank < 0 then .undefined
    else
      match shape with
      | some shape =>
        if (shape.length : Int) ≠ builder_rank then .undefined
        else
          match domainOfShape shape with
          | .error s => .returned (.error s)
          | .ok domain_from_metadata =>
            .returned (MergeIndexDomains schema.domain (some domain_from_metadata))
      | none =>
        .returned (MergeIndexDomains schema.domain
          (some (List.replicate builder_rank.toNat ⟨some 0, none⟩)))

/-- `GetEffectiveCodec`: the codec spec holding the compressor of the constraints, merged
with the codec of the schema. -/
def GetEffectiveCodec (metadata_constraints : HDF5MetadataConstraints) (schema : Schema) :
    Result HDF5CodecSpec :=
  let codec_spec : HDF5CodecSpec := ⟨metadata_constraints.compressor⟩
  match codec_spec.MergeFrom schema.codec with
  | (.OkStatus, merged) => .ok merged
  | (s, _) => .error s

/-- `GetCodecFromMetadata`. -/
def GetCodecFromMetadata (metadata : HDF5Metadata) : HDF5CodecSpec :=
  ⟨some metadata.compressor⟩

/-- Modelled from the spec: `internal::ConvertInvalidArgumentToFailedPrecondition`
(`util/status.h`, not among the sources). -/
def ConvertInvalidArgumentToFailedPrecondition : Status → Status
  | .InvalidArgument => .FailedPrecondition
  | s => s

/-- `ValidateMetadataSchema`: the checks in source order: rank, domain (when the schema
has one), dtype, codec (when the schema has one), fill value. A chunk layout of the
schema and dimension units of the schema only print a warning. -/
def ValidateMetadataSchema (metadata : HDF5Metadata) (schema : Schema) : Outcome Status :=
  if !(EqualOrUnspecified metadata.rank schema.rank) then .returned .FailedPrecondition
  else
    match (if schema.domain.isSome then
        GetEffectiveDomain metadata.rank (some metadata.shape) schema
      else .returned (.ok none)) with
    | .undefined => .undefined
    | .threw => .threw
    | .returned (.error s) => .returned s
    | .returned (.ok _) =>
      if !(IsPossiblySameDataType (some metadata.dtype) schema.dtype) then
        .returned .FailedPrecondition
      else
        match (if schema.codec.isSome then
            ((GetCodecFromMetadata metadata).MergeFrom schema.codec).1
          else .OkStatus) with
        | .OkStatus =>
          if schema.fill_value.isSome then .returned .InvalidArgument
          else .returned .OkStatus
        | s => .returned (ConvertInvalidArgumentToFailedPrecondition s)

/-- Modelled from the spec: `IsFinite(domain.box())` (`box.h`, not among the sources);
every bound of every dimension is given. -/
def IsFinite (domain : List IndexDomainDimension) : Bool :=
  domain.all (fun d => d.inclusive_min.isSome && d.exclusive_max.isSome)

/-- Modelled from the spec: `domain.shape()` of a finite domain, the extent of each
dimension. -/
def domainShape (domain : List IndexDomainDimension) : List Int :=
  domain.map (fun d => d.exclusive_max.getD 0 - d.inclusive_min.getD 0)

/-- `GetNewMetadata`: rank and shape from the effective domain, dtype from the schema, the
compressor from the effective codec; `chunk_shape` is not assigned and stays empty. -/
def GetNewMetadata (metadata_constraints : HDF5MetadataConstraints) (schema : Schema) :
    Outcome (Result HDF5Metadata) :=
  match GetEffectiveDomain metadata_constraints.rank metadata_constraints.shape schema with
  | .undefined => .undefined
  | .threw => .threw
  | .returned (.error s) => .returned (.error s)
  | .returned (.ok none) => .returned (.error .InvalidArgument)
  | .returned (.ok (some domain)) =>
    if !(IsFinite domain) then .returned (.error .InvalidArgument)
    else
      match schema.dtype with
      | none => .returned (.error .InvalidArgument)
      | some dtype =>
        if ValidateDataType dtype ≠ .OkStatus then .returned (.error (ValidateDataType dtype))
        else
          match GetEffectiveCodec metadata_constraints schema with
          | .error s => .returned (.error s)
          | .ok codec_spec =>
            let metadata : HDF5Metadata :=
              ⟨domain.length, domainShape domain, [], codec_spec.compressor.getD .null, dtype⟩
            if ValidateMetadata metadata ≠ .OkStatus then
              .returned (.error (ValidateMetadata metadata))
            else
              match ValidateMetadataSchema metadata schema with
              | .undefined => .undefined
              | .threw => .threw
              | .returned .OkStatus => .returned (.ok metadata)
              | .returned s => .returned (.error s)

/-- `HDF5DriverSpec` (`driver.cc`): the metadata constraints and the schema of the spec. -/
structure HDF5DriverSpec where
  metadata_constraints : HDF5MetadataConstraints
  schema : Schema
deriving DecidableEq, Repr

/-- `HDF5Driver::OpenState::GetComponentIndex` (`driver.cc`), for the spec of the open
state: the two validation calls are commented out and the body returns 0. `open_mode` is
the set of `OpenMode` flags. -/
def HDF5Driver.OpenState.GetComponentIndex (_spec : HDF5DriverSpec)
    (_metadata : HDF5Metadata) (_open_mode : Nat) : Result Nat :=
  .ok 0


/-- A default-constructed `Schema`: nothing is specified. -/
def Schema.unspecified : Schema :=
  ⟨dynamic_rank, none, none, none, dynamic_rank, none, none⟩

/-- An existing dataset of 4 `float32` elements in chunks of 2, uncompressed. -/
def float32Metadata : HDF5Metadata := ⟨1, [4], [2], .null, .float32_t⟩

/-- A driver spec that asks for `int32`, in its metadata constraints and in its schema. -/
def int32Spec : HDF5DriverSpec :=
  ⟨⟨dynamic_rank, none, none, none, some .int32_t⟩,
   { Schema.unspecified with dtype := some .int32_t }⟩

end internal_hdf5

namespace hdf5_driver

/-! ## Dataset paths (`src/driver.cc`) -/

/-- `std::string::find_last_of(c)` on the characters of a string: the position of the
last occurrence of `c`, `none` for `npos`. (A path is taken by characters; `'/'` is one
byte in UTF-8 and never part of a longer sequence, so splitting at it is the same by
bytes.) -/
def find_last_of : List Char → Char → Option Nat
  | [], _ => none
  | x :: xs, c =>
    match find_last_of xs c with
    | some pos => some (pos + 1)
    | none => if x = c then some 0 else none

/-- `HDF5Driver::GetGroupPath`. -/
def HDF5Driver.GetGroupPath (path : String) : String :=
  match find_last_of path.toList '/' with
  | none => "/"
  | some pos => if pos = 0 then "/" else String.mk (path.toList.take pos)

/-- `HDF5Driver::GetBaseName`. -/
def HDF5Driver.GetBaseName (path : String) : String :=
  match find_last_of path.toList '/' with
  | none => path
  | some pos => String.mk (path.toList.drop (pos + 1))

end hdf5_driver

/-! ## JSON values with their storage kind, and attributes (`src/attribute_manager.cc`) -/

namespace nlohmann

/-- A `nlohmann::json` value with the kind `value.type()` reports for it (`value_t`). The
metadata code above never asks for the kind and is served by `Json`; the attribute manager
switches on it. An integer is held as `number_integer` (an `int64_t`: made from a signed
C++ integer or parsed from a negative literal) or as `number_unsigned` (a `uint64_t`: made
from an unsigned C++ integer or parsed from a non-negative literal). A `number_float` is a
`double`, kept as its 64 bits; a string is the bytes of its `std::string`. -/
inductive json
  | null
  | boolean (b : Bool)
  | number_integer (v : Int)
  | number_unsigned (v : Nat)
  | number_float (bits : Nat)
  | string (s : List UInt8)
  | array (elems : List json)
  | object (members : List (String × json))

end nlohmann

namespace hdf5_driver

/-- The `k` bytes of an unsigned value in memory, least significant byte first (the byte
order of the hosts the driver is built for). -/
def bytesOfNat : Nat → Nat → List UInt8
  | 0, _ => []
  | k + 1, n => UInt8.ofNat (n % 256) :: bytesOfNat k (n / 256)

/-- The unsigned value of a run of bytes, least significant byte first. -/
def natOfBytes : List UInt8 → Nat
  | [] => 0
  | b :: bs => b.toNat + 256 * natOfBytes bs

/-- The `int64_t` with the given 64-bit pattern (two's complement). -/
def int64OfNat (u : Nat) : Int := if u % 2 ^ 64 < 2 ^ 63 then u % 2 ^ 64 else u % 2 ^ 64 - 2 ^ 64

/-- `H5T_C_S1`: the one-byte fixed-length string type. -/
def H5T_C_S1 : H5Type := ⟨.H5T_STRING, 1, .H5T_SGN_ERROR, false⟩

/-- `H5Tset_size(type_id, size)` with the return value ignored: a size of 0 is refused and
leaves the type as it is. -/
def H5Tset_size (type_id : H5Type) (size : Nat) : H5Type :=
  if size = 0 then type_id else { type_id with size := size }

/-- One attribute of an HDF5 object: its name, its datatype, the extent of its
one-dimensional dataspace (a number of elements) and the bytes it holds. -/
structure H5Attribute where
  name : String
  type_id : H5Type
  extent : Nat
  data : List UInt8
deriving DecidableEq, Repr

/-- The object behind `object_id_` (a dataset or a group), as far as attributes go. The
container is taken to carry out every call that is within its preconditions. -/
structure H5Object where
  attributes : List H5Attribute
deriving DecidableEq, Repr

namespace AttributeManager

/-- `AttributeManager::ConvertJsonToHDF5`: the switch over `value.type()`. The cases are
`number_integer`, `number_float` and `string`; every other kind, `number_unsigned`
included, ends in the `default` branch. -/
def ConvertJsonToHDF5 (value : nlohmann.json) : Result (H5Type × List UInt8) :=
  match value with
  | .number_integer v =>
    .ok (H5NativeType.toH5Type .INT64, bytesOfNat 8 (v % 2 ^ 64).toNat)
  | .number_float bits =>
    .ok (H5NativeType.toH5Type .DOUBLE, bytesOfNat 8 bits)
  | .string str =>
    .ok (H5Tset_size H5T_C_S1 str.length, str)
  | _ => .error .InvalidArgument

/-- `AttributeManager::ConvertHDF5ToJson`: the switch over the class of the type. The
integer and the float case read 8 bytes at `data` whatever `size` is, the string case reads
`size` bytes; reading beyond the buffer is `undefined`. -/
def ConvertHDF5ToJson (type_id : H5Type) (data : List UInt8) (size : Nat) :
    Outcome (Result nlohmann.json) :=
  match type_id.type_class with
  | .H5T_INTEGER =>
    if data.length < 8 then .undefined
    else .returned (.ok (.number_integer (int64OfNat (natOfBytes (data.take 8)))))
  | .H5T_FLOAT =>
    if data.length < 8 then .undefined
    else .returned (.ok (.number_float (natOfBytes (data.take 8))))
  | .H5T_STRING =>
    if data.length < size then .undefined
    else .returned (.ok (.string (data.take size)))
  | _ => .returned (.error .InvalidArgument)

/-- `AttributeManager::HasAttribute`. -/
def HasAttribute (obj : H5Object) (name : String) : Bool :=
  obj.attributes.any (fun a => a.name = name)

/-- `AttributeManager::WriteAttribute`: the attribute is opened when it exists and created
with the dataspace `{size}` and the type `type_id` otherwise; `H5Awrite` then takes as many
elements of `type_id` from `data` as the dataspace of the attribute has. Taking more bytes
than `data` holds is `undefined`. A memory type other than the type of an existing
attribute asks the library for a conversion, which is not modelled: that write is taken to
fail. -/
def WriteAttribute (obj : H5Object) (name : String) (data : List UInt8) (type_id : H5Type)
    (size : Nat) : Outcome Status × H5Object :=
  let attr : H5Attribute :=
    match obj.attributes.find? (fun a => a.name = name) with
    | some a => a
    | none => ⟨name, type_id, size, []⟩
  if data.length < attr.extent * type_id.size then (.undefined, obj)
  else if attr.type_id ≠ type_id then (.returned .InternalError, obj)
  else
    let written : H5Attribute := { attr with data := data.take (attr.extent * type_id.size) }
    (.returned .OkStatus,
      { attributes := obj.attributes.filter (fun a => a.name ≠ name) ++ [written] })

/-- `AttributeManager::WriteJsonAttribute`. -/
def WriteJsonAttribute (obj : H5Object) (name : String) (value : nlohmann.json) :
    Outcome Status × H5Object :=
  match ConvertJsonToHDF5 value with
  | .error s => (.returned s, obj)
  | .ok (type_id, data) => WriteAttribute obj name data type_id data.length

/-- `AttributeManager::ReadJsonAttribute`: a buffer of as many bytes as the dataspace of
the attribute has elements, filled by `H5Aread` with all elements of the attribute (writing
beyond the buffer is `undefined`), then `ConvertHDF5ToJson`. -/
def ReadJsonAttribute (obj : H5Object) (name : String) : Outcome (Result nlohmann.json) :=
  if !(HasAttribute obj name) then .returned (.error .NotFound)
  else
    match obj.attributes.find? (fun a => a.name = name) with
    | none => .returned (.error .InternalError)
    | some attr =>
      let size := attr.extent
      if size < attr.extent * attr.type_id.size then .undefined
      else
        let data := attr.data ++ List.replicate (size - attr.data.length) 0
        ConvertHDF5ToJson attr.type_id data size

end AttributeManager

/-- `HDF5Driver::WriteMetadata`: `WriteJsonAttribute` on the dataset of the driver. -/
def HDF5Driver.WriteMetadata (dataset : H5Object) (key : String) (value : nlohmann.json) :
    Outcome Status × H5Object :=
  AttributeManager.WriteJsonAttribute dataset key value

/-- `HDF5Driver::ReadMetadata`: `ReadJsonAttribute` on the dataset of the driver. -/
def HDF5Driver.ReadMetadata (dataset : H5Object) (key : String) :
    Outcome (Result nlohmann.json) :=
  AttributeManager.ReadJsonAttribute dataset key

/-! ## Reading and writing chunks through `HDF5ChunkCache` (`src/chunk_cache.cc`) -/

/-- `hdf5_driver::HDF5Metadata` of `include/tensorstore/driver/hdf5/metadata.h`, the
metadata of `src/chunk_cache.cc`, `src/schema.cc` and `src/driver.cc` (the name
`HDF5Metadata` is taken above by the metadata of `chunk_cache_v2.cc`). `dtype` is `none`
while it is an invalid `DataType`. `h5_type` is the member `src/schema.cc` and
`src/driver.cc` read. The handles `file_id` and `dataset_id` are left out. -/
structure HDF5DatasetMetadata where
  rank : Int
  shape : List Int
  chunks : List Int
  dtype : Option DataType
  dimension_labels : List String
  h5_type : H5Type
deriving DecidableEq, Repr

namespace HDF5ChunkCache

/-- The member `h5_type_` as the constructor leaves it: the type `ConvertToHDF5Type` gives
for `metadata.dtype`, and `none` (the handle -1) when that fails. -/
def h5_type_ (metadata_ : HDF5DatasetMetadata) : Option H5NativeType :=
  match ConvertToHDF5Type metadata_.dtype with
  | .ok h5_type => some h5_type
  | .error _ => none

/-- `GetChunkSizeInBytes`: the product of the chunk extents, accumulated as `size_t`,
times `dtype.size()`. `none` for an invalid `dtype`, whose `size()` is undefined. -/
def GetChunkSizeInBytes (metadata_ : HDF5DatasetMetadata) : Option Nat :=
  metadata_.dtype.map (fun dtype =>
    metadata_.chunks.foldl (fun acc c => acc * to_hsize_t c % 2 ^ 64) 1 * dtype.size % 2 ^ 64)

/-- The loop of `ReadChunk` and `WriteChunk` that turns chunk indices into the offset and
the count of a hyperslab: `offset[i] = chunk_indices[i] * chunks[i]`, `count[i] =
chunks[i]`, stored as `hsize_t`. `none` when `chunks[i]` is read outside the vector. -/
def hyperslab : List Int → List Int → Option (List Nat × List Nat)
  | [], _ => some ([], [])
  | _ :: _, [] => none
  | idx :: indices, c :: chunks =>
    (hyperslab indices chunks).map
      (fun r => (to_hsize_t (idx * c) :: r.1, to_hsize_t c :: r.2))

/-- `HDF5ChunkCache::WriteChunk`: the checks on the type handle and on the size of `data`,
then one `H5Dwrite` of `data` at the hyperslab of the chunk. The entry store `cache_` is
not used. -/
def WriteChunk (metadata_ : HDF5DatasetMetadata) (st : HDF5ChunkCache)
    (chunk_indices : List Int) (data : List UInt8) : Outcome Status × HDF5ChunkCache :=
  match h5_type_ metadata_ with
  | none => (.returned .InternalError, st)
  | some _ =>
    if some data.length ≠ GetChunkSizeInBytes metadata_ then (.returned .InvalidArgument, st)
    else
      match hyperslab chunk_indices metadata_.chunks with
      | none => (.undefined, st)
      | some (offset, count) =>
        match st.dataset.H5Dwrite offset count data with
        | (true, ds) => (.returned .OkStatus, { st with dataset := ds })
        | (false, ds) => (.returned .InternalError, { st with dataset := ds })

/-- `HDF5ChunkCache::ReadChunk`: a buffer of `GetChunkSizeInBytes()` bytes filled by one
`H5Dread` at the hyperslab of the chunk. The entry store `cache_` is not used. -/
def ReadChunk (metadata_ : HDF5DatasetMetadata) (st : HDF5ChunkCache)
    (chunk_indices : List Int) : Outcome (Result (List UInt8)) × HDF5ChunkCache :=
  match h5_type_ metadata_ with
  | none => (.returned (.error .InternalError), st)
  | some _ =>
    match hyperslab chunk_indices metadata_.chunks with
    | none => (.undefined, st)
    | some (offset, count) =>
      match st.dataset.H5Dread offset count ((GetChunkSizeInBytes metadata_).getD 0) with
      | (some buffer, ds) => (.returned (.ok buffer), { st with dataset := ds })
      | (none, ds) => (.returned (.error .InternalError), { st with dataset := ds })

/-- `HDF5ChunkCache::CacheStats` without `num_hits` and `num_misses`, which are counters
of the absent `internal::Cache`. -/
structure CacheStats where
  num_entries : Nat
  total_size : Nat
  num_dirty : Nat
deriving DecidableEq, Repr

/-- Modelled from the spec: `cache_->ForEachEntry`, a member of the absent
`internal::Cache<CacheEntry>`; the callback runs once on every entry of the store. -/
def ForEachEntry {σ : Type} (cache_ : List (String × CacheEntry)) (callback : σ → CacheEntry → σ)
    (init : σ) : σ :=
  cache_.foldl (fun acc e => callback acc e.2) init

/-- `HDF5ChunkCache::GetStats`: the callback counts the entry, adds its size and counts it
as dirty when its dirty bit is set. The call dereferences `cache_`: with the null pointer
it is `undefined`. -/
def GetStats (st : HDF5ChunkCache) : Outcome CacheStats :=
  match st.cache_ with
  | none => .undefined
  | some entries =>
    .returned (ForEachEntry entries
      (fun stats entry =>
        { num_entries := stats.num_entries + 1
          total_size := stats.total_size + entry.ComputeSize
          num_dirty := if entry.dirty then stats.num_dirty + 1 else stats.num_dirty })
      ⟨0, 0, 0⟩)

/-- The dataset of the unit test of the cache: `4 × 4` elements of `uint8` in `2 × 2`
chunks. -/
def testMetadata : HDF5DatasetMetadata :=
  ⟨2, [4, 4], [2, 2], some .uint8_t, [], H5NativeType.toH5Type .UINT8⟩

end HDF5ChunkCache


/-! ## Schemas of a dataset (`src/schema.cc`, `src/driver.cc`) -/

/-- Modelled from the spec: what `dims[i]` of `schema.Set(DimensionConstraints())` holds
(the schema class `src/schema.cc` is written against is not among the sources); the
bounds `[inclusive_min, exclusive_max)` and the label, each once it has been set. -/
structure DimensionConstraints where
  bounds : Option (Int × Int)
  label : Option String
deriving DecidableEq, Repr

/-- Modelled from the spec: what `dims[i]` of `schema.dimension_properties()` holds; the
size of the dimension and its chunk size, each when specified (`valid()`). -/
structure DimensionProperties where
  size : Option Int
  chunk_size : Option Int
deriving DecidableEq, Repr

/-- Modelled from the spec: the `ChunkLayout` set by `GetSchemaFromHDF5`, its grid origin
and its chunk shape. -/
structure ChunkLayout where
  grid_origin : List Int
  chunk_shape : List Int
deriving DecidableEq, Repr

/-- Modelled from the spec: the `Schema` as `src/schema.cc` uses it, by the members it
sets and reads: `rank()`, `dtype()`, the dimension constraints, the dimension properties
and the chunk layout; `none` is a member that is not specified (not `valid()`). -/
structure Schema where
  rank : Option Int
  dtype : Option DataType
  dimension_constraints : Option (List DimensionConstraints)
  dimension_properties : Option (List DimensionProperties)
  chunk_layout : Option ChunkLayout
deriving DecidableEq, Repr

/-- The dimension `i` that the loop of `GetSchemaFromHDF5` sets: bounds `[0, shape[i])`
and the label `dimension_labels[i]` when that is not empty. `none` when `shape[i]` or
`dimension_labels[i]` is read outside its vector. -/
def schemaDimension (metadata : HDF5DatasetMetadata) (i : Nat) : Option DimensionConstraints :=
  match metadata.shape[i]?, metadata.dimension_labels[i]? with
  | some extent, some label => some ⟨some (0, extent), if label = "" then none else some label⟩
  | _, _ => none

/-- `GetSchemaFromHDF5`. An error of `ConvertHDF5Type` is returned; a read outside `shape`
or `dimension_labels` is `undefined`; with chunks and a negative rank the grid origin
`std::vector<Index>(metadata.rank, 0)` cannot be built and the call leaves by an
exception. -/
def GetSchemaFromHDF5 (metadata : HDF5DatasetMetadata) : Outcome (Result Schema) :=
  match ConvertHDF5Type metadata.h5_type with
  | .error s => .returned (.error s)
  | .ok dtype =>
    match (List.range metadata.rank.toNat).mapM (schemaDimension metadata) with
    | none => .undefined
    | some dims =>
      if metadata.chunks ≠ [] then
        if metadata.rank < 0 then .threw
        else
          .returned (.ok ⟨some metadata.rank, some dtype, some dims, none,
            some ⟨List.replicate metadata.rank.toNat 0, metadata.chunks⟩⟩)
      else .returned (.ok ⟨some metadata.rank, some dtype, some dims, none, none⟩)

/-- The checks of the loop of `ValidateSchema` on one dimension. -/
def DimensionProperties.invalid (d : DimensionProperties) : Bool :=
  d.size.any (fun size => decide (size < 0)) ||
    d.chunk_size.any (fun chunk_size => decide (chunk_size ≤ 0))

/-- The loop of `ValidateSchema` over the dimensions `i` still to visit: the first
dimension with a negative size or a chunk size that is not positive ends it with
`InvalidArgument`; `dims[i]` outside `dims` is `undefined`. -/
def validateDimensions (dims : List DimensionProperties) : List Nat → Outcome Status
  | [] => .returned .OkStatus
  | i :: rest =>
    match dims[i]? with
    | none => .undefined
    | some d =>
      if d.invalid then .returned .InvalidArgument else validateDimensions dims rest

/-- `ValidateSchema` (`src/schema.cc`). -/
def ValidateSchema (schema : Schema) : Outcome Status :=
  match schema.rank with
  | none => .returned .InvalidArgument
  | some rank =>
    if schema.dtype.isNone then .returned .InvalidArgument
    else if rank < 1 then .returned .InvalidArgument
    else
      match schema.dimension_properties with
      | some dims => validateDimensions dims (List.range rank.toNat)
      | none => .returned .OkStatus

/-- A dataset of the container as `OpenDatasetInGroup` asks for it: the extents of its
dataspace, its datatype and, when its layout is chunked, its chunk extents. -/
structure H5Dataset where
  dims : List Nat
  type_id : H5Type
  chunk : Option (List Nat)
deriving DecidableEq, Repr

/-- `HDF5Driver::OpenDatasetInGroup`, the metadata of the driver it returns: rank, shape,
`h5_type` and chunks are read from the dataset called `name` of the group; `dtype` and
`dimension_labels` are not assigned. A name the group does not have is `NotFound`. -/
def HDF5Driver.OpenDatasetInGroup (group : List (String × H5Dataset)) (name : String) :
    Result HDF5DatasetMetadata :=
  match group.lookup name with
  | none => .error .NotFound
  | some dataset =>
    .ok ⟨dataset.dims.length, dataset.dims.map (fun d => (d : Int)),
      (dataset.chunk.getD []).map (fun c => (c : Int)), none, [], dataset.type_id⟩

end hdf5_driver

/-! ## Theorems -/

/-! ### Decimal rendering of integers -/

theorem toDigitsCore_eq (f : Nat) : ∀ n ds, n < f →
    Nat.toDigitsCore 10 f n ds = Nat.toDigits 10 n ++ ds := by
  induction f using Nat.strong_induction_on with
  | _ f ih =>
    intro n ds hn
    cases f with
    | zero => omega
    | succ f =>
      unfold Nat.toDigits
      simp only [Nat.toDigitsCore]
      by_cases h0 : n / 10 = 0
      · simp [h0]
      · simp only [h0, if_false]
        have hlt : n / 10 < n := Nat.div_lt_self (by omega) (by decide)
        rw [ih f (by omega) (n / 10) _ (by omega), ih n (by omega) (n / 10) _ hlt]
        simp

theorem toDigits_rec (n : Nat) :
    Nat.toDigits 10 n =
      if n / 10 = 0 then [Nat.digitChar (n % 10)]
      else Nat.toDigits 10 (n / 10) ++ [Nat.digitChar (n % 10)] := by
  conv_lhs => unfold Nat.toDigits
  simp only [Nat.toDigitsCore]
  by_cases h0 : n / 10 = 0
  · simp [h0]
  · simp only [h0, if_false]
    exact toDigitsCore_eq n (n / 10) _ (Nat.div_lt_self (by omega) (by decide))

theorem digitChar_isDigit (d : Nat) (h : d < 10) :
    (Nat.digitChar d).isDigit = true ∧ (Nat.digitChar d).toNat - 48 = d := by
  interval_cases d <;> decide

theorem toDigits_isDigit (n : Nat) : ∀ c ∈ Nat.toDigits 10 n, c.isDigit = true := by
  induction n using Nat.strong_induction_on with
  | _ n ih =>
    rw [toDigits_rec]
    have hd := (digitChar_isDigit (n % 10) (Nat.mod_lt _ (by decide))).1
    by_cases h0 : n / 10 = 0
    · simp [h0, hd]
    · simp only [h0, if_false]
      intro c hc
      rcases List.mem_append.mp hc with h | h
      · exact ih (n / 10) (Nat.div_lt_self (by omega) (by decide)) c h
      · simp at h; rw [h]; exact hd

theorem toDigits_ne_nil (n : Nat) : Nat.toDigits 10 n ≠ [] := by
  rw [toDigits_rec]
  split <;> simp

theorem decimalValue_append (l : List Char) (c : Char) :
    decimalValue (l ++ [c]) = 10 * decimalValue l + (c.toNat - 48) := by
  simp [decimalValue, List.foldl_append]

theorem decimalValue_toDigits (n : Nat) : decimalValue (Nat.toDigits 10 n) = n := by
  induction n using Nat.strong_induction_on with
  | _ n ih =>
    rw [toDigits_rec]
    have hd := (digitChar_isDigit (n % 10) (Nat.mod_lt _ (by decide))).2
    by_cases h0 : n / 10 = 0
    · simp only [h0, if_true]
      have : decimalValue [Nat.digitChar (n % 10)] = (Nat.digitChar (n % 10)).toNat - 48 := by
        simp [decimalValue]
      rw [this, hd]
      omega
    · simp only [h0, if_false]
      rw [decimalValue_append, ih (n / 10) (Nat.div_lt_self (by omega) (by decide)), hd]
      omega

/-- The characters of `toString i` for an `Int`: what `StrCat`, `StrAppend` and the JSON
serializer print for a 64-bit integer. -/
theorem toString_int_toList (i : Int) :
    (toString i).toList =
      if 0 ≤ i then Nat.toDigits 10 i.toNat else '-' :: Nat.toDigits 10 (-i).toNat := by
  cases i with
  | ofNat n =>
    have : (0 : Int) ≤ Int.ofNat n := Int.ofNat_nonneg n
    simp only [this, if_true]
    rfl
  | negSucc n =>
    have : ¬ (0 : Int) ≤ Int.negSucc n := by simp
    simp only [this, if_false]
    rfl

/-- Two runs of characters that satisfy `p`, each followed by a rest that does not start
with such a character, are equal when the whole texts are. -/
theorem run_unique (p : Char → Bool) : ∀ (l₁ l₂ r₁ r₂ : List Char),
    (∀ c ∈ l₁, p c = true) → (∀ c ∈ l₂, p c = true) →
    (∀ c ∈ r₁.head?, p c = false) → (∀ c ∈ r₂.head?, p c = false) →
    l₁ ++ r₁ = l₂ ++ r₂ → l₁ = l₂ ∧ r₁ = r₂ := by
  intro l₁
  induction l₁ with
  | nil =>
    intro l₂ r₁ r₂ _ h2 hr1 _ h
    cases l₂ with
    | nil => exact ⟨rfl, h⟩
    | cons b t =>
      simp only [List.nil_append, List.cons_append] at h
      have := hr1 b (by simp [h])
      have := h2 b (List.mem_cons_self _ _)
      simp_all
  | cons a t ih =>
    intro l₂ r₁ r₂ h1 h2 hr1 hr2 h
    cases l₂ with
    | nil =>
      simp only [List.nil_append, List.cons_append] at h
      have := hr2 a (by simp [← h])
      have := h1 a (List.mem_cons_self _ _)
      simp_all
    | cons b t' =>
      simp only [List.cons_append, List.cons.injEq] at h
      obtain ⟨rfl, h⟩ := h
      obtain ⟨e1, e2⟩ := ih t' r₁ r₂ (fun c hc => h1 c (List.mem_cons_of_mem _ hc))
        (fun c hc => h2 c (List.mem_cons_of_mem _ hc)) hr1 hr2 h
      exact ⟨by rw [e1], e2⟩

/-- Unique reading of a printed integer: if two printed integers, each followed by a rest
that does not start with a digit, give the same text, the integers and the rests agree. -/
theorem toString_int_unique (a b : Int) (r₁ r₂ : List Char)
    (hr1 : ∀ c ∈ r₁.head?, c.isDigit = false) (hr2 : ∀ c ∈ r₂.head?, c.isDigit = false)
    (h : (toString a).toList ++ r₁ = (toString b).toList ++ r₂) : a = b ∧ r₁ = r₂ := by
  rw [toString_int_toList, toString_int_toList] at h
  have key : ∀ m n : Nat, Nat.toDigits 10 m ++ r₁ = Nat.toDigits 10 n ++ r₂ →
      m = n ∧ r₁ = r₂ := by
    intro m n hmn
    obtain ⟨e1, e2⟩ := run_unique Char.isDigit _ _ _ _ (toDigits_isDigit m)
      (toDigits_isDigit n) hr1 hr2 hmn
    refine ⟨?_, e2⟩
    rw [← decimalValue_toDigits m, ← decimalValue_toDigits n, e1]
  have headDigit : ∀ n : Nat, ∀ t, Nat.toDigits 10 n = '-' :: t → False := by
    intro n t hn
    have := toDigits_isDigit n '-' (by rw [hn]; exact List.mem_cons_self _ _)
    exact absurd this (by decide)
  by_cases ha : 0 ≤ a <;> by_cases hb : 0 ≤ b
  · simp only [ha, hb, if_true] at h
    obtain ⟨e, er⟩ := key _ _ h
    exact ⟨by omega, er⟩
  · simp only [ha, hb, if_true, if_false] at h
    exfalso
    cases hd : Nat.toDigits 10 a.toNat with
    | nil => exact toDigits_ne_nil _ hd
    | cons c t =>
      rw [hd] at h
      simp only [List.cons_append, List.cons.injEq] at h
      exact headDigit a.toNat t (by rw [hd, h.1])
  · simp only [ha, hb, if_true, if_false] at h
    exfalso
    cases hd : Nat.toDigits 10 b.toNat with
    | nil => exact toDigits_ne_nil _ hd
    | cons c t =>
      rw [hd] at h
      simp only [List.cons_append, List.cons.injEq] at h
      exact headDigit b.toNat t (by rw [hd, ← h.1])
  · simp only [ha, hb, if_false, List.cons_append, List.cons.injEq, true_and] at h
    obtain ⟨e, er⟩ := key _ _ h
    exact ⟨by omega, er⟩

namespace hdf5_driver

/-! ### Coordinate math -/

theorem mapM_option_eq_some {α β : Type} (f : α → Option β) (g : α → β) (l : List α)
    (h : ∀ x ∈ l, f x = some (g x)) : l.mapM f = some (l.map g) := by
  induction l with
  | nil => rfl
  | cons a t ih =>
    have ha := h a (List.mem_cons_self a t)
    have ht := ih (fun x hx => h x (List.mem_cons_of_mem a hx))
    rw [List.mapM_cons, ha, ht]; rfl

theorem getElem?_eq_some_getD {α : Type} (l : List α) (i : Nat) (d : α)
    (h : i < l.length) : l[i]? = some (l.getD i d) := by
  rw [List.getD_eq_getElem?_getD, List.getElem?_eq_getElem h]; rfl

theorem to_hsize_t_of_nonneg (x : Int) (h0 : 0 ≤ x) (h1 : x < 2 ^ 64) :
    to_hsize_t x = x.toNat := by
  unfold to_hsize_t
  rw [Int.emod_eq_of_lt h0 h1]

theorem chunkCoordinate_eq (m : HDF5Metadata) (key : ChunkKey) (hm : m.Valid)
    (hk : ChunkExists m key) (i : Nat) (hi : i < m.rank) :
    chunkCoordinate m key i = some (coordAt m key i) := by
  obtain ⟨hs, hc, hv⟩ := hm
  obtain ⟨hkl, hkv⟩ := hk
  obtain ⟨hc0, hc1, hs0, hs1⟩ := hv i hi
  obtain ⟨hk0, hk1⟩ := hkv i hi
  have e1 := getElem?_eq_some_getD key.indices i 0 (by omega)
  have e2 := getElem?_eq_some_getD m.chunk_shape i 0 (by omega)
  have e3 := getElem?_eq_some_getD m.shape i 0 (by omega)
  unfold coordAt
  generalize key.indices.getD i 0 = k at *
  generalize m.chunk_shape.getD i 0 = c at *
  generalize m.shape.getD i 0 = s at *
  have hkc : 0 ≤ k * c := Int.mul_nonneg hk0 (le_of_lt hc0)
  have a1 : to_hsize_t (k * c) = (k * c).toNat := to_hsize_t_of_nonneg _ hkc (by omega)
  have a2 : to_hsize_t c = c.toNat := to_hsize_t_of_nonneg _ (by omega) (by omega)
  have a3 : to_hsize_t (s - ((k * c).toNat : Int)) = (s - k * c).toNat := by
    rw [Int.toNat_of_nonneg hkc]
    exact to_hsize_t_of_nonneg _ (by omega) (by omega)
  simp only [chunkCoordinate, e1, e2, e3, Option.bind_eq_bind, Option.some_bind,
    Option.pure_def, a1, a2, a3]
  congr 2
  rcases le_total c (s - k * c) with h | h
  · rw [min_eq_left h, min_eq_left (Int.toNat_le_toNat h)]
  · rw [min_eq_right h, min_eq_right (Int.toNat_le_toNat h)]

theorem CalculateChunkCoordinates_eq (m : HDF5Metadata) (key : ChunkKey) (hm : m.Valid)
    (hk : ChunkExists m key) :
    CalculateChunkCoordinates m key =
      some (((List.range m.rank).map (coordAt m key)).unzip) := by
  unfold CalculateChunkCoordinates
  rw [mapM_option_eq_some _ (coordAt m key)]
  · rfl
  · intro i hi
    exact chunkCoordinate_eq m key hm hk i (List.mem_range.mp hi)

theorem coord_lists (m : HDF5Metadata) (key : ChunkKey) :
    ((List.range m.rank).map (coordAt m key)).unzip.1.length = m.rank ∧
    ((List.range m.rank).map (coordAt m key)).unzip.2.length = m.rank ∧
    ∀ i < m.rank,
      ((List.range m.rank).map (coordAt m key)).unzip.1.getD i 0 = (coordAt m key i).1 ∧
      ((List.range m.rank).map (coordAt m key)).unzip.2.getD i 0 = (coordAt m key i).2 := by
  refine ⟨by simp, by simp, ?_⟩
  intro i hi
  simp [List.unzip_eq_map, List.getD_eq_getElem?_getD, List.getElem?_map,
    List.getElem?_range hi]

theorem coordAt_cast (m : HDF5Metadata) (key : ChunkKey) (hm : m.Valid)
    (hk : ChunkExists m key) (i : Nat) (hi : i < m.rank) :
    ((coordAt m key i).1 : Int) = key.indices.getD i 0 * m.chunk_shape.getD i 0 ∧
    ((coordAt m key i).2 : Int) =
      min (m.chunk_shape.getD i 0)
        (m.shape.getD i 0 - key.indices.getD i 0 * m.chunk_shape.getD i 0) := by
  obtain ⟨_, _, hv⟩ := hm
  obtain ⟨_, hkv⟩ := hk
  obtain ⟨hc0, _, _, _⟩ := hv i hi
  obtain ⟨hk0, hk1⟩ := hkv i hi
  unfold coordAt
  constructor
  · exact Int.toNat_of_nonneg (Int.mul_nonneg hk0 (le_of_lt hc0))
  · exact Int.toNat_of_nonneg (le_min (le_of_lt hc0) (by omega))

/-- C3: for a key that exists in a dataset with positive chunk extents,
`CalculateChunkCoordinates` returns, in every dimension `i`, the offset
`key[i] * chunk_shape[i]` and the count `min(chunk_shape[i], shape[i] - key[i] * chunk_shape[i])`;
for shape `[7]`, chunk shape `[3]` and key `(2)` that is offset 6 and count 1. -/
theorem CalculateChunkCoordinates_offset_count (m : HDF5Metadata) (key : ChunkKey)
    (hm : m.Valid) (hk : ChunkExists m key) :
    (∃ offset count, CalculateChunkCoordinates m key = some (offset, count) ∧
      offset.length = m.rank ∧ count.length = m.rank ∧
      ∀ i < m.rank,
        (offset.getD i 0 : Int) = key.indices.getD i 0 * m.chunk_shape.getD i 0 ∧
        (count.getD i 0 : Int) =
          min (m.chunk_shape.getD i 0)
            (m.shape.getD i 0 - key.indices.getD i 0 * m.chunk_shape.getD i 0)) ∧
    CalculateChunkCoordinates ⟨1, [7], [3], .uint8_t⟩ ⟨[2]⟩ = some ([6], [1]) := by
  refine ⟨?_, by decide⟩
  obtain ⟨h1, h2, h3⟩ := coord_lists m key
  refine ⟨_, _, CalculateChunkCoordinates_eq m key hm hk, h1, h2, ?_⟩
  intro i hi
  rw [(h3 i hi).1, (h3 i hi).2]
  exact coordAt_cast m key hm hk i hi

/-- The dataset of scenario 4 of the specification, `shape = [7]`, `chunk = [3]`, and its
last chunk `(2)`: the hypotheses of C3 hold there and the chunk is clipped to one element. -/
theorem CalculateChunkCoordinates_offset_count_witness :
    HDF5Metadata.Valid ⟨1, [7], [3], .uint8_t⟩ ∧
    ChunkExists ⟨1, [7], [3], .uint8_t⟩ ⟨[2]⟩ ∧
    CalculateChunkCoordinates ⟨1, [7], [3], .uint8_t⟩ ⟨[2]⟩ = some ([6], [1]) :=
  ⟨by decide, by decide,
    (CalculateChunkCoordinates_offset_count ⟨1, [7], [3], .uint8_t⟩ ⟨[2]⟩
      (by decide) (by decide)).2⟩

theorem keyOf_getD (m : HDF5Metadata) (x : List Int) (i : Nat) (hi : i < m.rank) :
    (keyOf m x).indices.getD i 0 = x.getD i 0 / m.chunk_shape.getD i 0 := by
  simp [keyOf, List.getD_eq_getElem?_getD, List.getElem?_map, List.getElem?_range hi]

theorem list_eq_of_getD {l₁ l₂ : List Int} (hl : l₁.length = l₂.length)
    (h : ∀ i < l₁.length, l₁.getD i 0 = l₂.getD i 0) : l₁ = l₂ := by
  apply List.ext_getElem hl
  intro i h1 h2
  have := h i h1
  rwa [List.getD_eq_getElem _ _ h1, List.getD_eq_getElem _ _ h2] at this

theorem key_unique_dim (k c x : Int) (hc : 0 < c) (h1 : k * c ≤ x) (h2 : x < k * c + c) :
    k = x / c := by
  have a : k ≤ x / c := (Int.le_ediv_iff_mul_le hc).mpr h1
  have b : x / c < k + 1 := (Int.ediv_lt_iff_lt_mul hc).mpr (by linarith)
  omega

/-- C4: the clipped chunks tile the array. Every element coordinate `x` inside `shape`
lies in the box of exactly one existing chunk key, the key `x[i] div chunk_shape[i]`, and
the box of every existing key lies inside `[0, shape)`. -/
theorem clipped_chunks_partition (m : HDF5Metadata) (hm : m.Valid) :
    (∀ x : List Int, x.length = m.rank →
      (∀ i < m.rank, 0 ≤ x.getD i 0 ∧ x.getD i 0 < m.shape.getD i 0) →
      ∃ key offset count,
        ChunkExists m key ∧
        (∀ i < m.rank, key.indices.getD i 0 = x.getD i 0 / m.chunk_shape.getD i 0) ∧
        CalculateChunkCoordinates m key = some (offset, count) ∧ InBox x offset count ∧
        ∀ key' offset' count', ChunkExists m key' →
          CalculateChunkCoordinates m key' = some (offset', count') →
          InBox x offset' count' → key' = key) ∧
    (∀ key, ChunkExists m key →
      ∃ offset count, CalculateChunkCoordinates m key = some (offset, count) ∧
        ∀ i < m.rank,
          (offset.getD i 0 : Int) + (count.getD i 0 : Int) ≤ m.shape.getD i 0) := by
  have hv := hm.2.2
  constructor
  · intro x hx hxr
    have hkey : ChunkExists m (keyOf m x) := by
      refine ⟨by simp [keyOf], ?_⟩
      intro i hi
      obtain ⟨hc0, _, _, _⟩ := hv i hi
      obtain ⟨hx0, hx1⟩ := hxr i hi
      rw [keyOf_getD m x i hi]
      exact ⟨Int.ediv_nonneg hx0 (le_of_lt hc0),
        lt_of_le_of_lt (Int.ediv_mul_le _ (ne_of_gt hc0)) hx1⟩
    obtain ⟨l1, l2, l3⟩ := coord_lists m (keyOf m x)
    refine ⟨keyOf m x, _, _, hkey, keyOf_getD m x,
      CalculateChunkCoordinates_eq m _ hm hkey, ?_, ?_⟩
    · intro i hi
      rw [hx] at hi
      obtain ⟨hc0, _, _, _⟩ := hv i hi
      obtain ⟨hx0, hx1⟩ := hxr i hi
      obtain ⟨e1, e2⟩ := coordAt_cast m _ hm hkey i hi
      rw [(l3 i hi).1, (l3 i hi).2, e1, e2, keyOf_getD m x i hi]
      have a := Int.ediv_mul_le (x.getD i 0) (ne_of_gt hc0)
      have b := Int.lt_ediv_add_one_mul_self (x.getD i 0) hc0
      refine ⟨a, ?_⟩
      rcases le_total (m.chunk_shape.getD i 0)
        (m.shape.getD i 0 - x.getD i 0 / m.chunk_shape.getD i 0 * m.chunk_shape.getD i 0)
        with h | h
      · rw [min_eq_left h]; linarith
      · rw [min_eq_right h]; linarith
    · intro key' offset' count' hk' hcalc hbox
      have hcalc' := CalculateChunkCoordinates_eq m key' hm hk'
      rw [hcalc] at hcalc'
      obtain ⟨rfl, rfl⟩ := Prod.mk.inj (Option.some.inj hcalc')
      obtain ⟨p1, p2, p3⟩ := coord_lists m key'
      have : key'.indices = (keyOf m x).indices := by
        apply list_eq_of_getD (by rw [hk'.1, hkey.1])
        intro i hi
        rw [hk'.1] at hi
        obtain ⟨hc0, _, _, _⟩ := hv i hi
        obtain ⟨e1, e2⟩ := coordAt_cast m _ hm hk' i hi
        have hb := hbox i (by omega)
        rw [(p3 i hi).1, (p3 i hi).2, e1, e2] at hb
        rw [keyOf_getD m x i hi]
        apply key_unique_dim _ _ _ hc0 hb.1
        have := min_le_left (m.chunk_shape.getD i 0)
          (m.shape.getD i 0 - key'.indices.getD i 0 * m.chunk_shape.getD i 0)
        linarith [hb.2]
      cases key'
      simp only [keyOf] at this ⊢
      simp_all
  · intro key hk
    obtain ⟨l1, l2, l3⟩ := coord_lists m key
    refine ⟨_, _, CalculateChunkCoordinates_eq m key hm hk, ?_⟩
    intro i hi
    obtain ⟨e1, e2⟩ := coordAt_cast m _ hm hk i hi
    rw [(l3 i hi).1, (l3 i hi).2, e1, e2]
    have := min_le_right (m.chunk_shape.getD i 0)
      (m.shape.getD i 0 - key.indices.getD i 0 * m.chunk_shape.getD i 0)
    linarith

/-- The `7 × 5` array cut into `3 × 5` chunks: the hypothesis of C4 holds, and element
`(6, 4)` lies in the clipped box of the last chunk `(2, 0)`. -/
theorem clipped_chunks_partition_witness :
    HDF5Metadata.Valid ⟨2, [7, 5], [3, 5], .uint8_t⟩ ∧
    CalculateChunkCoordinates ⟨2, [7, 5], [3, 5], .uint8_t⟩ ⟨[2, 0]⟩ =
      some ([6, 0], [1, 5]) ∧
    InBox [6, 4] [6, 0] [1, 5] ∧
    ∃ offset count,
      CalculateChunkCoordinates ⟨2, [7, 5], [3, 5], .uint8_t⟩ ⟨[2, 0]⟩ =
        some (offset, count) ∧
      ∀ i < 2, (offset.getD i 0 : Int) + (count.getD i 0 : Int) ≤
        (([7, 5] : List Int)).getD i 0 :=
  ⟨by decide, by decide, by decide,
    (clipped_chunks_partition ⟨2, [7, 5], [3, 5], .uint8_t⟩ (by decide)).2 ⟨[2, 0]⟩
      (by decide)⟩

end hdf5_driver

namespace hdf5_driver.HDF5ChunkCacheV2

/-! ### The write-back cache -/

theorem entryOf_key (entries : List CacheEntry) (ck : String) (e : CacheEntry)
    (h : entryOf entries ck = some e) : e ∈ entries ∧ e.cache_key = ck := by
  unfold entryOf at h
  refine ⟨List.mem_of_find?_eq_some h, ?_⟩
  have hp := @List.find?_some _ (fun x : CacheEntry => decide (x.cache_key = ck)) _ _ h
  simpa using hp

theorem GetOrCreateEntry_of_entryOf (entries : List CacheEntry) (ck : String) (e : CacheEntry)
    (h : entryOf entries ck = some e) : GetOrCreateEntry entries ck = entries := by
  obtain ⟨hm, hk⟩ := entryOf_key entries ck e h
  unfold GetOrCreateEntry
  rw [if_pos]
  rw [List.any_eq_true]
  exact ⟨e, hm, by simpa using hk⟩

theorem entryOf_GetOrCreateEntry (entries : List CacheEntry) (ck : String) :
    ∃ e, entryOf (GetOrCreateEntry entries ck) ck = some e := by
  unfold GetOrCreateEntry
  by_cases h : entries.any (fun e => e.cache_key = ck) = true
  · rw [if_pos h]
    rw [List.any_eq_true] at h
    obtain ⟨x, hx, hk⟩ := h
    cases hf : entryOf entries ck with
    | some e => exact ⟨e, rfl⟩
    | none =>
      unfold entryOf at hf
      rw [List.find?_eq_none] at hf
      exact absurd hk (hf x hx)
  · rw [if_neg h]
    cases hf : entryOf entries ck with
    | some e =>
      obtain ⟨hm, hk⟩ := entryOf_key entries ck e hf
      exact absurd (List.any_eq_true.mpr ⟨e, hm, by simpa using hk⟩) h
    | none =>
      refine ⟨⟨ck, ⟨[], none, []⟩, false⟩, ?_⟩
      unfold entryOf at hf ⊢
      rw [List.find?_append, hf]
      simp

theorem entryOf_updateEntry (entries : List CacheEntry) (ck : String)
    (f : CacheEntry → CacheEntry) (hf : ∀ e, (f e).cache_key = e.cache_key) (e : CacheEntry)
    (h : entryOf entries ck = some e) : entryOf (updateEntry entries ck f) ck = some (f e) := by
  unfold entryOf updateEntry at *
  induction entries with
  | nil => simp at h
  | cons a t ih =>
    rw [List.map_cons]
    by_cases ha : a.cache_key = ck
    · rw [List.find?_cons_of_pos _ (by simpa using ha)] at h
      cases h
      rw [if_pos ha, List.find?_cons_of_pos _ (by simpa [hf] using ha)]
    · rw [List.find?_cons_of_neg _ (by simpa using ha)] at h
      rw [if_neg ha, List.find?_cons_of_neg _ (by simpa using ha)]
      exact ih h

/-- A read of a key whose entry holds a non-empty buffer is served from the entry and
leaves the whole state, the container included, as it was. -/
theorem ReadChunk_hit (st : HDF5ChunkCacheV2) (key : ChunkKey) (ck : String)
    (entries : List CacheEntry) (e : CacheEntry) (hck : cacheKeyOf key = some ck)
    (hc : st.cache_ = some entries) (he : entryOf entries ck = some e)
    (hd : e.chunk_data.data ≠ []) :
    ReadChunk st key = (.returned (.ok e.chunk_data), st) := by
  have hst : ({ st with cache_ := some entries } : HDF5ChunkCacheV2) = st := by
    cases st; simp_all
  unfold ReadChunk GetCacheEntry
  simp only [hck, hc, GetOrCreateEntry_of_entryOf entries ck e he, hst, Option.getD_some, he,
    ne_eq, hd, not_false_eq_true, if_true]

theorem WriteChunkToHDF5_reads (m : HDF5Metadata) (ds : Dataset) (key : ChunkKey)
    (data : List UInt8) : (WriteChunkToHDF5 m ds key data).2.reads = ds.reads := by
  unfold WriteChunkToHDF5
  split
  · rfl
  · rename_i offset count _
    have hw : (ds.H5Dwrite offset count data).2.reads = ds.reads := rfl
    split <;> (rename_i h; rw [h] at hw; exact hw)

theorem flushLoop_reads (m : HDF5Metadata) (l : List CacheEntry) (ds : Dataset) :
    (flushLoop m l ds).2.reads = ds.reads := by
  induction l generalizing ds with
  | nil => rfl
  | cons a t ih =>
    unfold flushLoop
    split
    · rfl
    · rename_i indices _
      have hw := WriteChunkToHDF5_reads m ds ⟨indices⟩ a.chunk_data.data
      split
      · rename_i h
        rw [h] at hw
        rw [ih, hw]
      · rename_i h
        rw [h] at hw
        exact hw

theorem Flush_cache (st : HDF5ChunkCacheV2) :
    (Flush st).2.cache_ = st.cache_ ∧ (Flush st).2.dataset.reads = st.dataset.reads := by
  unfold Flush
  split
  · exact ⟨rfl, rfl⟩
  · exact ⟨rfl, flushLoop_reads _ _ _⟩

theorem GetCacheEntry_eq_some (st : HDF5ChunkCacheV2) (key : ChunkKey) (ck : String)
    (st1 : HDF5ChunkCacheV2) (h : GetCacheEntry st key = some (ck, st1)) :
    ∃ entries, cacheKeyOf key = some ck ∧ st.cache_ = some entries ∧
      st1 = { st with cache_ := some (GetOrCreateEntry entries ck) } := by
  unfold GetCacheEntry at h
  split at h
  · rename_i ck' entries hk hc
    simp only [Option.some.injEq, Prod.mk.injEq] at h
    obtain ⟨rfl, rfl⟩ := h
    exact ⟨entries, hk, hc, rfl⟩
  · cases h

/-- After a `WriteChunk` that returned, the entry of the key holds the data written, and
no read call was made on the container. -/
theorem WriteChunk_entry (st : HDF5ChunkCacheV2) (key : ChunkKey) (data : ChunkData)
    (s : Status) (hw : (WriteChunk st key data).1 = .returned s) :
    ∃ ck entries e, cacheKeyOf key = some ck ∧
      (WriteChunk st key data).2.cache_ = some entries ∧
      entryOf entries ck = some e ∧ e.chunk_data = data ∧ e.dirty = true ∧
      (WriteChunk st key data).2.dataset.reads = st.dataset.reads := by
  cases hg : GetCacheEntry st key with
  | none => simp [WriteChunk, hg] at hw
  | some p =>
    obtain ⟨ck, st1⟩ := p
    obtain ⟨entries, hk, hc, rfl⟩ := GetCacheEntry_eq_some st key ck st1 hg
    obtain ⟨e0, he0⟩ := entryOf_GetOrCreateEntry entries ck
    have hu := entryOf_updateEntry (GetOrCreateEntry entries ck) ck
      (fun e => { e with chunk_data := data, dirty := true }) (fun _ => rfl) e0 he0
    refine ⟨ck, _, _, hk, ?_, hu, rfl, rfl, ?_⟩
    · simp only [WriteChunk, hg, Option.getD_some]
      cases st.write_policy_ <;> rfl
    · simp only [WriteChunk, hg, Option.getD_some]
      cases st.write_policy_
      · exact WriteChunkToHDF5_reads _ _ _ _
      · rfl

/-- C5, as amended: when the byte buffer of `data` is not empty and `WriteChunk(key, data)`
has returned, `ReadChunk(key)` returns exactly `data` and leaves the state untouched, so it
makes no call on the container; the same holds when a `Flush` comes between the two, and
that `Flush` reads nothing from the container either. -/
theorem ReadChunk_after_WriteChunk (st : HDF5ChunkCacheV2) (key : ChunkKey)
    (data : ChunkData) (s : Status) (hdata : data.data ≠ [])
    (hw : (WriteChunk st key data).1 = .returned s) :
    ReadChunk (WriteChunk st key data).2 key =
      (.returned (.ok data), (WriteChunk st key data).2) ∧
    ReadChunk (Flush (WriteChunk st key data).2).2 key =
      (.returned (.ok data), (Flush (WriteChunk st key data).2).2) ∧
    (Flush (WriteChunk st key data).2).2.dataset.reads =
      (WriteChunk st key data).2.dataset.reads := by
  obtain ⟨ck, entries, e, hk, hc, he, hd, _, _⟩ := WriteChunk_entry st key data s hw
  have hne : e.chunk_data.data ≠ [] := by rw [hd]; exact hdata
  obtain ⟨fc, fr⟩ := Flush_cache (WriteChunk st key data).2
  refine ⟨?_, ?_, fr⟩
  · rw [ReadChunk_hit _ key ck entries e hk hc he hne, hd]
  · rw [ReadChunk_hit _ key ck entries e hk (fc.trans hc) he hne, hd]

/-- The hypotheses of the amended C5 hold for a two-byte chunk written at key `(1)`. -/
theorem ReadChunk_after_WriteChunk_witness :
    ReadChunk (WriteChunk demoCache ⟨[1]⟩ ⟨[1, 2], some .uint8_t, [2]⟩).2 ⟨[1]⟩ =
      (.returned (.ok ⟨[1, 2], some .uint8_t, [2]⟩),
        (WriteChunk demoCache ⟨[1]⟩ ⟨[1, 2], some .uint8_t, [2]⟩).2) :=
  (ReadChunk_after_WriteChunk demoCache ⟨[1]⟩ ⟨[1, 2], some .uint8_t, [2]⟩ .OkStatus
    (by decide) (by decide)).1

/-- C5 as stated fails for a chunk data with an empty byte buffer (a chunk of zero
elements): `WriteChunk` returns OK, but the read after it is a cache miss; it reads the
hyperslab from the container and returns two zero bytes with the chunk shape of the
metadata in place of the data written. -/
theorem ReadChunk_after_WriteChunk_empty_data :
    (WriteChunk demoCache ⟨[1]⟩ ⟨[], some .uint8_t, [0]⟩).1 = .returned .OkStatus ∧
    (ReadChunk (WriteChunk demoCache ⟨[1]⟩ ⟨[], some .uint8_t, [0]⟩).2 ⟨[1]⟩).1 =
      .returned (.ok ⟨[0, 0], some .uint8_t, [2]⟩) ∧
    (ReadChunk (WriteChunk demoCache ⟨[1]⟩ ⟨[], some .uint8_t, [0]⟩).2
      ⟨[1]⟩).2.dataset.reads = [([2], [2])] ∧
    ¬ ((ReadChunk (WriteChunk demoCache ⟨[1]⟩ ⟨[], some .uint8_t, [0]⟩).2 ⟨[1]⟩).1 =
          .returned (.ok ⟨[], some .uint8_t, [0]⟩) ∧
        (ReadChunk (WriteChunk demoCache ⟨[1]⟩ ⟨[], some .uint8_t, [0]⟩).2
            ⟨[1]⟩).2.dataset.reads =
          (WriteChunk demoCache ⟨[1]⟩ ⟨[], some .uint8_t, [0]⟩).2.dataset.reads) := by
  decide

/-- C6 at its failing input: the key `(2147483648)` exists in a dataset of `2 ^ 32`
one-byte chunks and `WriteChunk` accepts it, but the final `Flush` of the destructor
leaves by the exception of `std::stoi` before any container write, so the container holds
nothing at offset 2147483648. The same write one chunk earlier, at key `(2147483647)`, does
reach the container. -/
theorem destroy_drops_chunk_beyond_int :
    ChunkExists wideWritten.metadata_ ⟨[2147483648]⟩ ∧
    entryOf (wideWritten.cache_.getD []) "chunk:2147483648" =
      some ⟨"chunk:2147483648", ⟨[7], some .uint8_t, [1]⟩, true⟩ ∧
    parseCacheKey "chunk:2147483648" = none ∧
    (Flush wideWritten).1 = .threw ∧
    (destroy wideWritten).dataset.writes = [] ∧
    (destroy wideWritten).dataset.stored [2147483648] = none ∧
    (destroy (WriteChunk (create ⟨[], [], [], []⟩ ⟨1, [4294967296], [1], .uint8_t⟩ .WriteBack)
      ⟨[2147483647]⟩ ⟨[7], some .uint8_t, [1]⟩).2).dataset.stored [2147483647] =
      some [7] := by
  decide

/-- C7 at its failing input: `Flush` never changes an entry, in no state; here the first
`Flush` writes the dirty entry and returns OK, the entry is still dirty afterwards, and
the second `Flush` writes it to the container once more. -/
theorem Flush_twice_writes_twice :
    (∀ st : HDF5ChunkCacheV2, (Flush st).2.cache_ = st.cache_) ∧
    (Flush demoWritten).1 = .returned .OkStatus ∧
    (Flush demoWritten).2.dataset.writes = [⟨[2], [2], [1, 2], true⟩] ∧
    CollectDirtyEntries ((Flush demoWritten).2.cache_.getD []) =
      [⟨"chunk:1", ⟨[1, 2], some .uint8_t, [2]⟩, true⟩] ∧
    (Flush (Flush demoWritten).2).2.dataset.writes =
      [⟨[2], [2], [1, 2], true⟩, ⟨[2], [2], [1, 2], true⟩] := by
  refine ⟨fun st => (Flush_cache st).1, ?_⟩
  decide

/-- C8 at its failing input. In general the loop of `Flush` ends with the first write whose
status is not OK, whatever dirty entries follow. Here, with two dirty entries and a
container that fails at the hyperslab of the first, `Flush` returns `InternalError` after
that one attempt and never attempts the write of the second entry; one pass of the
background writer over the same state attempts both. -/
theorem Flush_stops_at_first_error :
    (∀ (m : HDF5Metadata) (e : CacheEntry) (rest : List CacheEntry) (ds : Dataset)
      (indices : List Int) (s : Status), parseCacheKey e.cache_key = some indices →
      (WriteChunkToHDF5 m ds ⟨indices⟩ e.chunk_data.data).1 = .returned s →
      s ≠ .OkStatus →
      flushLoop m (e :: rest) ds = WriteChunkToHDF5 m ds ⟨indices⟩ e.chunk_data.data) ∧
    CollectDirtyEntries (failingWritten.cache_.getD []) =
      [⟨"chunk:0", ⟨[1, 2], some .uint8_t, [2]⟩, true⟩,
       ⟨"chunk:1", ⟨[3, 4], some .uint8_t, [2]⟩, true⟩] ∧
    (Flush failingWritten).1 = .returned .InternalError ∧
    (Flush failingWritten).2.dataset.writes = [⟨[0], [2], [1, 2], false⟩] ∧
    (BackgroundWritebackCycle failingWritten).2.dataset.writes =
      [⟨[0], [2], [1, 2], false⟩, ⟨[2], [2], [3, 4], true⟩] := by
  refine ⟨?_, by decide⟩
  intro m e rest ds indices s hp hw hs
  unfold flushLoop
  simp only [hp]
  split
  · rename_i h
    rw [h] at hw
    simp only [Outcome.returned.injEq] at hw
    exact absurd hw.symm hs
  · rename_i h
    exact h.symm

end hdf5_driver.HDF5ChunkCacheV2

namespace hdf5_driver.HDF5ChunkCache

/-! ### Eviction from the simple cache -/

theorem GetSize_perm {l₁ l₂ : List (String × CacheEntry)} (h : l₁.Perm l₂) :
    GetSize l₁ = GetSize l₂ :=
  (h.map _).sum_eq

theorem perm_cons_Remove (l : List (String × CacheEntry)) (e : String × CacheEntry)
    (h : e ∈ l) : l.Perm (e :: Remove l e) := by
  induction l with
  | nil => simp at h
  | cons a t ih =>
    by_cases ha : a = e
    · simp [Remove, ha]
    · have ht : e ∈ t := by
        rcases List.mem_cons.mp h with h' | h'
        · exact absurd h'.symm ha
        · exact h'
      simp only [Remove, ha, if_false]
      exact ((ih ht).cons a).trans (List.Perm.swap e a _)

/-- The loop of `EvictEntries` on any ordering `cands` of the entries of the store, started
with the total size of the store: the entries left are the candidates after some first
`n`, and their total size is at most the target. -/
theorem evictLoop_total (cands : List (String × CacheEntry)) :
    ∀ (cur target : Nat) (st : Dataset × List (String × CacheEntry)),
      st.2.Perm cands → cur = GetSize cands →
      ∃ n, (evictLoop cands cur target st).2.Perm (cands.drop n) ∧
        GetSize (evictLoop cands cur target st).2 ≤ target := by
  induction cands with
  | nil =>
    intro cur target st hp _
    refine ⟨0, hp, ?_⟩
    rw [evictLoop, GetSize_perm hp]
    exact Nat.zero_le _
  | cons e rest ih =>
    intro cur target st hp hcur
    by_cases hle : cur ≤ target
    · refine ⟨0, ?_, ?_⟩ <;> simp only [evictLoop, hle, if_true]
      · exact hp
      · rw [GetSize_perm hp, ← hcur]; exact hle
    · have hp' : (Remove st.2 e).Perm rest :=
        ((perm_cons_Remove st.2 e
          (hp.symm.subset (List.mem_cons_self e rest))).symm.trans hp).cons_inv
      have hcur' : cur - e.2.ComputeSize = GetSize rest := by
        rw [hcur]; simp [GetSize]
      obtain ⟨n, h1, h2⟩ := ih (cur - e.2.ComputeSize) target
        (if e.2.dirty then e.2.DoWrite st.1 else st.1, Remove st.2 e) hp' hcur'
      refine ⟨n + 1, ?_, ?_⟩ <;> simp only [evictLoop, hle, if_false]
      · exact h1
      · exact h2

/-- The loop of `EvictEntries` leaves the dataset as it was, whatever the candidates and
their dirty bits are: its only access to the dataset is `DoWrite`. -/
theorem evictLoop_dataset (cands : List (String × CacheEntry)) :
    ∀ (cur target : Nat) (st : Dataset × List (String × CacheEntry)),
      (evictLoop cands cur target st).1 = st.1 := by
  induction cands with
  | nil => intro cur target st; rfl
  | cons e rest ih =>
    intro cur target st
    by_cases hle : cur ≤ target
    · simp only [evictLoop, hle, if_true]
    · simp only [evictLoop, hle, if_false]
      rw [ih]
      simp [CacheEntry.DoWrite]

instance : IsTotal (String × CacheEntry) accessedBefore :=
  ⟨fun a b => Nat.le_total a.2.last_access b.2.last_access⟩

instance : IsTrans (String × CacheEntry) accessedBefore :=
  ⟨fun _ _ _ h1 h2 => Nat.le_trans h1 h2⟩

/-- Insertion sort is one of the functions `std::sort` may be. -/
theorem IsStdSort_insertionSort :
    IsStdSort (fun candidates => candidates.insertionSort accessedBefore) :=
  fun candidates => ⟨List.perm_insertionSort accessedBefore candidates,
    List.sorted_insertionSort accessedBefore candidates⟩

/-- On a cache as the constructor leaves it, `EvictEntries` dereferences the null
`cache_`. -/
theorem EvictEntries_create
    (std_sort : List (String × CacheEntry) → List (String × CacheEntry))
    (dataset : Dataset) (target_size : Nat) :
    EvictEntries std_sort (create dataset) target_size = .undefined := rfl

/-- On a live store `EvictEntries` returns; the entries left are the sorted candidates
after some first `n`, and they take at most `target_size` bytes. -/
theorem EvictEntries_live
    (std_sort : List (String × CacheEntry) → List (String × CacheEntry))
    (hsort : IsStdSort std_sort) (dataset : Dataset) (entries : List (String × CacheEntry))
    (target_size : Nat) :
    ∃ n left, EvictEntries std_sort ⟨dataset, some entries⟩ target_size =
        .returned ⟨dataset, some left⟩ ∧
      left.Perm ((std_sort entries).drop n) ∧ GetSize left ≤ target_size := by
  obtain ⟨n, h1, h2⟩ := evictLoop_total (std_sort (CollectEvictionCandidates entries))
    (GetSize entries) target_size (dataset, entries) (hsort entries).1.symm
    (GetSize_perm (hsort entries).1.symm)
  refine ⟨n, _, ?_, h1, h2⟩
  simp only [EvictEntries]
  rw [evictLoop_dataset]

/-- C9: the bound does not hold of the program. On every cache the constructor builds,
`EvictEntries(target_size)` dereferences the null `cache_`, which is undefined, for every
target. Only on a state with a live entry store, which no function of the class sets up,
does the call return with the entries left taking at most `target_size` bytes, whatever
order `std::sort` leaves entries of equal `last_access` in. -/
theorem EvictEntries_total_size :
    (∀ (std_sort : List (String × CacheEntry) → List (String × CacheEntry))
      (dataset : Dataset) (target_size : Nat),
      EvictEntries std_sort (create dataset) target_size = .undefined) ∧
    (∀ std_sort : List (String × CacheEntry) → List (String × CacheEntry),
      IsStdSort std_sort →
      ∀ (dataset : Dataset) (entries : List (String × CacheEntry)) (target_size : Nat),
      ∃ st, EvictEntries std_sort ⟨dataset, some entries⟩ target_size = .returned st ∧
        ∃ left, st.cache_ = some left ∧ GetSize left ≤ target_size) := by
  refine ⟨fun std_sort dataset target_size => EvictEntries_create std_sort dataset target_size,
    ?_⟩
  intro std_sort hsort dataset entries target_size
  obtain ⟨_, left, h, _, hle⟩ := EvictEntries_live std_sort hsort dataset entries target_size
  exact ⟨_, h, left, rfl, hle⟩

/-- An entry that is already filed under the key is handed out as it is: `GetCacheEntry`
stamps `last_access` on creation only, so a later access does not move the entry in the
eviction order. -/
theorem GetCacheEntry_hit (dataset : Dataset) (entries : List (String × CacheEntry))
    (key : List Int) (now : Nat) (e : String × CacheEntry)
    (h : entries.find? (fun e => e.1 = cacheKeyOf key) = some e) :
    GetCacheEntry ⟨dataset, some entries⟩ key now = some (e, ⟨dataset, some entries⟩) := by
  simp only [GetCacheEntry, h]

/-- C10: the order does not hold of the program. On every cache the constructor builds,
`EvictEntries` dereferences the null `cache_`, which is undefined, so no entry is removed
in any order. Only on a state with a live entry store, which no function of the class
sets up, is every entry `EvictEntries` removes accessed no later than every entry it
leaves, whatever order `std::sort` leaves entries of equal `last_access` in; and there an
access through `GetCacheEntry` to a key that has an entry leaves its `last_access`, and
with it its place in the eviction order, as it was. -/
theorem EvictEntries_least_recent_first :
    (∀ (std_sort : List (String × CacheEntry) → List (String × CacheEntry))
      (dataset : Dataset) (target_size : Nat),
      EvictEntries std_sort (create dataset) target_size = .undefined) ∧
    (∀ (dataset : Dataset) (key : List Int) (now : Nat),
      GetCacheEntry (create dataset) key now = none) ∧
    (∀ std_sort : List (String × CacheEntry) → List (String × CacheEntry),
      IsStdSort std_sort →
      ∀ (dataset : Dataset) (entries : List (String × CacheEntry)) (target_size : Nat),
      ∃ left, EvictEntries std_sort ⟨dataset, some entries⟩ target_size =
          .returned ⟨dataset, some left⟩ ∧
        ∀ r s : String × CacheEntry, r ∈ entries → r ∉ left → s ∈ left →
          r.2.last_access ≤ s.2.last_access) ∧
    (∀ (dataset : Dataset) (entries : List (String × CacheEntry)) (key : List Int)
      (now : Nat) (e : String × CacheEntry),
      entries.find? (fun e => e.1 = cacheKeyOf key) = some e →
      GetCacheEntry ⟨dataset, some entries⟩ key now =
        some (e, ⟨dataset, some entries⟩)) := by
  refine ⟨fun std_sort dataset target_size => EvictEntries_create std_sort dataset target_size,
    fun _ _ _ => rfl, ?_, GetCacheEntry_hit⟩
  intro std_sort hsort dataset entries target_size
  obtain ⟨n, left, h, hperm, _⟩ :=
    EvictEntries_live std_sort hsort dataset entries target_size
  refine ⟨left, h, ?_⟩
  intro r s hr hnr hs
  have hs' := hperm.subset hs
  have hr' : r ∈ (std_sort entries).take n := by
    have hmem := (hsort entries).1.symm.subset hr
    rw [← List.take_append_drop n (std_sort entries)] at hmem
    rcases List.mem_append.mp hmem with h1 | h1
    · exact h1
    · exact absurd (hperm.symm.subset h1) hnr
  have hsorted := (hsort entries).2
  rw [← List.take_append_drop n (std_sort entries)] at hsorted
  exact (List.pairwise_append.mp hsorted).2.2 r hr' s hs'

end hdf5_driver.HDF5ChunkCache

namespace internal_hdf5

/-! ### The metadata JSON binder -/

theorem loadElems_num (lo hi : Int) (l : List Int) (h : ∀ x ∈ l, lo ≤ x ∧ x ≤ hi) :
    loadElems (Integer lo hi) (l.map Json.num) = .ok l := by
  induction l with
  | nil => rfl
  | cons a t ih =>
    have ha := h a (List.mem_cons_self a t)
    have ht := ih (fun x hx => h x (List.mem_cons_of_mem a hx))
    simp only [List.map_cons, loadElems, Integer, ha, and_self, if_true, ht]

theorem Compressor_FromJson_ToJson (c : Compressor) (h : c.Registered) :
    Compressor.FromJson (some c.ToJson) = .ok c := by
  cases c with
  | null => rfl
  | gzip level =>
    have hl : Integer 0 9 (.num level) = .ok level := by
      simp only [Integer, h.1, h.2, and_self, if_true]
    have h1 : takeMember (Json.emplace (Json.emplace [] "id" (.str "gzip")) "level"
        (.num level)) "id" = (some (.str "gzip"), [("level", .num level)]) := by rfl
    have h2 : takeMember [("level", Json.num level)] "level" = (some (.num level), []) := by
      rfl
    simp only [Compressor.ToJson, Compressor.FromJson, h1, h2, hl]
    rfl

theorem DataTypeJsonBinder_name (d : DataType) :
    DataTypeJsonBinder (some (.str d.name)) = .ok d := by
  cases d <;> rfl

theorem ToJson_members (m : HDF5Metadata) :
    m.ToJson = .obj [("chunk_shape", .arr (m.chunk_shape.map .num)),
      ("compression", m.compressor.ToJson), ("data_type", .str m.dtype.name),
      ("shape", .arr (m.shape.map .num))] := by
  rfl

/-- C1, as amended: a metadata with a supported element type, `shape` and `chunk_shape` of
length `rank`, a rank of at most 32, non-negative extents, positive chunk extents and a
compressor that is null or gzip with a level in `[0, 9]` is decoded from its own encoding,
and the decoded metadata is equal to it in every field. -/
theorem FromJson_ToJson (m : HDF5Metadata) (hd : m.dtype ∈ kSupportedDataTypes)
    (hshape : (m.shape.length : Int) = m.rank)
    (hchunk : (m.chunk_shape.length : Int) = m.rank)
    (hrank : m.shape.length ≤ kMaxRank)
    (hs : ∀ x ∈ m.shape, 0 ≤ x ∧ x ≤ kInfSize)
    (hc : ∀ x ∈ m.chunk_shape, 1 ≤ x ∧ x ≤ kInfSize)
    (hcomp : m.compressor.Registered) :
    HDF5Metadata.FromJson m.ToJson = .ok m := by
  have hlen : m.chunk_shape.length = m.shape.length := by omega
  have e1 : ShapeVector dynamic_rank (some (.arr (m.shape.map .num))) =
      .ok ((m.shape.length : Int), m.shape) := by
    simp only [ShapeVector, DimensionIndexedVector, List.length_map, hrank, if_true,
      true_or, loadElems_num 0 kInfSize m.shape hs]
  have e2 : ChunkShapeVector (m.shape.length : Int) (some (.arr (m.chunk_shape.map .num))) =
      .ok ((m.shape.length : Int), m.chunk_shape) := by
    simp only [ChunkShapeVector, DimensionIndexedVector, List.length_map, hlen, hrank,
      if_true, or_true, loadElems_num 1 kInfSize m.chunk_shape hc]
  have e3 := Compressor_FromJson_ToJson m.compressor hcomp
  have e4 := DataTypeJsonBinder_name m.dtype
  have e5 : ValidateDataType m.dtype = .OkStatus := by
    simp only [ValidateDataType, hd, if_true]
  have t1 : ∀ a b c d : Json, takeMember [("chunk_shape", a), ("compression", b),
      ("data_type", c), ("shape", d)] "shape" =
      (some d, [("chunk_shape", a), ("compression", b), ("data_type", c)]) :=
    fun _ _ _ _ => rfl
  have t2 : ∀ a b c : Json, takeMember [("chunk_shape", a), ("compression", b),
      ("data_type", c)] "chunk_shape" = (some a, [("compression", b), ("data_type", c)]) :=
    fun _ _ _ => rfl
  have t3 : ∀ b c : Json, takeMember [("compression", b), ("data_type", c)] "compression" =
      (some b, [("data_type", c)]) := fun _ _ => rfl
  have t4 : ∀ c : Json, takeMember [("data_type", c)] "data_type" = (some c, []) :=
    fun _ => rfl
  rw [ToJson_members]
  simp only [HDF5Metadata.FromJson, t1, t2, t3, t4, e1, e2, e3, e4, e5, ValidateMetadata,
    ne_eq, not_true_eq_false, if_false, List.isEmpty_nil]
  cases m
  simp_all

/-- A `10 × 10` array of `float32` in `5 × 5` chunks compressed with gzip at level 5
satisfies the hypotheses of the amended C1 and is decoded from its encoding. -/
theorem FromJson_ToJson_witness :
    HDF5Metadata.FromJson (HDF5Metadata.ToJson ⟨2, [10, 10], [5, 5], .gzip 5, .float32_t⟩) =
      .ok ⟨2, [10, 10], [5, 5], .gzip 5, .float32_t⟩ :=
  FromJson_ToJson ⟨2, [10, 10], [5, 5], .gzip 5, .float32_t⟩ (by decide) (by decide)
    (by decide) (by decide) (by decide) (by decide) (by decide)

/-- C1 as stated fails for a chunk extent of 0: the metadata has a supported element type,
`shape` and `chunk_shape` of length `rank` and a null compressor, and the decoder rejects
its encoding. The decoder also rejects the encoding of a negative extent, of a gzip level
of 10 and of a rank of 33. -/
theorem FromJson_ToJson_zero_chunk :
    DataType.uint8_t ∈ kSupportedDataTypes ∧
    HDF5Metadata.FromJson (HDF5Metadata.ToJson ⟨1, [4], [0], .null, .uint8_t⟩) =
      .error .InvalidArgument ∧
    ¬ HDF5Metadata.FromJson (HDF5Metadata.ToJson ⟨1, [4], [0], .null, .uint8_t⟩) =
      .ok ⟨1, [4], [0], .null, .uint8_t⟩ ∧
    HDF5Metadata.FromJson (HDF5Metadata.ToJson ⟨1, [-4], [2], .null, .uint8_t⟩) =
      .error .InvalidArgument ∧
    HDF5Metadata.FromJson (HDF5Metadata.ToJson ⟨1, [4], [2], .gzip 10, .uint8_t⟩) =
      .error .InvalidArgument ∧
    HDF5Metadata.FromJson (HDF5Metadata.ToJson
      ⟨33, List.replicate 33 4, List.replicate 33 2, .null, .uint8_t⟩) =
      .error .InvalidArgument := by
  decide

/-! ### The compatibility key -/

/-- The text of an array of integers between its brackets. -/
theorem dumpElems_num_cons (x : Int) (t : List Int) :
    Json.dumpElems ((x :: t).map Json.num) =
      (toString x).toList ++
        (match t with
          | [] => []
          | y :: u => ',' :: Json.dumpElems ((y :: u).map Json.num)) := by
  cases t with
  | nil => simp [Json.dumpElems, Json.dump]
  | cons y u => simp [Json.dumpElems, Json.dump]

theorem toString_int_head (x : Int) :
    ∃ c t, (toString x).toList = c :: t ∧ c ≠ ']' ∧ c ≠ ',' := by
  rw [toString_int_toList]
  by_cases h : 0 ≤ x
  · simp only [h, if_true]
    cases hd : Nat.toDigits 10 x.toNat with
    | nil => exact absurd hd (toDigits_ne_nil _)
    | cons c t =>
      refine ⟨c, t, rfl, ?_, ?_⟩
      · intro hc
        have := toDigits_isDigit x.toNat c (by rw [hd]; exact List.mem_cons_self _ _)
        rw [hc] at this
        exact absurd this (by decide)
      · intro hc
        have := toDigits_isDigit x.toNat c (by rw [hd]; exact List.mem_cons_self _ _)
        rw [hc] at this
        exact absurd this (by decide)
  · simp only [h, if_false]
    exact ⟨'-', _, rfl, by decide, by decide⟩

/-- Unique reading of an array of integers: the text up to the closing bracket determines
the integers. -/
theorem dumpElems_num_unique : ∀ (a b : List Int) (r₁ r₂ : List Char),
    Json.dumpElems (a.map Json.num) ++ ']' :: r₁ =
      Json.dumpElems (b.map Json.num) ++ ']' :: r₂ → a = b ∧ r₁ = r₂ := by
  intro a
  induction a with
  | nil =>
    intro b r₁ r₂ h
    cases b with
    | nil => simpa [Json.dumpElems] using h
    | cons y u =>
      exfalso
      rw [dumpElems_num_cons] at h
      obtain ⟨c, t, hc, hne, _⟩ := toString_int_head y
      rw [hc] at h
      simp only [List.map_nil, Json.dumpElems, List.nil_append, List.cons_append,
        List.cons.injEq] at h
      exact hne h.1.symm
  | cons x t ih =>
    intro b r₁ r₂ h
    cases b with
    | nil =>
      exfalso
      rw [dumpElems_num_cons] at h
      obtain ⟨c, t', hc, hne, _⟩ := toString_int_head x
      rw [hc] at h
      simp only [List.map_nil, Json.dumpElems, List.nil_append, List.cons_append,
        List.cons.injEq] at h
      exact hne h.1
    | cons y u =>
      rw [dumpElems_num_cons, dumpElems_num_cons, List.append_assoc, List.append_assoc] at h
      have hx : ∀ l : List Int, ∀ r : List Char, ∀ c ∈
          ((match l with
            | [] => []
            | y :: u => ',' :: Json.dumpElems ((y :: u).map Json.num)) ++ ']' :: r).head?,
          c.isDigit = false := by
        intro l r c hc
        cases l <;> simp at hc <;> rw [← hc] <;> decide
      obtain ⟨e1, e2⟩ := toString_int_unique x y _ _ (hx t r₁) (hx u r₂) h
      cases t with
      | nil =>
        cases u with
        | nil =>
          simp only [List.nil_append, List.cons.injEq, true_and] at e2
          exact ⟨by rw [e1], e2⟩
        | cons y' u' => simp at e2
      | cons x' t' =>
        cases u with
        | nil => simp at e2
        | cons y' u' =>
          simp only [List.cons_append, List.cons.injEq, true_and] at e2
          obtain ⟨e3, e4⟩ := ih (y' :: u') r₁ r₂ e2
          exact ⟨by rw [e1, e3], e4⟩

/-- Unique reading of a serialized compressor. -/
theorem dump_Compressor_unique (c₁ c₂ : Compressor) (r₁ r₂ : List Char)
    (h : c₁.ToJson.dump ++ r₁ = c₂.ToJson.dump ++ r₂) : c₁ = c₂ ∧ r₁ = r₂ := by
  have hg : ∀ level : Int, (Compressor.gzip level).ToJson.dump =
      Char.ofNat 123 :: (Json.dumpString "id" ++ ':' :: Json.dumpString "gzip" ++
        ',' :: (Json.dumpString "level" ++ ':' :: ((toString level).toList ++
          [Char.ofNat 125]))) := by
    intro level
    have : (Compressor.gzip level).ToJson =
        .obj [("id", .str "gzip"), ("level", .num level)] := rfl
    rw [this]
    simp [Json.dump, Json.dumpMembers]
  have hn : Compressor.null.ToJson.dump =
      Char.ofNat 123 :: (Json.dumpString "id" ++ ':' :: Json.dumpString "null" ++
        [Char.ofNat 125]) := by
    have : Compressor.null.ToJson = .obj [("id", .str "null")] := rfl
    rw [this]
    simp [Json.dump, Json.dumpMembers]
  have k1 : Json.dumpString "id" = [Char.ofNat 34, 'i', 'd', Char.ofNat 34] := by decide
  have k2 : Json.dumpString "gzip" = [Char.ofNat 34, 'g', 'z', 'i', 'p', Char.ofNat 34] := by
    decide
  have k3 : Json.dumpString "null" = [Char.ofNat 34, 'n', 'u', 'l', 'l', Char.ofNat 34] := by
    decide
  cases c₁ with
  | null =>
    cases c₂ with
    | null => exact ⟨rfl, List.append_cancel_left h⟩
    | gzip l₂ =>
      exfalso
      rw [hn, hg, k1, k2, k3] at h
      simp at h
  | gzip l₁ =>
    cases c₂ with
    | null =>
      exfalso
      rw [hn, hg, k1, k2, k3] at h
      simp at h
    | gzip l₂ =>
      have k4 : Json.dumpString "level" =
          [Char.ofNat 34, 'l', 'e', 'v', 'e', 'l', Char.ofNat 34] := by decide
      rw [hg, hg, k1, k2, k4] at h
      simp only [List.cons_append, List.append_assoc, List.cons.injEq, true_and,
        List.nil_append, List.singleton_append] at h
      have hr : ∀ r : List Char, ∀ c ∈ (Char.ofNat 125 :: r).head?, c.isDigit = false := by
        intro r c hc
        simp only [List.head?_cons, Option.mem_def, Option.some.injEq] at hc
        rw [← hc]
        decide
      obtain ⟨e1, e2⟩ := toString_int_unique l₁ l₂ (Char.ofNat 125 :: r₁)
        (Char.ofNat 125 :: r₂) (hr r₁) (hr r₂) h
      simp only [List.cons.injEq, true_and] at e2
      exact ⟨by rw [e1], e2⟩

theorem dumpString_name_find (d : DataType) :
    allDataTypes.find? (fun x => Json.dumpString x.name = Json.dumpString d.name) = some d := by
  cases d <;> decide

theorem dumpString_name_injective (d₁ d₂ : DataType)
    (h : Json.dumpString d₁.name = Json.dumpString d₂.name) : d₁ = d₂ := by
  have h1 := dumpString_name_find d₁
  have h2 := dumpString_name_find d₂
  rw [h] at h1
  rw [h1] at h2
  exact Option.some.inj h2

theorem dump_compatibilityObject (m : HDF5Metadata) :
    m.compatibilityObject.dump =
      Char.ofNat 123 :: (Json.dumpString "chunk_shape" ++ ':' :: '[' ::
        (Json.dumpElems (m.chunk_shape.map Json.num) ++ ']' :: ',' ::
          (Json.dumpString "compression" ++ ':' ::
            (m.compressor.ToJson.dump ++ ',' ::
              (Json.dumpString "data_type" ++ ':' ::
                (Json.dumpString m.dtype.name ++ [Char.ofNat 125])))))) := by
  have : m.compatibilityObject = .obj [("chunk_shape", .arr (m.chunk_shape.map .num)),
      ("compression", m.compressor.ToJson), ("data_type", .str m.dtype.name)] := rfl
  rw [this]
  simp [Json.dump, Json.dumpMembers]

/-- Equal compatibility keys come from equal `chunk_shape`, compressor and `dtype`. -/
theorem GetCompatibilityKey_injective (a b : HDF5Metadata)
    (h : a.GetCompatibilityKey = b.GetCompatibilityKey) :
    a.chunk_shape = b.chunk_shape ∧ a.compressor = b.compressor ∧ a.dtype = b.dtype := by
  unfold HDF5Metadata.GetCompatibilityKey at h
  have h := congrArg String.data h
  simp only at h
  rw [dump_compatibilityObject, dump_compatibilityObject] at h
  simp only [List.cons.injEq, true_and] at h
  have h := List.append_cancel_left h
  simp only [List.cons.injEq, true_and] at h
  obtain ⟨e1, h⟩ := dumpElems_num_unique _ _ _ _ h
  simp only [List.cons.injEq, true_and] at h
  have h := List.append_cancel_left h
  simp only [List.cons.injEq, true_and] at h
  obtain ⟨e2, h⟩ := dump_Compressor_unique _ _ _ _ h
  simp only [List.cons.injEq, true_and] at h
  have h := List.append_cancel_left h
  simp only [List.cons.injEq, true_and] at h
  exact ⟨e1, e2, dumpString_name_injective _ _ (List.append_cancel_right h)⟩

/-- C2: `ValidateMetadataCompatibility(a, b)` returns OK exactly when `a` and `b` have the
same `chunk_shape`, the same `dtype` and compressors with the same JSON value, and then the
two compatibility keys are the same string; the shapes and ranks play no part; in every
other case the result is `FailedPrecondition`. -/
theorem ValidateMetadataCompatibility_iff (a b : HDF5Metadata) :
    (ValidateMetadataCompatibility a b = .OkStatus ↔
      a.chunk_shape = b.chunk_shape ∧ a.dtype = b.dtype ∧
        a.compressor.ToJson = b.compressor.ToJson) ∧
    (ValidateMetadataCompatibility a b = .OkStatus →
      a.GetCompatibilityKey = b.GetCompatibilityKey) ∧
    (ValidateMetadataCompatibility a b ≠ .OkStatus →
      ValidateMetadataCompatibility a b = .FailedPrecondition) ∧
    (∀ shape rank, ValidateMetadataCompatibility a { b with shape := shape, rank := rank } =
      ValidateMetadataCompatibility a b) := by
  have key : a.GetCompatibilityKey = b.GetCompatibilityKey ↔
      a.chunk_shape = b.chunk_shape ∧ a.dtype = b.dtype ∧
        a.compressor.ToJson = b.compressor.ToJson := by
    constructor
    · intro h
      obtain ⟨e1, e2, e3⟩ := GetCompatibilityKey_injective a b h
      exact ⟨e1, e3, by rw [e2]⟩
    · rintro ⟨e1, e2, e3⟩
      unfold HDF5Metadata.GetCompatibilityKey HDF5Metadata.compatibilityObject
      rw [e1, e2, e3]
  refine ⟨?_, ?_, ?_, ?_⟩
  · rw [← key]
    unfold ValidateMetadataCompatibility
    split <;> simp_all
  · unfold ValidateMetadataCompatibility
    split <;> simp_all
  · unfold ValidateMetadataCompatibility
    split <;> simp_all
  · intro shape rank
    rfl

end internal_hdf5

namespace hdf5_driver.HDF5ChunkCache

/-! ### Dirty entries at eviction -/

end hdf5_driver.HDF5ChunkCache

namespace hdf5_driver.HDF5ChunkCacheV2

/-! ### The shape recorded with a chunk read from the container -/

/-- C12: a cache-miss `ReadChunk` of the partial chunk `(2)` of a dataset of 7 bytes in
chunks of 3 succeeds and caches one byte (the clipped extent) together with the shape
`[3]` (the full chunk shape), so `data.size() = 1` while `product(shape) * dtype.size = 3`;
for the full chunk `(0)` the two agree. -/
theorem ReadChunk_partial_chunk_shape :
    ChunkExists edgeCache.metadata_ ⟨[2]⟩ ∧
    CalculateChunkCoordinates edgeCache.metadata_ ⟨[2]⟩ = some ([6], [1]) ∧
    (ReadChunk edgeCache ⟨[2]⟩).1 = .returned (.ok ⟨[0], some .uint8_t, [3]⟩) ∧
    entryOf ((ReadChunk edgeCache ⟨[2]⟩).2.cache_.getD []) "chunk:2" =
      some ⟨"chunk:2", ⟨[0], some .uint8_t, [3]⟩, false⟩ ∧
    ([0] : List UInt8).length = 1 ∧ ChunkData.byteSize [3] .uint8_t = 3 ∧
    (ReadChunk edgeCache ⟨[0]⟩).1 = .returned (.ok ⟨[0, 0, 0], some .uint8_t, [3]⟩) := by
  decide

end hdf5_driver.HDF5ChunkCacheV2

namespace hdf5_driver

/-! ### The type mapping -/

/-- C19 as stated fails for `bool`: `ConvertToHDF5Type` succeeds on it with
`H5T_NATIVE_HBOOL`, while `bool` is not among the ten supported element types and
`ValidateDataType` rejects it. -/
theorem ConvertToHDF5Type_bool :
    ConvertToHDF5Type (some .bool_t) = .ok .HBOOL ∧
    DataType.bool_t ∉ internal_hdf5.kSupportedDataTypes ∧
    internal_hdf5.ValidateDataType .bool_t = .InvalidArgument := by
  decide

/-- C19, as amended: `ConvertToHDF5Type(d)` succeeds if and only if `d` is `bool` or one
of the ten element types `ValidateDataType` accepts; for every other valid dtype, and for
the invalid one, it returns `InvalidArgument`. -/
theorem ConvertToHDF5Type_ok_iff :
    (∀ d : DataType, (∃ h, ConvertToHDF5Type (some d) = .ok h) ↔
      (d = .bool_t ∨ d ∈ internal_hdf5.kSupportedDataTypes)) ∧
    (∀ d : DataType, d ∈ internal_hdf5.kSupportedDataTypes ↔
      internal_hdf5.ValidateDataType d = .OkStatus) ∧
    (∀ d : DataType, ¬ (d = .bool_t ∨ d ∈ internal_hdf5.kSupportedDataTypes) →
      ConvertToHDF5Type (some d) = .error .InvalidArgument) ∧
    ConvertToHDF5Type none = .error .InvalidArgument := by
  refine ⟨?_, ?_, ?_, rfl⟩
  · intro d
    cases d <;> simp [ConvertToHDF5Type, internal_hdf5.kSupportedDataTypes]
  · intro d
    cases d <;> simp [internal_hdf5.ValidateDataType, internal_hdf5.kSupportedDataTypes]
  · intro d
    cases d <;> simp [ConvertToHDF5Type, internal_hdf5.kSupportedDataTypes]

/-- C20: for each of the ten supported element types `d`, `ConvertToHDF5Type(d)` succeeds,
the native type it returns has as many bytes as `d`, and `ConvertHDF5Type` of that native
type returns `d`. -/
theorem ConvertHDF5Type_ConvertToHDF5Type (d : DataType)
    (hd : d ∈ internal_hdf5.kSupportedDataTypes) :
    ∃ h, ConvertToHDF5Type (some d) = .ok h ∧ h.toH5Type.size = d.size ∧
      ConvertHDF5Type h.toH5Type = .ok d := by
  cases d <;>
    first
    | exact absurd hd (by decide)
    | exact ⟨_, rfl, rfl, rfl⟩

/-- The hypothesis of C20 holds for `float32`, which goes to `H5T_NATIVE_FLOAT` (4 bytes)
and back. -/
theorem ConvertHDF5Type_ConvertToHDF5Type_witness :
    DataType.float32_t ∈ internal_hdf5.kSupportedDataTypes ∧
    ∃ h, ConvertToHDF5Type (some .float32_t) = .ok h ∧
      h.toH5Type.size = DataType.float32_t.size ∧
      ConvertHDF5Type h.toH5Type = .ok .float32_t :=
  ⟨by decide, ConvertHDF5Type_ConvertToHDF5Type .float32_t (by decide)⟩

end hdf5_driver

namespace Json

/-! ### Equality of JSON values -/

mutual

theorem same_iff : ∀ a b : Json, same a b = true ↔ a = b
  | .null, b => by cases b <;> simp [same]
  | .bool a, b => by cases b <;> simp [same]
  | .num a, b => by cases b <;> simp [same]
  | .str a, b => by cases b <;> simp [same]
  | .arr a, b => by cases b <;> simp [same, sameElems_iff a]
  | .obj a, b => by cases b <;> simp [same, sameMembers_iff a]

theorem sameElems_iff : ∀ a b : List Json, sameElems a b = true ↔ a = b
  | [], b => by cases b <;> simp [sameElems]
  | a :: as, b => by cases b <;> simp [sameElems, same_iff a, sameElems_iff as]

theorem sameMembers_iff : ∀ a b : List (String × Json), sameMembers a b = true ↔ a = b
  | [], b => by cases b <;> simp [sameMembers]
  | (k, a) :: as, b => by
    cases b with
    | nil => simp [sameMembers]
    | cons hd tl =>
      obtain ⟨l, b⟩ := hd
      simp [sameMembers, same_iff a, sameMembers_iff as, and_assoc]

end

end Json

namespace internal_hdf5

/-! ### `ValidateMetadata` on a single metadata -/

/-- C16: `ValidateMetadata(metadata)` rejects nothing. Its body, under the comment "Check
if HDF5 has some limitation for the metadata", returns OK for every metadata: for one
with the unsupported element type `bool` (which `ValidateDataType` rejects), rank 2, a
`shape` of length 1 with a negative extent and a `chunk_shape` of length 3 with a zero
extent; and for the metadata `GetNewMetadata` builds from constraints with `shape = [4]`
and a `float32` schema, whose `chunk_shape` is empty at rank 1. On that path it is the
only check of the metadata as a whole, so `GetNewMetadata` returns that metadata, whose
JSON encoding the decoder `FromJson` refuses. -/
theorem ValidateMetadata_accepts_invalid :
    DataType.bool_t ∉ kSupportedDataTypes ∧
    ValidateDataType .bool_t = .InvalidArgument ∧
    ValidateMetadata ⟨2, [-1], [0, 5, 6], .null, .bool_t⟩ = .OkStatus ∧
    GetNewMetadata ⟨1, some [4], none, none, none⟩
      { Schema.unspecified with dtype := some .float32_t } =
      .returned (.ok ⟨1, [4], [], .null, .float32_t⟩) ∧
    ValidateMetadata ⟨1, [4], [], .null, .float32_t⟩ = .OkStatus ∧
    HDF5Metadata.FromJson (HDF5Metadata.ToJson ⟨1, [4], [], .null, .float32_t⟩) =
      .error .InvalidArgument ∧
    ∀ metadata : HDF5Metadata, ValidateMetadata metadata = .OkStatus := by
  refine ⟨by decide, by decide, by decide, by decide, by decide, by decide, ?_⟩
  intro metadata
  rfl


/-! ### Metadata against constraints, and merging codec specs -/

theorem Compressor_ToJson_gzip (level : Int) :
    (Compressor.gzip level).ToJson = .obj [("id", .str "gzip"), ("level", .num level)] := by
  rfl

theorem Compressor_ToJson_injective (a b : Compressor) (h : a.ToJson = b.ToJson) : a = b := by
  cases a with
  | null =>
    cases b with
    | null => rfl
    | gzip l =>
      rw [Compressor_ToJson_gzip] at h
      simp [Compressor.ToJson, Json.emplace] at h
  | gzip k =>
    cases b with
    | null =>
      rw [Compressor_ToJson_gzip] at h
      simp [Compressor.ToJson, Json.emplace] at h
    | gzip l =>
      rw [Compressor_ToJson_gzip, Compressor_ToJson_gzip] at h
      simp at h
      rw [h]

theorem Option_any_eq_false {α : Type} (o : Option α) (p : α → Bool) :
    o.any p = false ↔ ∀ s, o = some s → p s = false := by
  cases o <;> simp

/-- C13: `ValidateMetadata(metadata, constraints)` returns OK if and only if each of
`shape`, `chunk_shape`, `dtype` and `compressor` that is present in `constraints` equals
the field of `metadata`, the compressors being compared through their JSON values (which
are equal exactly when the compressors are); constraints with no field present accept
every metadata. -/
theorem ValidateMetadata_constraints_iff :
    (∀ (metadata : HDF5Metadata) (constraints : HDF5MetadataConstraints),
      constraints.ValidateMetadata metadata = .OkStatus ↔
        ((∀ shape, constraints.shape = some shape → metadata.shape = shape) ∧
         (∀ chunk_shape, constraints.chunk_shape = some chunk_shape →
            metadata.chunk_shape = chunk_shape) ∧
         (∀ dtype, constraints.dtype = some dtype → metadata.dtype = dtype) ∧
         (∀ compressor, constraints.compressor = some compressor →
            compressor.ToJson = metadata.compressor.ToJson))) ∧
    (∀ (a b : Compressor), a.ToJson = b.ToJson ↔ a = b) ∧
    (∀ (metadata : HDF5Metadata) (rank : Int),
      HDF5MetadataConstraints.ValidateMetadata metadata ⟨rank, none, none, none, none⟩ =
        .OkStatus) := by
  refine ⟨?_, fun a b => ⟨Compressor_ToJson_injective a b, fun h => by rw [h]⟩,
    fun _ _ => rfl⟩
  intro metadata constraints
  have e1 := Option_any_eq_false constraints.shape (fun s => decide (metadata.shape ≠ s))
  have e2 := Option_any_eq_false constraints.chunk_shape
    (fun s => decide (metadata.chunk_shape ≠ s))
  have e3 := Option_any_eq_false constraints.dtype (fun d => decide (d ≠ metadata.dtype))
  have e4 := Option_any_eq_false constraints.compressor
    (fun c => !(Json.same c.ToJson metadata.compressor.ToJson))
  simp only [ne_eq, decide_not, Bool.not_eq_false', decide_eq_true_eq, Bool.not_eq_eq_eq_not,
    Bool.not_false, Json.same_iff] at e1 e2 e3 e4
  rw [← e1, ← e2, ← e4]
  have e3' : (∀ dtype, constraints.dtype = some dtype → metadata.dtype = dtype) ↔
      Option.any (fun d => !decide (d = metadata.dtype)) constraints.dtype = false := by
    rw [e3]
    exact ⟨fun h d hd => (h d hd).symm, fun h d hd => (h d hd).symm⟩
  rw [e3']
  simp only [HDF5MetadataConstraints.ValidateMetadata, MetadataMismatchError, ne_eq, decide_not]
  split_ifs with h1 h2 h3 h4 <;> simp_all


/-- C18: `HDF5CodecSpec::DoMergeFrom(other)` with `other` an `HDF5CodecSpec`: when `other`
has no compressor the receiver is unchanged and the result is OK; when only `other` has
one the receiver adopts it and the result is OK; when both have one the result is OK
exactly when the two compressors have equal JSON values and `InvalidArgument` otherwise;
whenever the result is not OK the receiver is unchanged. -/
theorem DoMergeFrom_cases (self other : HDF5CodecSpec) :
    (other.compressor = none → self.DoMergeFrom (.hdf5 other) = (.OkStatus, self)) ∧
    (∀ c, self.compressor = none → other.compressor = some c →
      self.DoMergeFrom (.hdf5 other) = (.OkStatus, ⟨some c⟩)) ∧
    (∀ a b, self.compressor = some a → other.compressor = some b →
      ((self.DoMergeFrom (.hdf5 other)).1 = .OkStatus ↔ a.ToJson = b.ToJson) ∧
      (a.ToJson ≠ b.ToJson → (self.DoMergeFrom (.hdf5 other)).1 = .InvalidArgument)) ∧
    ((self.DoMergeFrom (.hdf5 other)).1 ≠ .OkStatus →
      (self.DoMergeFrom (.hdf5 other)).2 = self) := by
  obtain ⟨sc⟩ := self
  obtain ⟨oc⟩ := other
  cases sc with
  | none =>
    cases oc with
    | none => simp [HDF5CodecSpec.DoMergeFrom]
    | some b => simp [HDF5CodecSpec.DoMergeFrom]
  | some a =>
    cases oc with
    | none => simp [HDF5CodecSpec.DoMergeFrom]
    | some b =>
      by_cases h : a.ToJson = b.ToJson
      · have hs : ∀ x : Json, Json.same x x = true := fun x => (Json.same_iff x x).2 rfl
        simp [HDF5CodecSpec.DoMergeFrom, JsonSame, hs, h]
      · have hs : Json.same a.ToJson b.ToJson = false := by
          rw [← Bool.not_eq_true, Json.same_iff]; exact h
        simp [HDF5CodecSpec.DoMergeFrom, JsonSame, hs, h]


/-! ### Schema negotiation -/

/-- C14: for the existing `float32` dataset `float32Metadata` and a spec that asks for
`int32` in its metadata constraints and in its schema, `GetComponentIndex` returns the
component index 0, although `ValidateMetadata` with the constraints of the spec and
`ValidateMetadataSchema` with its schema both report the mismatch; and for every existing
metadata, every driver spec and every open mode `GetComponentIndex` returns 0. -/
theorem GetComponentIndex_float32_as_int32 :
    HDF5Driver.OpenState.GetComponentIndex int32Spec float32Metadata 1 = .ok 0 ∧
    int32Spec.metadata_constraints.dtype = some .int32_t ∧
    int32Spec.schema.dtype = some .int32_t ∧
    float32Metadata.dtype = .float32_t ∧
    int32Spec.metadata_constraints.ValidateMetadata float32Metadata = .FailedPrecondition ∧
    ValidateMetadataSchema float32Metadata int32Spec.schema =
      .returned .FailedPrecondition ∧
    ∀ (spec : HDF5DriverSpec) (metadata : HDF5Metadata) (open_mode : Nat),
      HDF5Driver.OpenState.GetComponentIndex spec metadata open_mode = .ok 0 := by
  refine ⟨by decide, by decide, by decide, by decide, by decide, by decide, ?_⟩
  intro spec metadata open_mode
  rfl

/-- C15: `GetNewMetadata` with constraints `shape = [4]`, `chunk_shape = [2]` and a schema
that specifies `float32` succeeds with `shape = [4]` and an empty `chunk_shape`, which is
neither the `chunk_shape` of the constraints nor of length `rank`; the same without a
`chunk_shape` in the constraints, where the result is not the shape; and every metadata
`GetNewMetadata` returns has an empty `chunk_shape`. -/
theorem GetNewMetadata_chunk_shape_empty :
    GetNewMetadata ⟨1, some [4], some [2], none, none⟩
      { Schema.unspecified with dtype := some .float32_t } =
      .returned (.ok ⟨1, [4], [], .null, .float32_t⟩) ∧
    GetNewMetadata ⟨1, some [4], none, none, none⟩
      { Schema.unspecified with dtype := some .float32_t } =
      .returned (.ok ⟨1, [4], [], .null, .float32_t⟩) ∧
    ∀ (metadata_constraints : HDF5MetadataConstraints) (schema : Schema)
      (metadata : HDF5Metadata),
      GetNewMetadata metadata_constraints schema = .returned (.ok metadata) →
        metadata.chunk_shape = [] := by
  refine ⟨by decide, by decide, ?_⟩
  intro c s m h
  unfold GetNewMetadata at h
  split at h
  · cases h
  · cases h
  · cases h
  · cases h
  · split at h
    · cases h
    · split at h
      · cases h
      · split at h
        · cases h
        · split at h
          · cases h
          · dsimp only at h
            split at h
            · cases h
            · split at h
              · cases h
              · cases h
              · injection h with h
                injection h with h
                rw [← h]
              · cases h

theorem GetEffectiveDomain_returned (metadata : HDF5Metadata) (schema : Schema)
    (hshape : (metadata.shape.length : Int) = metadata.rank)
    (hrank : EqualOrUnspecified metadata.rank schema.rank = true) :
    ∃ r, GetEffectiveDomain metadata.rank (some metadata.shape) schema = .returned r := by
  have h0 : (0 : Int) ≤ metadata.rank := by rw [← hshape]; exact Int.natCast_nonneg _
  have hr : EqualOrUnspecified schema.rank metadata.rank = true := by
    simp only [EqualOrUnspecified, decide_eq_true_eq] at hrank ⊢
    tauto
  have hmax : max schema.rank metadata.rank = metadata.rank := by
    simp only [EqualOrUnspecified, decide_eq_true_eq, dynamic_rank] at hrank
    omega
  unfold GetEffectiveDomain
  simp only [reduceCtorEq, false_and, if_false, hr, Bool.not_true, Bool.false_eq_true, hmax,
    not_lt.2 h0, hshape, ne_eq, not_true_eq_false]
  split <;> exact ⟨_, rfl⟩

theorem domainOfShape_error : ∀ (shape : List Int) (s : Status),
    domainOfShape shape = .error s → s = .InvalidArgument := by
  intro shape
  induction shape with
  | nil => intro s h; cases h
  | cons size rest ih =>
    intro s h
    unfold domainOfShape at h
    split at h
    · split at h
      · cases h
      · rename_i s' hs'
        injection h with h
        rw [← h]
        exact ih s' hs'
    · injection h with h
      exact h.symm

theorem MergeDimensions_error (a b : List IndexDomainDimension) (s : Status)
    (h : MergeDimensions a b = .error s) : s = .InvalidArgument := by
  unfold MergeDimensions at h
  split at h
  · cases h
  · split at h
    · split at h
      · injection h with h; exact h.symm
      · cases h
    · injection h with h; exact h.symm
  · injection h with h; exact h.symm

theorem MergeIndexDomains_error (a b : Option (List IndexDomainDimension)) (s : Status)
    (h : MergeIndexDomains a b = .error s) : s = .InvalidArgument := by
  unfold MergeIndexDomains at h
  split at h
  · cases h
  · cases h
  · split at h
    · cases h
    · rename_i s' hs'
      injection h with h
      rw [← h]
      exact MergeDimensions_error _ _ s' hs'

theorem GetEffectiveDomain_error (rank : Int) (shape : Option (List Int)) (schema : Schema)
    (s : Status) (h : GetEffectiveDomain rank shape schema = .returned (.error s)) :
    s = .InvalidArgument := by
  unfold GetEffectiveDomain at h
  split at h
  · split at h <;> cases h
  · split at h
    · cases h
    · dsimp only at h
      split at h
      · cases h
      · split at h
        · split at h
          · cases h
          · split at h
            · rename_i s' hs'
              injection h with h
              injection h with h
              rw [← h]
              exact domainOfShape_error _ s' hs'
            · injection h with h
              exact MergeIndexDomains_error _ _ s h
        · injection h with h
          exact MergeIndexDomains_error _ _ s h

theorem ConvertInvalidArgumentToFailedPrecondition_ne_ok (s : Status) (h : s ≠ .OkStatus) :
    ConvertInvalidArgumentToFailedPrecondition s ≠ .OkStatus := by
  cases s <;> simp_all [ConvertInvalidArgumentToFailedPrecondition]

/-- For a metadata whose `shape` has length `rank`, `ValidateMetadataSchema` returns an
error whenever the schema specifies a fill value; the dimension units of the schema have
no effect on the result. -/
theorem ValidateMetadataSchema_fill_value (metadata : HDF5Metadata) (schema : Schema)
    (hshape : (metadata.shape.length : Int) = metadata.rank)
    (hfill : schema.fill_value.isSome = true) :
    (∃ status, ValidateMetadataSchema metadata schema = .returned status ∧
      status ≠ .OkStatus) ∧
    ∀ units, ValidateMetadataSchema metadata { schema with dimension_units := units } =
      ValidateMetadataSchema metadata schema := by
  refine ⟨?_, fun _ => rfl⟩
  unfold ValidateMetadataSchema
  by_cases hrank : EqualOrUnspecified metadata.rank schema.rank = true
  · obtain ⟨r, hr⟩ := GetEffectiveDomain_returned metadata schema hshape hrank
    have hdom : ∃ r', (if schema.domain.isSome = true then
        GetEffectiveDomain metadata.rank (some metadata.shape) schema
        else .returned (.ok none)) = .returned r' ∧
        ∀ s, r' = .error s → s = .InvalidArgument := by
      by_cases hd : schema.domain.isSome = true
      · refine ⟨r, by simp only [hd, if_true, hr], ?_⟩
        intro s hs
        rw [hs] at hr
        exact GetEffectiveDomain_error _ _ _ s hr
      · refine ⟨.ok none, by simp [hd], ?_⟩
        intro s hs
        cases hs
    obtain ⟨r', hr', herr⟩ := hdom
    simp only [hrank, Bool.not_true, Bool.false_eq_true, if_false, hr', hfill, if_true]
    cases r' with
    | error s =>
      have := herr s rfl
      subst this
      exact ⟨_, rfl, by decide⟩
    | ok v =>
      dsimp only
      split
      · exact ⟨_, rfl, by decide⟩
      · split
        · exact ⟨_, rfl, by decide⟩
        · rename_i s hs
          exact ⟨_, rfl, ConvertInvalidArgumentToFailedPrecondition_ne_ok _ (by
            intro h; exact hs h)⟩
  · simp only [hrank, Bool.not_false, if_true]
    exact ⟨_, rfl, by decide⟩

/-- C17: the half on dimension units fails. A schema that specifies dimension units and
nothing else is accepted for the dataset `float32Metadata`: the branch for units only
prints "schema_units not supported" with its checks commented out, while the branch for
the fill value before it returns `InvalidArgument`, as on the schema that specifies only
a fill value. The units never change the result. The half on the fill value holds for
every metadata whose `shape` has length `rank`; for a `shape` of another length and a
schema with a domain the call breaks a precondition of `GetEffectiveDomain` and is
undefined. -/
theorem ValidateMetadataSchema_dimension_units_accepted :
    ({ Schema.unspecified with dimension_units := some [some "nm"] } :
      Schema).dimension_units.isSome = true ∧
    ValidateMetadataSchema float32Metadata
      { Schema.unspecified with dimension_units := some [some "nm"] } =
      .returned .OkStatus ∧
    ValidateMetadataSchema float32Metadata
      { Schema.unspecified with fill_value := some [0] } = .returned .InvalidArgument ∧
    (∀ (metadata : HDF5Metadata) (schema : Schema) (units : Option (List (Option String))),
      ValidateMetadataSchema metadata { schema with dimension_units := units } =
        ValidateMetadataSchema metadata schema) ∧
    (∀ (metadata : HDF5Metadata) (schema : Schema),
      (metadata.shape.length : Int) = metadata.rank → schema.fill_value.isSome = true →
      ∃ status, ValidateMetadataSchema metadata schema = .returned status ∧
        status ≠ .OkStatus) ∧
    ValidateMetadataSchema ⟨2, [4], [2], .null, .float32_t⟩
      { Schema.unspecified with
        rank := 2, domain := some [⟨some 0, some 4⟩, ⟨some 0, some 4⟩],
        fill_value := some [0] } = .undefined := by
  refine ⟨by decide, by decide, by decide, fun _ _ _ => rfl, ?_, by decide⟩
  intro metadata schema hshape hfill
  exact (ValidateMetadataSchema_fill_value metadata schema hshape hfill).1

end internal_hdf5

namespace hdf5_driver.HDF5ChunkCacheV2

/-- C26: for the rank-0 dataset the key `()` is not usable: `GetCacheEntry(())` reads
`key.indices[0]` of an empty vector to build the cache key, so it, and with it every
`ReadChunk(())` and `WriteChunk(())`, is undefined behaviour. The other two parts hold:
`CalculateChunkCoordinates(())` returns empty offset and count, and the buffer
`ReadChunkFromHDF5` reads holds `dtype.size` bytes (8 for `float64`). -/
theorem GetCacheEntry_empty_key :
    cacheKeyOf ⟨[]⟩ = none ∧
    (∀ st : HDF5ChunkCacheV2, GetCacheEntry st ⟨[]⟩ = none) ∧
    (∀ st : HDF5ChunkCacheV2, (ReadChunk st ⟨[]⟩).1 = .undefined) ∧
    (∀ (st : HDF5ChunkCacheV2) (data : ChunkData), (WriteChunk st ⟨[]⟩ data).1 = .undefined) ∧
    (∀ d : DataType, CalculateChunkCoordinates ⟨0, [], [], d⟩ ⟨[]⟩ = some ([], [])) ∧
    (ReadChunkFromHDF5 ⟨0, [], [], .float64_t⟩ ⟨[], [], [], []⟩ ⟨[]⟩).1 =
      .returned (.ok (List.replicate 8 0)) := by
  have h : ∀ st : HDF5ChunkCacheV2, GetCacheEntry st ⟨[]⟩ = none := by
    intro st
    simp [GetCacheEntry, cacheKeyOf]
  refine ⟨rfl, h, ?_, ?_, fun _ => rfl, by decide⟩
  · intro st
    simp [ReadChunk, h]
  · intro st data
    simp [WriteChunk, h]

end hdf5_driver.HDF5ChunkCacheV2

namespace internal_hdf5

/-- C27 as stated fails: for a one-dimensional `uint8` metadata in chunks of 2 the key is
`{"chunk_shape":[2],"compression":{"id":"null"},"data_type":"uint8"}`: the element type is
under `data_type`, not `dtype`, and `compression` comes before it. -/
theorem GetCompatibilityKey_uint8 :
    HDF5Metadata.GetCompatibilityKey ⟨1, [4], [2], .null, .uint8_t⟩ =
      "\x7b\"chunk_shape\":[2],\"compression\":\x7b\"id\":\"null\"\x7d,\"data_type\":\"uint8\"\x7d" ∧
    HDF5Metadata.GetCompatibilityKey ⟨1, [4], [2], .null, .uint8_t⟩ ≠
      "\x7b\"chunk_shape\":[2],\"dtype\":\"uint8\",\"compression\":\x7b\"id\":\"null\"\x7d\x7d" := by
  decide

/-- C27, as amended: for every metadata, `GetCompatibilityKey` returns the serialization
of a JSON object whose keys are exactly `chunk_shape`, `compression` and `data_type`,
emitted in that order (the order of the keys in an `object_t`). -/
theorem GetCompatibilityKey_keys (m : HDF5Metadata) :
    m.compatibilityObject = .obj [("chunk_shape", .arr (m.chunk_shape.map .num)),
      ("compression", m.compressor.ToJson), ("data_type", .str m.dtype.name)] ∧
    m.GetCompatibilityKey = String.mk
      (Char.ofNat 123 :: (Json.dumpString "chunk_shape" ++ ':' :: '[' ::
        (Json.dumpElems (m.chunk_shape.map Json.num) ++ ']' :: ',' ::
          (Json.dumpString "compression" ++ ':' ::
            (m.compressor.ToJson.dump ++ ',' ::
              (Json.dumpString "data_type" ++ ':' ::
                (Json.dumpString m.dtype.name ++ [Char.ofNat 125]))))))) := by
  refine ⟨rfl, ?_⟩
  rw [HDF5Metadata.GetCompatibilityKey, dump_compatibilityObject]

end internal_hdf5

namespace hdf5_driver

/-! ### Dataset paths -/

theorem find_last_of_eq_none (s : List Char) (c : Char) :
    find_last_of s c = none ↔ c ∉ s := by
  induction s with
  | nil => simp [find_last_of]
  | cons x xs ih =>
    unfold find_last_of
    cases h : find_last_of xs c with
    | some pos =>
      have : c ∈ xs := by
        by_contra hc
        rw [ih.2 hc] at h
        cases h
      simp [this]
    | none =>
      have hc : c ∉ xs := ih.1 h
      by_cases hx : x = c
      · simp [hx]
      · simp [hx, hc, Ne.symm hx]

theorem find_last_of_append (a b : List Char) (c : Char) (hb : c ∉ b) :
    find_last_of (a ++ c :: b) c = some a.length := by
  induction a with
  | nil =>
    simp [find_last_of, (find_last_of_eq_none b c).2 hb]
  | cons x xs ih =>
    simp [find_last_of, ih]

theorem find_last_of_split (s : List Char) (c : Char) (pos : Nat)
    (h : find_last_of s c = some pos) :
    s = s.take pos ++ c :: s.drop (pos + 1) ∧ c ∉ s.drop (pos + 1) ∧ pos < s.length := by
  induction s generalizing pos with
  | nil => simp [find_last_of] at h
  | cons x xs ih =>
    unfold find_last_of at h
    cases hx : find_last_of xs c with
    | some q =>
      rw [hx] at h
      simp only [Option.some.injEq] at h
      subst h
      obtain ⟨h1, h2, h3⟩ := ih q hx
      refine ⟨?_, ?_, ?_⟩
      · simp only [List.take_succ_cons, List.drop_succ_cons, List.cons_append]
        rw [← h1]
      · simpa using h2
      · simpa using h3
    | none =>
      rw [hx] at h
      by_cases hxc : x = c
      · simp only [hxc, if_true, Option.some.injEq] at h
        subst h
        subst hxc
        refine ⟨by simp, ?_, by simp⟩
        simpa using (find_last_of_eq_none xs x).1 hx
      · simp [hxc] at h

/-- C30: for every dataset path `p`, `GetBaseName(p)` contains no `'/'`; `GetGroupPath(p)`
is `"/"` when `p` has no `'/'` and when its only `'/'` is its first character; and when
the last `'/'` of `p` is at a position greater than 0, `GetGroupPath(p)` is the text
before it, `GetBaseName(p)` the text after it, and `GetGroupPath(p)` followed by `'/'` and
`GetBaseName(p)` is `p`. -/
theorem GetGroupPath_GetBaseName (p : String) :
    '/' ∉ (HDF5Driver.GetBaseName p).toList ∧
    ('/' ∉ p.toList → HDF5Driver.GetGroupPath p = "/" ∧ HDF5Driver.GetBaseName p = p) ∧
    (∀ rest, p.toList = '/' :: rest → '/' ∉ rest → HDF5Driver.GetGroupPath p = "/") ∧
    (∀ a b, p.toList = a ++ '/' :: b → '/' ∉ b → a ≠ [] →
      HDF5Driver.GetGroupPath p = String.mk a ∧ HDF5Driver.GetBaseName p = String.mk b ∧
      HDF5Driver.GetGroupPath p ++ "/" ++ HDF5Driver.GetBaseName p = p) := by
  obtain ⟨l⟩ := p
  simp only [HDF5Driver.GetBaseName, HDF5Driver.GetGroupPath, String.toList]
  refine ⟨?_, ?_, ?_, ?_⟩
  · cases h : find_last_of l '/' with
    | none => exact (find_last_of_eq_none _ _).1 h
    | some pos => exact (find_last_of_split _ _ _ h).2.1
  · intro h
    rw [(find_last_of_eq_none _ _).2 h]
    exact ⟨rfl, rfl⟩
  · intro rest hp hr
    have := find_last_of_append [] rest '/' hr
    simp only [List.nil_append, List.length_nil] at this
    rw [hp, this]
    rfl
  · intro a b hp hb ha
    have h := find_last_of_append a b '/' hb
    have hlen : a.length ≠ 0 := by
      intro h0
      exact ha (List.length_eq_zero.1 h0)
    rw [hp, h]
    simp only [hlen, if_false, List.take_left', List.drop_left', List.drop_succ_cons,
      List.drop_zero, true_and]
    have e1 : List.take a.length (a ++ '/' :: b) = a := by simp
    have e2 : List.drop (a.length + 1) (a ++ '/' :: b) = b := by
      rw [← List.drop_drop]; simp
    rw [e2]
    refine ⟨rfl, ?_⟩
    apply String.ext
    simp

end hdf5_driver

namespace hdf5_driver.HDF5ChunkCacheV2

/-! ### Chunk keys parsed back from cache keys -/

theorem isDigit_bounds (c : Char) (h : c.isDigit = true) : 48 ≤ c.toNat ∧ c.toNat ≤ 57 := by
  simp only [Char.isDigit, Bool.and_eq_true, decide_eq_true_eq] at h
  exact ⟨h.1, h.2⟩

theorem stoi_digits (l : List Char) (hne : l ≠ []) (hd : ∀ c ∈ l, c.isDigit = true) :
    stoi l = if decimalValue l < 2 ^ 31 then some (decimalValue l : Int) else none := by
  obtain ⟨c, t, rfl⟩ := List.exists_cons_of_ne_nil hne
  have hc := isDigit_bounds c (hd c (List.mem_cons_self c t))
  have hsp : isspace c = false := by
    simp only [isspace, Bool.or_eq_false_iff, decide_eq_false_iff_not, Bool.and_eq_false_imp,
      decide_eq_true_eq]
    refine ⟨?_, ?_⟩
    · intro h; rw [h] at hc; simp at hc
    · intro h; omega
  have hminus : c ≠ '-' := by intro h; rw [h] at hc; simp at hc
  have hplus : c ≠ '+' := by intro h; rw [h] at hc; simp at hc
  have htake : (c :: t).takeWhile Char.isDigit = c :: t :=
    List.takeWhile_eq_self_iff.2 hd
  have hfold : ∀ (l : List Char) (a : Nat),
      l.foldl (fun (a : Int) d => 10 * a + ((d.toNat - 48 : Nat) : Int)) (a : Int) =
        ((l.foldl (fun a c => 10 * a + (c.toNat - 48)) a : Nat) : Int) := by
    intro l
    induction l with
    | nil => intro a; rfl
    | cons x xs ih =>
      intro a
      simp only [List.foldl_cons]
      rw [← ih]
      push_cast
      rfl
  have hs : (c :: t).dropWhile isspace = c :: t := by
    simp [List.dropWhile_cons, hsp]
  have hsigned : (match c :: t with
      | '-' :: t' => (true, t')
      | '+' :: t' => (false, t')
      | _ => (false, c :: t)) = ((false, c :: t) : Bool × List Char) := by
    split
    · rename_i h; injection h with h1 _; exact absurd h1 hminus
    · rename_i h; injection h with h1 _; exact absurd h1 hplus
    · rfl
  have h0 := hfold (c :: t) 0
  simp only [Nat.cast_zero] at h0
  unfold stoi
  simp only [hs, hsigned, htake, reduceCtorEq, if_false, Bool.false_eq_true, h0]
  unfold decimalValue
  generalize List.foldl (fun a c => 10 * a + (c.toNat - 48)) 0 (c :: t) = n
  by_cases hn : n < 2 ^ 31
  · have h1 : -(2 : Int) ^ 31 ≤ (n : Int) ∧ (n : Int) < 2 ^ 31 := by
      constructor
      · have : (0 : Int) ≤ (n : Int) := Int.natCast_nonneg n
        omega
      · exact_mod_cast hn
    simp only [h1, and_self, if_true, hn]
  · have h1 : ¬ (-(2 : Int) ^ 31 ≤ (n : Int) ∧ (n : Int) < 2 ^ 31) := by
      intro h
      exact hn (by exact_mod_cast h.2)
    simp only [h1, if_false, hn]

theorem stoi_toString (i : Int) (h0 : 0 ≤ i) :
    stoi (toString i).toList = if i < 2 ^ 31 then some i else none := by
  rw [toString_int_toList]
  simp only [h0, if_true]
  rw [stoi_digits _ (toDigits_ne_nil _) (toDigits_isDigit _), decimalValue_toDigits]
  have hi : ((i.toNat : Nat) : Int) = i := Int.toNat_of_nonneg h0
  by_cases h : i < 2 ^ 31
  · have : i.toNat < 2 ^ 31 := by omega
    simp only [this, if_true, h, hi]
  · have : ¬ i.toNat < 2 ^ 31 := by omega
    simp only [this, if_false, h]

theorem getlineTokens_run (l : List Char) (hl : ',' ∉ l) : ∀ (r acc : List Char),
    getlineTokens (l ++ r) acc = getlineTokens r (l.reverse ++ acc) := by
  induction l with
  | nil => intro r acc; rfl
  | cons x xs ih =>
    intro r acc
    have hx : x ≠ ',' := fun h => hl (h ▸ List.mem_cons_self x xs)
    have hxs : ',' ∉ xs := fun h => hl (List.mem_cons_of_mem x h)
    rw [List.cons_append, getlineTokens]
    simp only [hx, if_false]
    rw [ih hxs]
    simp

theorem toString_no_comma (i : Int) (h0 : 0 ≤ i) :
    ',' ∉ (toString i).toList ∧ (toString i).toList ≠ [] := by
  rw [toString_int_toList]
  simp only [h0, if_true]
  refine ⟨?_, toDigits_ne_nil _⟩
  intro h
  have := toDigits_isDigit _ _ h
  simp at this

theorem getlineTokens_indices : ∀ (rest : List Int) (i0 : Int), 0 ≤ i0 →
    (∀ i ∈ rest, 0 ≤ i) →
    getlineTokens ((toString i0).toList ++
        (rest.map (fun i => ',' :: (toString i).toList)).flatten) [] =
      (toString i0).toList :: rest.map (fun i => (toString i).toList) := by
  intro rest
  induction rest with
  | nil =>
    intro i0 h0 _
    obtain ⟨h1, h2⟩ := toString_no_comma i0 h0
    have := getlineTokens_run _ h1 [] []
    simp only [List.map_nil, List.flatten_nil, List.append_nil] at this ⊢
    rw [this]
    have h3 : (toString i0).toList.reverse ≠ [] := by
      simpa using h2
    simp only [getlineTokens, h3, if_false, List.reverse_reverse]
  | cons j t ih =>
    intro i0 h0 hr
    obtain ⟨h1, _⟩ := toString_no_comma i0 h0
    have hj : 0 ≤ j := hr j (List.mem_cons_self j t)
    have ht : ∀ i ∈ t, 0 ≤ i := fun i hi => hr i (List.mem_cons_of_mem j hi)
    simp only [List.map_cons, List.flatten_cons, List.cons_append]
    rw [getlineTokens_run _ h1]
    simp only [List.append_nil, getlineTokens, if_true, List.reverse_reverse, ih j hj ht]

theorem cacheKey_foldl (rest : List Int) : ∀ s : String,
    (rest.foldl (fun s i => s ++ "," ++ toString i) s).toList =
      s.toList ++ (rest.map (fun i => ',' :: (toString i).toList)).flatten := by
  induction rest with
  | nil => intro s; simp
  | cons i t ih =>
    intro s
    rw [List.foldl_cons, ih]
    simp [String.toList, String.data_append]

theorem mapM_stoi_toString : ∀ (l : List Int), (∀ i ∈ l, 0 ≤ i) →
    (l.map (fun i => (toString i).toList)).mapM stoi =
      if ∀ i ∈ l, i < 2 ^ 31 then some l else none := by
  intro l
  induction l with
  | nil =>
    intro _
    rw [if_pos (by simp)]
    rfl
  | cons a t ih =>
    intro hl
    have ha := hl a (List.mem_cons_self a t)
    have ht := ih (fun i hi => hl i (List.mem_cons_of_mem a hi))
    rw [List.map_cons, List.mapM_cons, stoi_toString a ha, ht]
    by_cases h1 : a < 2 ^ 31
    · by_cases h2 : ∀ i ∈ t, i < 2 ^ 31
      · have h3 : ∀ i ∈ a :: t, i < 2 ^ 31 := by
          intro i hi
          rcases List.mem_cons.1 hi with h | h
          · rw [h]; exact h1
          · exact h2 i h
        rw [if_pos h1, if_pos h2, if_pos h3]
        rfl
      · have h3 : ¬ ∀ i ∈ a :: t, i < 2 ^ 31 :=
          fun h => h2 (fun i hi => h i (List.mem_cons_of_mem a hi))
        rw [if_pos h1, if_neg h2, if_neg h3]
        rfl
    · have h3 : ¬ ∀ i ∈ a :: t, i < 2 ^ 31 :=
        fun h => h1 (h a (List.mem_cons_self a t))
      rw [if_neg h1, if_neg h3]
      rfl

theorem parseCacheKey_cacheKeyOf (i0 : Int) (rest : List Int)
    (h : ∀ i ∈ i0 :: rest, 0 ≤ i) :
    ∃ ck, cacheKeyOf ⟨i0 :: rest⟩ = some ck ∧
      parseCacheKey ck = if ∀ i ∈ i0 :: rest, i < 2 ^ 31 then some (i0 :: rest) else none := by
  refine ⟨_, rfl, ?_⟩
  have h0 := h i0 (List.mem_cons_self i0 rest)
  have hr : ∀ i ∈ rest, 0 ≤ i := fun i hi => h i (List.mem_cons_of_mem i0 hi)
  have hind : indicesStr (rest.foldl (fun s i => s ++ "," ++ toString i)
      ("chunk:" ++ toString i0)) = (toString i0).toList ++
        (rest.map (fun i => ',' :: (toString i).toList)).flatten := by
    unfold indicesStr
    rw [cacheKey_foldl]
    have : ("chunk:" ++ toString i0).toList = 'c' :: 'h' :: 'u' :: 'n' :: 'k' :: ':' ::
        (toString i0).toList := by
      simp [String.toList, String.data_append]
    rw [this]
    simp [List.dropWhile_cons]
  unfold parseCacheKey
  rw [hind, getlineTokens_indices rest i0 h0 hr]
  exact mapM_stoi_toString (i0 :: rest) h

/-- C28: the key `(2147483648)` is filed under `"chunk:2147483648"`, and parsing that
cache key back leaves by the exception of `std::stoi`, so no index list is obtained. In
general, for a non-empty key of non-negative indices the list parsed back from its cache
key is the key when every index is below `2 ^ 31`, and otherwise `std::stoi` throws. -/
theorem parseCacheKey_beyond_int :
    cacheKeyOf ⟨[2147483648]⟩ = some "chunk:2147483648" ∧
    parseCacheKey "chunk:2147483648" = none ∧
    parseCacheKey "chunk:2147483647,0" = some [2147483647, 0] ∧
    ∀ (i0 : Int) (rest : List Int), (∀ i ∈ i0 :: rest, 0 ≤ i) →
      ∃ ck, cacheKeyOf ⟨i0 :: rest⟩ = some ck ∧
        parseCacheKey ck =
          if ∀ i ∈ i0 :: rest, i < 2 ^ 31 then some (i0 :: rest) else none := by
  refine ⟨by decide, by decide, by decide, ?_⟩
  intro i0 rest h
  exact parseCacheKey_cacheKeyOf i0 rest h

end hdf5_driver.HDF5ChunkCacheV2

namespace hdf5_driver

/-! ### Attributes -/

theorem bytesOfNat_length : ∀ (k n : Nat), (bytesOfNat k n).length = k := by
  intro k
  induction k with
  | zero => intro n; rfl
  | succ k ih => intro n; simp [bytesOfNat, ih]

theorem natOfBytes_bytesOfNat : ∀ (k n : Nat), natOfBytes (bytesOfNat k n) = n % 256 ^ k := by
  intro k
  induction k with
  | zero => intro n; simp [bytesOfNat, natOfBytes, Nat.mod_one]
  | succ k ih =>
    intro n
    have h1 : (UInt8.ofNat (n % 256)).toNat = n % 256 := by
      simp [UInt8.toNat, UInt8.ofNat, Fin.ofNat, Nat.mod_mod]
    rw [bytesOfNat, natOfBytes, ih, h1, pow_succ, Nat.mul_comm (256 ^ k) 256, Nat.mod_mul]

theorem int64OfNat_toNat (v : Int) (h1 : -(2 ^ 63) ≤ v) (h2 : v < 2 ^ 63) :
    int64OfNat (v % 2 ^ 64).toNat = v := by
  unfold int64OfNat
  have h3 : (0 : Int) ≤ v % 2 ^ 64 := Int.emod_nonneg _ (by norm_num)
  have h4 : v % 2 ^ 64 < 2 ^ 64 := Int.emod_lt_of_pos _ (by norm_num)
  have h5 : (v % 2 ^ 64).toNat % 2 ^ 64 = (v % 2 ^ 64).toNat := by
    apply Nat.mod_eq_of_lt
    omega
  rw [h5]
  split <;> omega

namespace AttributeManager

/-- C21: `WriteMetadata(name, v)` fails with `InvalidArgument` for the object
`{"tags":["a","b"],"v":1}` and creates no attribute, so the following `ReadMetadata(name)`
returns `NotFound`; the same holds for every object and every array `v`, every name and
every dataset. -/
theorem WriteMetadata_object_rejected :
    HDF5Driver.WriteMetadata ⟨[]⟩ "info"
        (.object [("tags", .array [.string [97], .string [98]]), ("v", .number_integer 1)]) =
      (.returned .InvalidArgument, ⟨[]⟩) ∧
    HDF5Driver.ReadMetadata ⟨[]⟩ "info" = .returned (.error .NotFound) ∧
    (∀ (dataset : H5Object) (name : String) (members : List (String × nlohmann.json)),
      HDF5Driver.WriteMetadata dataset name (.object members) =
        (.returned .InvalidArgument, dataset)) ∧
    (∀ (dataset : H5Object) (name : String) (elems : List nlohmann.json),
      HDF5Driver.WriteMetadata dataset name (.array elems) =
        (.returned .InvalidArgument, dataset)) ∧
    (∀ (dataset : H5Object) (name : String), HasAttribute dataset name = false →
      HDF5Driver.ReadMetadata dataset name = .returned (.error .NotFound)) := by
  refine ⟨rfl, rfl, fun _ _ _ => rfl, fun _ _ _ => rfl, ?_⟩
  intro dataset name h
  simp [HDF5Driver.ReadMetadata, ReadJsonAttribute, h]

/-- C22: `ConvertJsonToHDF5` rejects the integer 5 held as `number_unsigned` (and every
`number_unsigned` value) with `InvalidArgument`. For a `number_integer` value `v` in the
`int64_t` range it returns the 8-byte integer type with 8 bytes, and for a string the
string type with the bytes of the string; `ConvertHDF5ToJson` of that type, those bytes
and their count gives the value back. -/
theorem ConvertJsonToHDF5_number_unsigned :
    ConvertJsonToHDF5 (.number_unsigned 5) = .error .InvalidArgument ∧
    (∀ n : Nat, ConvertJsonToHDF5 (.number_unsigned n) = .error .InvalidArgument) ∧
    (∀ v : Int, -(2 ^ 63) ≤ v → v < 2 ^ 63 →
      ConvertJsonToHDF5 (.number_integer v) =
        .ok (H5NativeType.toH5Type .INT64, bytesOfNat 8 (v % 2 ^ 64).toNat) ∧
      (bytesOfNat 8 (v % 2 ^ 64).toNat).length = 8 ∧
      ConvertHDF5ToJson (H5NativeType.toH5Type .INT64) (bytesOfNat 8 (v % 2 ^ 64).toNat) 8 =
        .returned (.ok (.number_integer v))) ∧
    (∀ s : List UInt8,
      ConvertJsonToHDF5 (.string s) = .ok (H5Tset_size H5T_C_S1 s.length, s) ∧
      (H5Tset_size H5T_C_S1 s.length).type_class = .H5T_STRING ∧
      (s ≠ [] → (H5Tset_size H5T_C_S1 s.length).size = s.length) ∧
      ConvertHDF5ToJson (H5Tset_size H5T_C_S1 s.length) s s.length =
        .returned (.ok (.string s))) := by
  refine ⟨rfl, fun _ => rfl, ?_, ?_⟩
  · intro v h1 h2
    refine ⟨rfl, bytesOfNat_length _ _, ?_⟩
    have hl := bytesOfNat_length 8 (v % 2 ^ 64).toNat
    have ht : (bytesOfNat 8 (v % 2 ^ 64).toNat).take 8 = bytesOfNat 8 (v % 2 ^ 64).toNat := by
      apply List.take_of_length_le
      rw [hl]
    have h3 : (0 : Int) ≤ v % 2 ^ 64 := Int.emod_nonneg _ (by norm_num)
    have h4 : v % 2 ^ 64 < 2 ^ 64 := Int.emod_lt_of_pos _ (by norm_num)
    have hm : (v % 2 ^ 64).toNat % 256 ^ 8 = (v % 2 ^ 64).toNat := by
      apply Nat.mod_eq_of_lt
      have : (256 : Nat) ^ 8 = 2 ^ 64 := by norm_num
      omega
    have hc : (H5NativeType.toH5Type .INT64).type_class = .H5T_INTEGER := rfl
    simp only [ConvertHDF5ToJson, hc, hl, lt_irrefl, if_false, ht, natOfBytes_bytesOfNat, hm,
      int64OfNat_toNat v h1 h2]
  · intro s
    have hc : (H5Tset_size H5T_C_S1 s.length).type_class = .H5T_STRING := by
      unfold H5Tset_size
      split <;> rfl
    refine ⟨rfl, hc, ?_, ?_⟩
    · intro hs
      have : s.length ≠ 0 := fun h => hs (List.length_eq_zero.1 h)
      simp [H5Tset_size, this]
    · simp only [ConvertHDF5ToJson, hc, lt_irrefl, if_false, List.take_length]

end AttributeManager

end hdf5_driver

namespace hdf5_driver.HDF5ChunkCache

/-! ### Reading and writing chunks through the simple cache -/

/-- The product `std::accumulate` forms in `size_t` is the product of the chunk extents
modulo `2 ^ 64`, for extents of either sign. -/
theorem chunks_foldl (chunks : List Int) : ∀ a : Nat,
    ((chunks.foldl (fun acc c => acc * to_hsize_t c % 2 ^ 64) a : Nat) : Int) ≡
      a * chunks.prod [ZMOD 2 ^ 64] := by
  induction chunks with
  | nil => intro a; simp [Int.ModEq]
  | cons c t ih =>
    intro a
    have hc : ((to_hsize_t c : Nat) : Int) = c % 2 ^ 64 := by
      unfold to_hsize_t
      exact Int.toNat_of_nonneg (Int.emod_nonneg _ (by norm_num))
    have h1 : ((a * to_hsize_t c % 2 ^ 64 : Nat) : Int) ≡ a * c [ZMOD 2 ^ 64] := by
      rw [Int.natCast_mod, Nat.cast_mul, hc]
      exact (Int.mod_modEq _ _).trans ((Int.ModEq.refl _).mul (Int.mod_modEq _ _))
    rw [List.foldl_cons, List.prod_cons, ← mul_assoc]
    exact (ih _).trans (h1.mul_right _)

theorem GetChunkSizeInBytes_eq (metadata_ : HDF5DatasetMetadata) (dtype : DataType)
    (hdtype : metadata_.dtype = some dtype) :
    GetChunkSizeInBytes metadata_ =
      some (metadata_.chunks.prod * dtype.size % 2 ^ 64).toNat := by
  have h1 := (chunks_foldl metadata_.chunks 1).mul_right (dtype.size : Int)
  rw [Nat.cast_one, one_mul] at h1
  unfold GetChunkSizeInBytes
  rw [hdtype, Option.map_some']
  congr 1
  apply Int.ofNat_inj.mp
  rw [Int.toNat_of_nonneg (Int.emod_nonneg _ (by norm_num))]
  rw [← h1]
  push_cast
  rfl

/-- C29, with the product as the code forms it: on an `HDF5ChunkCache` whose `dtype`
converts to a container type, `WriteChunk(indices, data)` returns `InvalidArgument` if
and only if `data.size()` is not `product(metadata.chunks) * dtype.size` modulo `2 ^ 64`,
the value `GetChunkSizeInBytes` computes in `size_t`, and then the cache and the dataset
are as before: no container write is performed. For non-negative chunk extents and a
chunk of fewer than `2 ^ 64` bytes that value is `product(metadata.chunks) * dtype.size`
itself. -/
theorem WriteChunk_InvalidArgument_iff (metadata_ : HDF5DatasetMetadata)
    (st : HDF5ChunkCache) (chunk_indices : List Int) (data : List UInt8) (dtype : DataType)
    (h5_type : H5NativeType) (hdtype : metadata_.dtype = some dtype)
    (hvalid : ConvertToHDF5Type (some dtype) = .ok h5_type) :
    ((WriteChunk metadata_ st chunk_indices data).1 = .returned .InvalidArgument ↔
      (data.length : Int) ≠ metadata_.chunks.prod * dtype.size % 2 ^ 64) ∧
    ((data.length : Int) ≠ metadata_.chunks.prod * dtype.size % 2 ^ 64 →
      (WriteChunk metadata_ st chunk_indices data).2 = st ∧
      (WriteChunk metadata_ st chunk_indices data).2.dataset.writes = st.dataset.writes) ∧
    ((∀ c ∈ metadata_.chunks, 0 ≤ c) → metadata_.chunks.prod * dtype.size < 2 ^ 64 →
      metadata_.chunks.prod * dtype.size % 2 ^ 64 = metadata_.chunks.prod * dtype.size) := by
  have hsize := GetChunkSizeInBytes_eq metadata_ dtype hdtype
  have hh : h5_type_ metadata_ = some h5_type := by
    simp only [h5_type_, hdtype, hvalid]
  have hcast : (((metadata_.chunks.prod * dtype.size % 2 ^ 64).toNat : Nat) : Int) =
      metadata_.chunks.prod * dtype.size % 2 ^ 64 :=
    Int.toNat_of_nonneg (Int.emod_nonneg _ (by norm_num))
  have hiff : (some data.length ≠ some (metadata_.chunks.prod * dtype.size % 2 ^ 64).toNat) ↔
      (data.length : Int) ≠ metadata_.chunks.prod * dtype.size % 2 ^ 64 := by
    constructor
    · intro h heq
      apply h
      congr 1
      apply Int.ofNat_inj.mp
      rw [hcast]
      exact heq
    · intro h heq
      apply h
      rw [← hcast, Option.some.inj heq]
  refine ⟨?_, ?_, ?_⟩
  · by_cases hne : (data.length : Int) ≠ metadata_.chunks.prod * dtype.size % 2 ^ 64
    · have h1 := hiff.2 hne
      simp only [WriteChunk, hh, hsize, h1, if_true, hne, not_false_eq_true, ne_eq]
    · have h1 : ¬ (some data.length ≠
          some (metadata_.chunks.prod * dtype.size % 2 ^ 64).toNat) :=
        fun h => hne (hiff.1 h)
      simp only [WriteChunk, hh, hsize, h1, if_false, hne, iff_false]
      split
      · simp
      · split <;> simp
  · intro hne
    have h1 := hiff.2 hne
    simp only [WriteChunk, hh, hsize]
    rw [if_pos h1]
    exact ⟨rfl, rfl⟩
  · intro hchunks hfits
    have hp : 0 ≤ metadata_.chunks.prod := List.prod_nonneg hchunks
    exact Int.emod_eq_of_lt (mul_nonneg hp (Int.natCast_nonneg _)) hfits

/-- The hypotheses of C29 hold for the dataset of the unit test (`uint8`, chunks of
`2 × 2`): three bytes are refused with `InvalidArgument` and nothing is written. -/
theorem WriteChunk_InvalidArgument_iff_witness :
    ((WriteChunk testMetadata (create ⟨[], [], [], []⟩) [0, 0] [0, 1, 2]).1 =
        .returned .InvalidArgument ↔
      (([0, 1, 2] : List UInt8).length : Int) ≠
        testMetadata.chunks.prod * DataType.uint8_t.size % 2 ^ 64) ∧
    ((([0, 1, 2] : List UInt8).length : Int) ≠
        testMetadata.chunks.prod * DataType.uint8_t.size % 2 ^ 64 →
      (WriteChunk testMetadata (create ⟨[], [], [], []⟩) [0, 0] [0, 1, 2]).2 =
        create ⟨[], [], [], []⟩ ∧
      (WriteChunk testMetadata (create ⟨[], [], [], []⟩) [0, 0] [0, 1, 2]).2.dataset.writes =
        (create ⟨[], [], [], []⟩).dataset.writes) ∧
    ((∀ c ∈ testMetadata.chunks, 0 ≤ c) →
      testMetadata.chunks.prod * DataType.uint8_t.size < 2 ^ 64 →
      testMetadata.chunks.prod * DataType.uint8_t.size % 2 ^ 64 =
        testMetadata.chunks.prod * DataType.uint8_t.size) :=
  WriteChunk_InvalidArgument_iff testMetadata (create ⟨[], [], [], []⟩) [0, 0] [0, 1, 2]
    .uint8_t .UINT8 rfl rfl

/-- C29 as stated fails where the product leaves `size_t`: on a `uint8` dataset with
chunks of `2 ^ 32 × 2 ^ 32`, whose container type is valid, `GetChunkSizeInBytes` is 0;
an empty `data`, whose size is not `product(metadata.chunks) * dtype.size = 2 ^ 64`, is
not refused: `WriteChunk` returns OK and the container write is performed. -/
theorem WriteChunk_wrapped_chunk_size :
    ConvertToHDF5Type (some .uint8_t) = .ok .UINT8 ∧
    (([] : List UInt8).length : Int) ≠
      ([4294967296, 4294967296] : List Int).prod * DataType.uint8_t.size ∧
    GetChunkSizeInBytes ⟨2, [8589934592, 8589934592], [4294967296, 4294967296],
      some .uint8_t, [], H5NativeType.toH5Type .UINT8⟩ = some 0 ∧
    (WriteChunk ⟨2, [8589934592, 8589934592], [4294967296, 4294967296], some .uint8_t, [],
      H5NativeType.toH5Type .UINT8⟩ (create ⟨[], [], [], []⟩) [0, 0] []).1 =
      .returned .OkStatus ∧
    (WriteChunk ⟨2, [8589934592, 8589934592], [4294967296, 4294967296], some .uint8_t, [],
      H5NativeType.toH5Type .UINT8⟩ (create ⟨[], [], [], []⟩) [0, 0] []).2.dataset.writes =
      [⟨[0, 0], [4294967296, 4294967296], [], true⟩] := by
  refine ⟨rfl, by decide, by decide, by decide, by decide⟩

/-- C23: on the dataset of the unit test, `WriteChunk((0, 0), data)` with the four bytes
`0, 1, 2, 3` succeeds and the following `ReadChunk((0, 0))` returns those bytes, read
back from the container; but no entry is made. On the cache the constructor builds,
`GetStats` then dereferences the null `cache_`, which is undefined; on a state with a
live, empty entry store it reports `num_entries = 0` and `total_size = 0`. In every state
`WriteChunk` and `ReadChunk` leave the entry store as it was. -/
theorem GetStats_after_WriteChunk_ReadChunk :
    (WriteChunk testMetadata ⟨⟨[], [], [], []⟩, some []⟩ [0, 0] [0, 1, 2, 3]).1 =
      .returned .OkStatus ∧
    (ReadChunk testMetadata
      (WriteChunk testMetadata ⟨⟨[], [], [], []⟩, some []⟩ [0, 0] [0, 1, 2, 3]).2 [0, 0]).1 =
      .returned (.ok [0, 1, 2, 3]) ∧
    GetStats (ReadChunk testMetadata
      (WriteChunk testMetadata ⟨⟨[], [], [], []⟩, some []⟩ [0, 0] [0, 1, 2, 3]).2 [0, 0]).2 =
      .returned ⟨0, 0, 0⟩ ∧
    (WriteChunk testMetadata (create ⟨[], [], [], []⟩) [0, 0] [0, 1, 2, 3]).1 =
      .returned .OkStatus ∧
    (ReadChunk testMetadata
      (WriteChunk testMetadata (create ⟨[], [], [], []⟩) [0, 0] [0, 1, 2, 3]).2 [0, 0]).1 =
      .returned (.ok [0, 1, 2, 3]) ∧
    GetStats (ReadChunk testMetadata
      (WriteChunk testMetadata (create ⟨[], [], [], []⟩) [0, 0] [0, 1, 2, 3]).2 [0, 0]).2 =
      .undefined ∧
    (∀ (metadata_ : HDF5DatasetMetadata) (st : HDF5ChunkCache) (chunk_indices : List Int)
      (data : List UInt8),
      (WriteChunk metadata_ st chunk_indices data).2.cache_ = st.cache_ ∧
      (ReadChunk metadata_ st chunk_indices).2.cache_ = st.cache_) := by
  refine ⟨by decide, by decide, by decide, by decide, by decide, by decide, ?_⟩
  intro metadata_ st chunk_indices data
  constructor
  · unfold WriteChunk
    repeat' split
    all_goals rfl
  · unfold ReadChunk
    repeat' split
    all_goals rfl

end hdf5_driver.HDF5ChunkCache

namespace hdf5_driver

/-! ### Schemas of a dataset -/

theorem validateDimensions_eq (dims : List DimensionProperties) : ∀ (l : List Nat),
    (∀ i ∈ l, i < dims.length) →
    validateDimensions dims l =
      if ∀ i ∈ l, (dims.getD i ⟨none, none⟩).invalid = false then .returned .OkStatus
      else .returned .InvalidArgument := by
  intro l
  induction l with
  | nil => intro _; simp [validateDimensions]
  | cons i t ih =>
    intro h
    have hi := h i (List.mem_cons_self i t)
    have ht := ih (fun j hj => h j (List.mem_cons_of_mem i hj))
    rw [validateDimensions, getElem?_eq_some_getD dims i ⟨none, none⟩ hi]
    by_cases hinv : (dims.getD i ⟨none, none⟩).invalid = true
    · have : ¬ ∀ j ∈ i :: t, (dims.getD j ⟨none, none⟩).invalid = false := by
        intro hall
        have := hall i (List.mem_cons_self i t)
        rw [hinv] at this
        cases this
      simp only [hinv, if_true]
      rw [if_neg this]
    · have hf : (dims.getD i ⟨none, none⟩).invalid = false := by
        simpa using hinv
      simp only [hf, Bool.false_eq_true, if_false, ht]
      by_cases hall : ∀ j ∈ t, (dims.getD j ⟨none, none⟩).invalid = false
      · have : ∀ j ∈ i :: t, (dims.getD j ⟨none, none⟩).invalid = false := by
          intro j hj
          rcases List.mem_cons.1 hj with h1 | h1
          · rw [h1]; exact hf
          · exact hall j h1
        rw [if_pos hall, if_pos this]
      · have : ¬ ∀ j ∈ i :: t, (dims.getD j ⟨none, none⟩).invalid = false :=
          fun h' => hall (fun j hj => h' j (List.mem_cons_of_mem i hj))
        rw [if_neg hall, if_neg this]

theorem invalid_eq_false (d : DimensionProperties) :
    d.invalid = false ↔
      (∀ size, d.size = some size → 0 ≤ size) ∧
      (∀ chunk_size, d.chunk_size = some chunk_size → 0 < chunk_size) := by
  obtain ⟨size, chunk_size⟩ := d
  cases size <;> cases chunk_size <;> simp [DimensionProperties.invalid]

theorem all_range_getD (dims : List DimensionProperties) (p : DimensionProperties → Prop) :
    (∀ i ∈ List.range dims.length, p (dims.getD i ⟨none, none⟩)) ↔ ∀ d ∈ dims, p d := by
  constructor
  · intro h d hd
    obtain ⟨i, hi, rfl⟩ := List.getElem_of_mem hd
    have := h i (List.mem_range.2 hi)
    rw [List.getD_eq_getElem _ _ hi] at this
    exact this
  · intro h i hi
    have hi' := List.mem_range.1 hi
    rw [List.getD_eq_getElem _ _ hi']
    exact h _ (List.getElem_mem _)

/-- What `ValidateSchema` accepts: a rank of at least 1, a data type, and in every
dimension a specified size of at least 0 and a specified chunk size above 0. -/
theorem ValidateSchema_cases (schema : Schema)
    (hdims : ∀ dims rank, schema.dimension_properties = some dims →
      schema.rank = some rank → (dims.length : Int) = rank) :
    (((∃ rank, schema.rank = some rank ∧ 1 ≤ rank) ∧ schema.dtype.isSome = true ∧
        ∀ dims, schema.dimension_properties = some dims → ∀ d ∈ dims,
          (∀ size, d.size = some size → 0 ≤ size) ∧
          (∀ chunk_size, d.chunk_size = some chunk_size → 0 < chunk_size)) →
      ValidateSchema schema = .returned .OkStatus) ∧
    (¬ ((∃ rank, schema.rank = some rank ∧ 1 ≤ rank) ∧ schema.dtype.isSome = true ∧
        ∀ dims, schema.dimension_properties = some dims → ∀ d ∈ dims,
          (∀ size, d.size = some size → 0 ≤ size) ∧
          (∀ chunk_size, d.chunk_size = some chunk_size → 0 < chunk_size)) →
      ValidateSchema schema = .returned .InvalidArgument) := by
  obtain ⟨rank, dtype, dc, dp, cl⟩ := schema
  cases rank with
  | none => simp [ValidateSchema]
  | some rank =>
    cases dtype with
    | none => simp [ValidateSchema]
    | some dtype =>
      by_cases hr : rank < 1
      · have : ¬ 1 ≤ rank := by omega
        simp [ValidateSchema, hr, this]
      · have h1 : 1 ≤ rank := by omega
        cases dp with
        | none => simp [ValidateSchema, hr, h1]
        | some dims =>
          have hlen : (dims.length : Int) = rank := hdims dims rank rfl rfl
          have hn : rank.toNat = dims.length := by omega
          have hv := validateDimensions_eq dims (List.range dims.length)
            (fun i hi => List.mem_range.1 hi)
          have hall := all_range_getD dims (fun d => d.invalid = false)
          have hVS : ValidateSchema ⟨some rank, some dtype, dc, some dims, cl⟩ =
              validateDimensions dims (List.range dims.length) := by
            simp only [ValidateSchema, Option.isNone_some, Bool.false_eq_true, if_false, hr, hn]
          rw [hVS, hv]
          constructor
          · rintro ⟨_, _, h⟩
            have hgood : ∀ d ∈ dims, d.invalid = false :=
              fun d hd => (invalid_eq_false d).2 (h dims rfl d hd)
            rw [if_pos (hall.2 hgood)]
          · intro hnot
            have hbad : ¬ ∀ d ∈ dims, d.invalid = false := by
              intro hgood
              apply hnot
              refine ⟨⟨rank, rfl, h1⟩, rfl, ?_⟩
              intro dims' hd' d hd
              cases hd'
              exact (invalid_eq_false d).1 (hgood d hd)
            rw [if_neg (fun h => hbad (hall.1 h))]

/-- C24: for a schema whose dimension properties, when it has any, are as many as its
rank, `ValidateSchema(schema)` returns OK if and only if the schema specifies a rank that
is at least 1 and a data type, every specified dimension size is at least 0 and every
specified chunk size is above 0; in every other case it returns `InvalidArgument`; the
empty schema is such a case. -/
theorem ValidateSchema_ok_iff (schema : Schema)
    (hdims : ∀ dims rank, schema.dimension_properties = some dims →
      schema.rank = some rank → (dims.length : Int) = rank) :
    (ValidateSchema schema = .returned .OkStatus ↔
      ((∃ rank, schema.rank = some rank ∧ 1 ≤ rank) ∧ schema.dtype.isSome = true ∧
        ∀ dims, schema.dimension_properties = some dims → ∀ d ∈ dims,
          (∀ size, d.size = some size → 0 ≤ size) ∧
          (∀ chunk_size, d.chunk_size = some chunk_size → 0 < chunk_size))) ∧
    (ValidateSchema schema ≠ .returned .OkStatus →
      ValidateSchema schema = .returned .InvalidArgument) ∧
    ValidateSchema ⟨none, none, none, none, none⟩ = .returned .InvalidArgument := by
  obtain ⟨h1, h2⟩ := ValidateSchema_cases schema hdims
  refine ⟨⟨?_, h1⟩, ?_, rfl⟩
  · intro hok
    by_contra hnot
    rw [h2 hnot] at hok
    cases hok
  · intro hne
    by_contra hinv
    apply hinv
    apply h2
    intro hc
    exact hne (h1 hc)

/-- A schema of rank 2 and `float32` with the dimension sizes 4 and 6 and the chunk size 2
in the first dimension. -/
theorem ValidateSchema_ok_iff_witness :
    (ValidateSchema ⟨some 2, some .float32_t, none,
        some [⟨some 4, some 2⟩, ⟨some 6, none⟩], none⟩ = .returned .OkStatus ↔
      ((∃ rank, (⟨some 2, some .float32_t, none,
          some [⟨some 4, some 2⟩, ⟨some 6, none⟩], none⟩ : Schema).rank = some rank ∧
          1 ≤ rank) ∧
        (⟨some 2, some .float32_t, none,
          some [⟨some 4, some 2⟩, ⟨some 6, none⟩], none⟩ : Schema).dtype.isSome = true ∧
        ∀ dims, (⟨some 2, some .float32_t, none,
            some [⟨some 4, some 2⟩, ⟨some 6, none⟩], none⟩ : Schema).dimension_properties =
            some dims → ∀ d ∈ dims,
          (∀ size, d.size = some size → 0 ≤ size) ∧
          (∀ chunk_size, d.chunk_size = some chunk_size → 0 < chunk_size))) ∧
    (ValidateSchema ⟨some 2, some .float32_t, none,
        some [⟨some 4, some 2⟩, ⟨some 6, none⟩], none⟩ ≠ .returned .OkStatus →
      ValidateSchema ⟨some 2, some .float32_t, none,
        some [⟨some 4, some 2⟩, ⟨some 6, none⟩], none⟩ = .returned .InvalidArgument) ∧
    ValidateSchema ⟨none, none, none, none, none⟩ = .returned .InvalidArgument :=
  ValidateSchema_ok_iff
    ⟨some 2, some .float32_t, none, some [⟨some 4, some 2⟩, ⟨some 6, none⟩], none⟩
    (fun _ _ h1 h2 => by cases h1; cases h2; rfl)

theorem mapM_cons_none {α β : Type} (f : α → Option β) (a : α) (t : List α)
    (h : f a = none) : (a :: t).mapM f = none := by
  rw [List.mapM_cons, h]; rfl

/-- C25: for the metadata `OpenDatasetInGroup` returns for a `4 × 6` dataset of `float`
(shape of length rank, a container type that converts to `float32`, no dimension labels)
`GetSchemaFromHDF5` reads `dimension_labels[0]` outside the vector, which is undefined
behaviour; so it is for every metadata of rank at least 1 without labels whose type
converts. When `shape` and `dimension_labels` both have `rank` entries it succeeds with
the rank, the converted dtype and, for each dimension, the bounds `[0, shape[i])` and the
label when that is not empty. -/
theorem GetSchemaFromHDF5_without_labels :
    HDF5Driver.OpenDatasetInGroup
        [("d", ⟨[4, 6], H5NativeType.toH5Type .FLOAT, some [2, 3]⟩)] "d" =
      .ok ⟨2, [4, 6], [2, 3], none, [], H5NativeType.toH5Type .FLOAT⟩ ∧
    ConvertHDF5Type (H5NativeType.toH5Type .FLOAT) = .ok .float32_t ∧
    GetSchemaFromHDF5 ⟨2, [4, 6], [2, 3], none, [], H5NativeType.toH5Type .FLOAT⟩ =
      .undefined ∧
    (∀ (metadata : HDF5DatasetMetadata) (dtype : DataType),
      ConvertHDF5Type metadata.h5_type = .ok dtype → 0 < metadata.rank →
      metadata.dimension_labels = [] → GetSchemaFromHDF5 metadata = .undefined) ∧
    (∀ (metadata : HDF5DatasetMetadata) (dtype : DataType),
      ConvertHDF5Type metadata.h5_type = .ok dtype →
      (metadata.shape.length : Int) = metadata.rank →
      (metadata.dimension_labels.length : Int) = metadata.rank →
      ∃ schema, GetSchemaFromHDF5 metadata = .returned (.ok schema) ∧
        schema.rank = some metadata.rank ∧ schema.dtype = some dtype ∧
        schema.dimension_constraints = some ((List.range metadata.rank.toNat).map (fun i =>
          ⟨some (0, metadata.shape.getD i 0),
            if metadata.dimension_labels.getD i "" = "" then none
            else some (metadata.dimension_labels.getD i "")⟩))) := by
  refine ⟨by decide, by decide, by decide, ?_, ?_⟩
  · intro metadata dtype hconv hrank hlabels
    obtain ⟨n, hn⟩ : ∃ n, metadata.rank.toNat = n + 1 := ⟨metadata.rank.toNat - 1, by omega⟩
    have h0 : schemaDimension metadata 0 = none := by
      unfold schemaDimension
      rw [hlabels]
      split
      · rename_i h1 h2; simp at h2
      · rfl
    have hm : (List.range metadata.rank.toNat).mapM (schemaDimension metadata) = none := by
      rw [hn, List.range_succ_eq_map]
      exact mapM_cons_none _ _ _ h0
    simp only [GetSchemaFromHDF5, hconv, hm]
  · intro metadata dtype hconv hshape hlabels
    have hm : (List.range metadata.rank.toNat).mapM (schemaDimension metadata) =
        some ((List.range metadata.rank.toNat).map (fun i =>
          (⟨some (0, metadata.shape.getD i 0),
            if metadata.dimension_labels.getD i "" = "" then none
            else some (metadata.dimension_labels.getD i "")⟩ : DimensionConstraints))) := by
      apply mapM_option_eq_some
      intro i hi
      have hi' := List.mem_range.1 hi
      have h1 : i < metadata.shape.length := by omega
      have h2 : i < metadata.dimension_labels.length := by omega
      simp only [schemaDimension, getElem?_eq_some_getD metadata.shape i 0 h1,
        getElem?_eq_some_getD metadata.dimension_labels i "" h2]
    have hr : ¬ metadata.rank < 0 := by omega
    simp only [GetSchemaFromHDF5, hconv, hm, hr, if_false]
    split <;> exact ⟨_, rfl, rfl, rfl, rfl⟩

end hdf5_driver

end tensorstore
